import Mathlib

/-! # EqicGames: the A2A platform registry and transfer engine

A shallow embedding of `src/scripts/a2a/platforms.js` (class `A2APlatforms`) and
`src/scripts/a2a/transfer.js` (class `A2ATransfer`), followed by the properties
established about them.

Conventions of the embedding.

* A number stored in an object (a fee, an asset value, a configuration field) is kept
  as a rational: the value as written.  `checkTransferCompatibility` and
  `_calculateFee` carry these numbers through the formula of the source in exact
  arithmetic (`JSNum`, with `none` for the `NaN` that arithmetic on a missing field
  gives).  The doubles the code computes from the same stored numbers, every
  operation rounding to the nearest double, are given by `JSDouble`,
  `A2APlatforms.estimatedFee64` and `A2ATransfer._calculateFee64`; what is said about
  the value of an estimate or of a fee as the code returns it is stated about these.
* A platform object is a record of optional typed fields.  `platformData` passed to
  `updatePlatform` is such a record as well: a field is either absent or carries a
  value of the type the constructor gives it.
* `this.platforms` is an ordinary JavaScript object.  Its own enumerable properties
  are kept as an association list in `Object.entries` order, and a property read
  `this.platforms[k]` follows JavaScript property lookup: own properties first, then
  the prototype chain (`Object.prototype`, or the object installed by an assignment to
  the key `__proto__`).
* The clock and the random source are explicit arguments.
-/

namespace EqicGames

/-! ## JavaScript values -/

/-- A number in exact arithmetic: a rational, or `none` for `NaN`. -/
abbrev JSNum := Option ℚ

/-- The sum `a + b` in exact arithmetic, where an operand may be `NaN`/`undefined`
(`JSDouble.add` is the sum the code computes). -/
def JSNum.add (a b : JSNum) : JSNum :=
  match a, b with
  | some x, some y => some (x + y)
  | _, _ => none

/-- The product `a * b` in exact arithmetic, where an operand may be
`NaN`/`undefined` (`JSDouble.mul` is the product the code computes). -/
def JSNum.mul (a b : JSNum) : JSNum :=
  match a, b with
  | some x, some y => some (x * y)
  | _, _ => none

/-- The typed fields a platform object may carry (each one possibly absent). -/
structure PlatformFields where
  id : Option String := none
  name : Option String := none
  icon : Option String := none
  description : Option String := none
  transferFee : Option ℚ := none
  estimatedTime : Option String := none
  supported : Option Bool := none
  testnet : Option Bool := none
  mainnet : Option Bool := none
  deriving DecidableEq

/-- A platform object as stored in `this.platforms`: its typed fields, and, when
the object was built by spreading a string, that string, whose index properties
`"0"`, `"1"`, ... the object then owns (`indexed` is empty for every object built
from platform records only). -/
structure PlatformData where
  fields : PlatformFields := {}
  indexed : String := ""
  deriving DecidableEq

/-- A primitive JavaScript value. -/
inductive Prim where
  | str (s : String)
  | num (q : ℚ)
  | bool (b : Bool)
  deriving DecidableEq

/-- The value of a property read `this.platforms[k]`. -/
inductive JSVal where
  | undefined
  | prim (p : Prim)
  | func
  | object (r : PlatformData)
  deriving DecidableEq

/-- JavaScript truthiness of a primitive. -/
def Prim.truthy : Prim → Bool
  | .str s => s != ""
  | .num q => q != 0
  | .bool b => b

/-- JavaScript truthiness (`!v` is its negation). -/
def JSVal.truthy : JSVal → Bool
  | .undefined => false
  | .prim p => p.truthy
  | .func => true
  | .object _ => true

/-- The read `v.supported`: only a platform object can own the field; on a
primitive or a built-in function it is `undefined`. -/
def JSVal.supported : JSVal → Option Bool
  | .object r => r.fields.supported
  | _ => none

/-- The read `v.transferFee` (`none` is `undefined`). -/
def JSVal.transferFee : JSVal → Option ℚ
  | .object r => r.fields.transferFee
  | _ => none

/-- Truthiness of an optional boolean field (`undefined` is falsy). -/
def truthyFlag : Option Bool → Bool
  | some b => b
  | none => false

/-- The object spread `{...v}`: the own enumerable properties of `v`.  A built-in
function, a number and a boolean have none; a string has its index properties. -/
def JSVal.spread : JSVal → PlatformData
  | .object r => r
  | .prim (.str s) => { indexed := s }
  | _ => {}

/-- The merge `{...a, ...b}` on typed fields: a field of `b` wins when present. -/
def PlatformFields.merge (a b : PlatformFields) : PlatformFields where
  id := b.id <|> a.id
  name := b.name <|> a.name
  icon := b.icon <|> a.icon
  description := b.description <|> a.description
  transferFee := b.transferFee <|> a.transferFee
  estimatedTime := b.estimatedTime <|> a.estimatedTime
  supported := b.supported <|> a.supported
  testnet := b.testnet <|> a.testnet
  mainnet := b.mainnet <|> a.mainnet

/-- The object `{...a, ...platformData}`. -/
def PlatformData.merge (a : PlatformData) (b : PlatformFields) : PlatformData where
  fields := a.fields.merge b
  indexed := a.indexed

/-- The object `{ id: key, ...platform }`: the key is written first and the
spread comes after it, so an `id` field of `platform` itself overrides the key. -/
def withId (key : String) (platform : PlatformData) : PlatformData :=
  { fields := ({ id := some key } : PlatformFields).merge platform.fields
    indexed := platform.indexed }

/-- The read `o[k]` of a typed field of an object by its property name. -/
def PlatformFields.prop (o : PlatformFields) (k : String) : Option Prim :=
  if k = "id" then o.id.map Prim.str
  else if k = "name" then o.name.map Prim.str
  else if k = "icon" then o.icon.map Prim.str
  else if k = "description" then o.description.map Prim.str
  else if k = "transferFee" then o.transferFee.map Prim.num
  else if k = "estimatedTime" then o.estimatedTime.map Prim.str
  else if k = "supported" then o.supported.map Prim.bool
  else if k = "testnet" then o.testnet.map Prim.bool
  else if k = "mainnet" then o.mainnet.map Prim.bool
  else none

/-- The method names every object inherits from `Object.prototype`. -/
def objectPrototypeMethods : List String :=
  ["constructor", "__defineGetter__", "__defineSetter__", "hasOwnProperty",
   "__lookupGetter__", "__lookupSetter__", "isPrototypeOf", "propertyIsEnumerable",
   "toString", "valueOf", "toLocaleString"]

/-! ## `A2APlatforms` -/

/-- The registry object.  `platforms` lists the own enumerable properties of
`this.platforms` in `Object.entries` order.  `proto` holds the own fields of the
prototype of `this.platforms`: none for `Object.prototype` (the constructor's object
literal), and the fields of the installed object after an assignment to
`this.platforms["__proto__"]`. -/
structure A2APlatforms where
  platforms : List (String × PlatformData)
  proto : PlatformFields := {}
  deriving DecidableEq

/-- The registry built by the constructor. -/
def A2APlatforms.new : A2APlatforms where
  platforms :=
    [("solana",
       { fields :=
           { name := some "Solana"
             icon := some "solana-logo.svg"
             description :=
               some "High-performance blockchain with low transaction costs"
             transferFee := some (1/2)
             estimatedTime := some "< 1 minute"
             supported := some true
             testnet := some true
             mainnet := some true } }),
     ("ethereum",
       { fields :=
           { name := some "Ethereum"
             icon := some "ethereum-logo.svg"
             description :=
               some "Established blockchain with strong security and widespread adoption"
             transferFee := some 2
             estimatedTime := some "5-10 minutes"
             supported := some true
             testnet := some true
             mainnet := some true } }),
     ("polygon",
       { fields :=
           { name := some "Polygon"
             icon := some "polygon-logo.svg"
             description :=
               some "Ethereum scaling solution with fast and inexpensive transactions"
             transferFee := some (4/5)
             estimatedTime := some "1-2 minutes"
             supported := some true
             testnet := some true
             mainnet := some true } }),
     ("immutablex",
       { fields :=
           { name := some "ImmutableX"
             icon := some "immutablex-logo.svg"
             description :=
               some "Layer 2 scaling solution for NFTs with zero gas fees"
             transferFee := some 1
             estimatedTime := some "1-3 minutes"
             supported := some true
             testnet := some true
             mainnet := some false } }),
     ("flow",
       { fields :=
           { name := some "Flow"
             icon := some "flow-logo.svg"
             description :=
               some "Developer-friendly blockchain built for games and digital assets"
             transferFee := some (6/5)
             estimatedTime := some "2-4 minutes"
             supported := some true
             testnet := some true
             mainnet := some false } })]
  proto := {}

/-- The own property `k` of `this.platforms`, if there is one. -/
def A2APlatforms.own (reg : A2APlatforms) (k : String) : Option PlatformData :=
  (reg.platforms.find? (fun e => e.1 == k)).map (fun e => e.2)

/-- The platform ids that are registered: the own keys of `this.platforms`. -/
def A2APlatforms.registered (reg : A2APlatforms) (k : String) : Prop :=
  k ∈ reg.platforms.map Prod.fst

instance (reg : A2APlatforms) (k : String) : Decidable (reg.registered k) :=
  List.instDecidableMemOfLawfulBEq k (reg.platforms.map Prod.fst)

/-- The property read `this.platforms[k]`: an own property; else along the
prototype chain, a field of the installed prototype object, then what
`Object.prototype` provides (the accessor `__proto__`, which yields the prototype
object itself, and the built-in methods); else `undefined`. -/
def A2APlatforms.get (reg : A2APlatforms) (k : String) : JSVal :=
  match reg.own k with
  | some r => .object r
  | none =>
    match reg.proto.prop k with
    | some p => .prim p
    | none =>
      if k = "__proto__" then .object { fields := reg.proto }
      else if k ∈ objectPrototypeMethods then .func
      else .undefined

/-- The assignment `this.platforms[k] = v` for an object `v`: an own property is
overwritten in place; the key `__proto__` reaches the setter inherited from
`Object.prototype`, which installs `v` as the prototype; any other key becomes a
new own property, last in enumeration order. -/
def A2APlatforms.set (reg : A2APlatforms) (k : String) (v : PlatformData) : A2APlatforms :=
  if (reg.own k).isSome then
    { reg with platforms := reg.platforms.map (fun e => if e.1 == k then (e.1, v) else e) }
  else if k = "__proto__" then
    { reg with proto := v.fields }
  else
    { reg with platforms := reg.platforms ++ [(k, v)] }

/-- The method `getAllPlatforms(activeOnly)`. -/
def A2APlatforms.getAllPlatforms (reg : A2APlatforms) (activeOnly : Bool := false) :
    List PlatformData :=
  if activeOnly then
    (reg.platforms.filter (fun e => truthyFlag e.2.fields.supported)).map
      (fun e => withId e.1 e.2)
  else
    reg.platforms.map (fun e => withId e.1 e.2)

/-- The method `getPlatform(platformId)`; `none` is `null`. -/
def A2APlatforms.getPlatform (reg : A2APlatforms) (platformId : String) :
    Option PlatformData :=
  if !(reg.get platformId).truthy then none
  else some (withId platformId (reg.get platformId).spread)

/-- The object returned by `checkTransferCompatibility`: either
`{ compatible: false, reason }` or
`{ compatible: true, requiresBridge, estimatedFee, estimatedTime, notes }`. -/
inductive Compatibility where
  | incompatible (reason : String)
  | compatible (requiresBridge : Bool) (estimatedFee : JSNum) (estimatedTime : String)
      (notes : String)
  deriving DecidableEq

/-- The field `compatible` of the result. -/
def Compatibility.isCompatible : Compatibility → Bool
  | .incompatible _ => false
  | .compatible _ _ _ _ => true

/-- The field `reason` of the result (`none` when the object has no such field). -/
def Compatibility.reason : Compatibility → Option String
  | .incompatible r => some r
  | .compatible _ _ _ _ => none

/-- The field `requiresBridge` of the result. -/
def Compatibility.requiresBridge : Compatibility → Option Bool
  | .incompatible _ => none
  | .compatible b _ _ _ => some b

/-- The field `estimatedFee` of the result (`some none` is `NaN`). -/
def Compatibility.estimatedFee : Compatibility → Option JSNum
  | .incompatible _ => none
  | .compatible _ f _ _ => some f

/-- The field `estimatedTime` of the result. -/
def Compatibility.estimatedTime : Compatibility → Option String
  | .incompatible _ => none
  | .compatible _ _ t _ => some t

/-- The field `notes` of the result. -/
def Compatibility.notes : Compatibility → Option String
  | .incompatible _ => none
  | .compatible _ _ _ n => some n

/-- The bridge rule of `checkTransferCompatibility`. -/
def requiresBridge (sourcePlatform targetPlatform : String) : Bool :=
  (sourcePlatform == "solana" && targetPlatform == "flow") ||
  (sourcePlatform == "flow" && targetPlatform == "solana")

/-- The method `checkTransferCompatibility(sourcePlatform, targetPlatform)`, the fee
formula evaluated in exact arithmetic (`estimatedFee64` evaluates it on doubles). -/
def A2APlatforms.checkTransferCompatibility (reg : A2APlatforms)
    (sourcePlatform targetPlatform : String) : Compatibility :=
  let source := reg.get sourcePlatform
  let target := reg.get targetPlatform
  if !source.truthy || !target.truthy then
    .incompatible "One or both platforms not found"
  else if !truthyFlag source.supported || !truthyFlag target.supported then
    .incompatible "One or both platforms not currently supported"
  else
    let bridge := requiresBridge sourcePlatform targetPlatform
    let baseFee := JSNum.add source.transferFee (JSNum.mul target.transferFee (some (1/2)))
    let bridgeFee : JSNum := if bridge then some (3/2) else some 0
    let totalFee := JSNum.add baseFee bridgeFee
    let estimatedTime :=
      if bridge then "15-30 minutes"
      else if sourcePlatform == targetPlatform then "< 5 minutes"
      else "5-15 minutes"
    .compatible bridge totalFee estimatedTime
      (if bridge then "Requires bridge transfer between networks" else "")

/-- The method `updatePlatform(platformId, platformData)`: the returned boolean
and the registry afterwards. -/
def A2APlatforms.updatePlatform (reg : A2APlatforms) (platformId : String)
    (platformData : PlatformFields) : Bool × A2APlatforms :=
  if !(reg.get platformId).truthy then (false, reg)
  else (true, reg.set platformId ((reg.get platformId).spread.merge platformData))

/-! ## `A2ATransfer` -/

/-- An asset handed to the engine: an object of which the engine reads only
`value` (a number, possibly absent). -/
structure Asset where
  id : Option String := none
  value : Option ℚ := none
  deriving DecidableEq

/-- A wallet object; `address` may be absent. -/
structure Wallet where
  address : Option String := none
  deriving DecidableEq

/-- The argument `params` of `createTransfer`; each destructured field may be absent. -/
structure TransferParams where
  sourcePlatform : Option String := none
  targetPlatform : Option String := none
  assets : Option (List Asset) := none
  wallet : Option Wallet := none
  deriving DecidableEq

/-- The values of the field `status`. -/
inductive Status where
  | pending
  | processing
  | completed
  | failed
  deriving DecidableEq

/-- A transfer request object.  The fields after `fee` are absent at creation. -/
structure TransferRequest where
  id : String
  sourcePlatform : String
  targetPlatform : String
  assets : List Asset
  wallet : String
  status : Status
  createdAt : Nat
  fee : ℚ
  processedAt : Option Nat := none
  completedAt : Option Nat := none
  transactionHash : Option String := none
  error : Option String := none
  deriving DecidableEq

/-- The argument `config` of `init`; each field may be absent. -/
structure InitConfig where
  feePercentage : Option ℚ := none
  maxTransferSize : Option ℚ := none
  minTransferValue : Option ℚ := none
  supportedPlatforms : Option (List String) := none
  deriving DecidableEq

/-- The object `this.config` built by `init`. -/
structure TransferConfig where
  feePercentage : ℚ
  maxTransferSize : ℚ
  minTransferValue : ℚ
  supportedPlatforms : Option (List String)
  deriving DecidableEq

/-- The engine object; `config` is absent until `init` has run. -/
structure A2ATransfer where
  supportedPlatforms : List String
  transferQueue : List TransferRequest
  transferHistory : List TransferRequest
  config : Option TransferConfig
  deriving DecidableEq

/-- An error thrown by the engine: `new Error(message)`, or the `TypeError` of a
property read on `undefined`. -/
inductive JSError where
  | error (message : String)
  | typeError (message : String)
  deriving DecidableEq

/-- The engine built by the constructor. -/
def A2ATransfer.new : A2ATransfer where
  supportedPlatforms := ["solana", "ethereum", "polygon", "immutablex", "flow"]
  transferQueue := []
  transferHistory := []
  config := none

/-- The expression `x || d` on an optional number: `d` when `x` is absent or `0`. -/
def orDefault (x : Option ℚ) (d : ℚ) : ℚ :=
  match x with
  | some v => if v = 0 then d else v
  | none => d

/-- The method `init(config)`: the three defaulted fields are written first and
`...config` is spread after them, so every field present in `config` ends with the
value `config` gives it. -/
def A2ATransfer.init (e : A2ATransfer) (config : InitConfig := {}) : Bool × A2ATransfer :=
  (true,
    { e with
      config := some
        { feePercentage := config.feePercentage.getD (orDefault config.feePercentage (3/2))
          maxTransferSize := config.maxTransferSize.getD (orDefault config.maxTransferSize 10)
          minTransferValue := config.minTransferValue.getD (orDefault config.minTransferValue 5)
          supportedPlatforms := config.supportedPlatforms } })

/-- Falsiness of an optional string (`undefined` and `""` are falsy). -/
def falsyStr : Option String → Bool
  | some s => s == ""
  | none => true

/-- The method `_calculateFee(assets)`, its formula evaluated in exact arithmetic
(`_calculateFee64` evaluates it on doubles); reading `this.config.feePercentage`
throws when `init` has not run. -/
def A2ATransfer._calculateFee (e : A2ATransfer) (assets : List Asset) : Except JSError ℚ :=
  let totalValue := assets.foldl (fun sum asset => sum + orDefault asset.value 0) 0
  match e.config with
  | none => .error (.typeError "Cannot read properties of undefined (reading 'feePercentage')")
  | some config =>
    let fee := totalValue * (config.feePercentage / 100)
    .ok (max fee (1/100))

/-- The identifier built by `createTransfer` from `Date.now()` and
`Math.floor(Math.random() * 10000)`. -/
def transferId (now : Nat) (rand : Fin 10000) : String :=
  "transfer-" ++ toString now ++ "-" ++ toString rand.val

/-- The method `createTransfer(params)`, run with `Date.now()` reading `now`, the
random draw `rand` and `new Date()` reading `createdAt`: the outcome (the returned
request, or the error thrown) and the engine afterwards.  The `catch` block logs
and rethrows. -/
def A2ATransfer.createTransfer (e : A2ATransfer) (params : TransferParams)
    (now : Nat) (rand : Fin 10000) (createdAt : Nat) :
    Except JSError TransferRequest × A2ATransfer :=
  if falsyStr params.sourcePlatform || falsyStr params.targetPlatform then
    (.error (.error "Source and target platforms are required"), e)
  else
    let sourcePlatform := params.sourcePlatform.getD ""
    let targetPlatform := params.targetPlatform.getD ""
    if !e.supportedPlatforms.contains sourcePlatform ||
        !e.supportedPlatforms.contains targetPlatform then
      (.error (.error "Unsupported platform specified"), e)
    else
      match params.assets with
      | none => (.error (.error "No assets specified for transfer"), e)
      | some assets =>
        if assets.length == 0 then
          (.error (.error "No assets specified for transfer"), e)
        else
          match params.wallet with
          | none => (.error (.error "Valid wallet is required for transfer"), e)
          | some wallet =>
            if falsyStr wallet.address then
              (.error (.error "Valid wallet is required for transfer"), e)
            else
              match e._calculateFee assets with
              | .error err => (.error err, e)
              | .ok fee =>
                let transferRequest : TransferRequest :=
                  { id := transferId now rand
                    sourcePlatform := sourcePlatform
                    targetPlatform := targetPlatform
                    assets := assets
                    wallet := wallet.address.getD ""
                    status := .pending
                    createdAt := createdAt
                    fee := fee }
                (.ok transferRequest,
                  { e with transferQueue := e.transferQueue ++ [transferRequest] })

/-- The call `this.transferQueue.findIndex(t => t.id === transferId)`; `none` is `-1`. -/
def A2ATransfer.findIndex (e : A2ATransfer) (transferId : String) : Option Nat :=
  e.transferQueue.findIdx? (fun t => t.id == transferId)

/-- The `try` block of `processTransfer(transferId)`, run to completion with
`new Date()` reading `processedAt` before the wait and `completedAt` after it, and
`hashDigits` the digits drawn for the transaction hash. -/
def A2ATransfer.processBody (e : A2ATransfer) (transferId : String)
    (processedAt completedAt : Nat) (hashDigits : String) :
    Except JSError TransferRequest × A2ATransfer :=
  match e.findIndex transferId with
  | none => (.error (.error ("Transfer with ID " ++ transferId ++ " not found")), e)
  | some transferIndex =>
    match e.transferQueue.get? transferIndex with
    | none => (.error (.typeError "Cannot set properties of undefined (setting 'status')"), e)
    | some transfer =>
      let transfer := { transfer with status := .processing, processedAt := some processedAt }
      let transfer :=
        { transfer with
          status := .completed
          completedAt := some completedAt
          transactionHash := some ("0x" ++ hashDigits) }
      (.ok transfer,
        { e with
          transferQueue := e.transferQueue.eraseIdx transferIndex
          transferHistory := e.transferHistory ++ [transfer] })

/-- The `catch` block of `processTransfer`: when `transferId` is truthy and still
names a queued request, that request is flagged `failed` in place with the error
message. -/
def A2ATransfer.processCatch (e : A2ATransfer) (transferId : String) (err : JSError) :
    A2ATransfer :=
  if transferId == "" then e
  else
    match e.findIndex transferId with
    | none => e
    | some transferIndex =>
      { e with
        transferQueue := e.transferQueue.modify
          (fun t => { t with
            status := .failed
            error := some (match err with | .error m => m | .typeError m => m) })
          transferIndex }

/-- The method `processTransfer(transferId)` run to completion with no
interleaved call. -/
def A2ATransfer.processTransfer (e : A2ATransfer) (transferId : String)
    (processedAt completedAt : Nat) (hashDigits : String) :
    Except JSError TransferRequest × A2ATransfer :=
  match e.processBody transferId processedAt completedAt hashDigits with
  | (.ok transfer, e1) => (.ok transfer, e1)
  | (.error err, e1) => (.error err, e1.processCatch transferId err)

/-- The method `getTransferHistory(walletAddress)`. -/
def A2ATransfer.getTransferHistory (e : A2ATransfer) (walletAddress : String) :
    List TransferRequest :=
  e.transferHistory.filter (fun t => t.wallet == walletAddress)

/-- The method `getPendingTransfers(walletAddress)`. -/
def A2ATransfer.getPendingTransfers (e : A2ATransfer) (walletAddress : String) :
    List TransferRequest :=
  e.transferQueue.filter (fun t => t.wallet == walletAddress)

/-! ## The example scenario of the specification -/

/-- The engine of the example scenario: constructed, then `init` with
`feePercentage = 1.5`. -/
def exampleEngine : A2ATransfer :=
  (A2ATransfer.new.init { feePercentage := some (3/2) }).2

/-- The request of the example scenario: `solana -> ethereum`, one asset of value
`100`, and a wallet with an address. -/
def exampleParams : TransferParams where
  sourcePlatform := some "solana"
  targetPlatform := some "ethereum"
  assets := some [{ value := some 100 }]
  wallet := some { address := some "wallet-1" }

/-- A same-platform request: `flow -> flow`. -/
def samePlatformParams : TransferParams where
  sourcePlatform := some "flow"
  targetPlatform := some "flow"
  assets := some [{ id := some "sword", value := some 40 }, { id := some "shield" }]
  wallet := some { address := some "wallet-2" }

/-- The example engine with the same-platform request queued. -/
def queuedEngine : A2ATransfer :=
  (exampleEngine.createTransfer samePlatformParams 1700000000000 42 1700000000000).2

/-- The request `createTransfer` builds for the example scenario on `queuedEngine`. -/
def exampleRequest : TransferRequest where
  id := "transfer-1700000000500-7"
  sourcePlatform := "solana"
  targetPlatform := "ethereum"
  assets := [{ value := some 100 }]
  wallet := "wallet-1"
  status := .pending
  createdAt := 1700000000501
  fee := 3/2

/-- The engine after the example request was created on `queuedEngine` and then
processed to completion. -/
def processedEngine : A2ATransfer :=
  ((queuedEngine.createTransfer exampleParams 1700000000500 7
    1700000000501).2.processTransfer "transfer-1700000000500-7" 1700000000600 1700000002600
    "9f3c").2

/-! ## Derived notions used by the properties -/

/-- The request object as `processTransfer` leaves it on success: `status`,
`processedAt`, `completedAt` and `transactionHash` are written, every other field is
the one of `t`. -/
def completedRecord (t : TransferRequest) (processedAt completedAt : Nat)
    (hashDigits : String) : TransferRequest :=
  { t with
    status := .completed
    processedAt := some processedAt
    completedAt := some completedAt
    transactionHash := some ("0x" ++ hashDigits) }

/-- The two module objects side by side as the application holds them: the registry
exported by `platforms.js` and an engine built from `transfer.js`.  Neither module
refers to the other; each method acts on its own object. -/
structure Modules where
  registry : A2APlatforms
  a2a : A2ATransfer
  deriving DecidableEq

/-- The call `A2APlatforms.updatePlatform(platformId, platformData)` in the
application state. -/
def Modules.updatePlatform (m : Modules) (platformId : String)
    (platformData : PlatformFields) : Bool × Modules :=
  ((m.registry.updatePlatform platformId platformData).1,
    { m with registry := (m.registry.updatePlatform platformId platformData).2 })

/-- The call `a2a.createTransfer(params)` in the application state. -/
def Modules.createTransfer (m : Modules) (params : TransferParams)
    (now : Nat) (rand : Fin 10000) (createdAt : Nat) :
    Except JSError TransferRequest × Modules :=
  ((m.a2a.createTransfer params now rand createdAt).1,
    { m with a2a := (m.a2a.createTransfer params now rand createdAt).2 })

/-- The engine states reachable from the constructor's engine by `init`,
`createTransfer` and `processTransfer` calls, each run to completion, together with
the (clock reading, random draw) pairs of the successful `createTransfer` calls,
latest first. -/
inductive ReachableWith : List (Nat × Fin 10000) → A2ATransfer → Prop where
  | new : ReachableWith [] A2ATransfer.new
  | init {ps : List (Nat × Fin 10000)} {e : A2ATransfer} (config : InitConfig) :
      ReachableWith ps e → ReachableWith ps (e.init config).2
  | createOk {ps : List (Nat × Fin 10000)} {e : A2ATransfer} (p : TransferParams)
      (now : Nat) (rand : Fin 10000) (createdAt : Nat) (r : TransferRequest) :
      ReachableWith ps e → (e.createTransfer p now rand createdAt).1 = .ok r →
      ReachableWith ((now, rand) :: ps) (e.createTransfer p now rand createdAt).2
  | createError {ps : List (Nat × Fin 10000)} {e : A2ATransfer} (p : TransferParams)
      (now : Nat) (rand : Fin 10000) (createdAt : Nat) (err : JSError) :
      ReachableWith ps e → (e.createTransfer p now rand createdAt).1 = .error err →
      ReachableWith ps (e.createTransfer p now rand createdAt).2
  | process {ps : List (Nat × Fin 10000)} {e : A2ATransfer} (tid : String)
      (processedAt completedAt : Nat) (hashDigits : String) :
      ReachableWith ps e →
      ReachableWith ps (e.processTransfer tid processedAt completedAt hashDigits).2

/-- The engine states reachable from the constructor's engine by `init`,
`createTransfer` and `processTransfer` calls, each run to completion. -/
def Reachable (e : A2ATransfer) : Prop :=
  ∃ ps, ReachableWith ps e

/-! ## `processTransfer` across its `await`

`processTransfer` suspends at the settlement wait, and another call may run in
between.  The two arrays hold references to request objects, and a suspended call
keeps the reference `transfer` and the number `transferIndex` it located before the
wait.  The definitions below keep the objects in a heap, so that a write through
one reference is seen through every other. -/

/-- The request objects of an engine with their identity: `heap` lists the objects
(the reference of an object is its position), and the queue and the history hold
references, as the two arrays do. -/
structure EngineObjects where
  heap : List TransferRequest
  transferQueue : List Nat
  transferHistory : List Nat
  deriving DecidableEq

/-- The local variables `transferIndex` and `transfer` of a call of
`processTransfer` suspended at the wait. -/
structure ProcessFrame where
  transferIndex : Nat
  transfer : Nat
  deriving DecidableEq

/-- The objects of an engine given by value: one object per entry of the queue and
of the history. -/
def EngineObjects.ofEngine (e : A2ATransfer) : EngineObjects where
  heap := e.transferQueue ++ e.transferHistory
  transferQueue := List.range e.transferQueue.length
  transferHistory := (List.range e.transferHistory.length).map (fun i => e.transferQueue.length + i)

/-- The request at position `j` of the queue: `this.transferQueue[j]`. -/
def EngineObjects.queueAt (m : EngineObjects) (j : Nat) : Option TransferRequest :=
  (m.transferQueue[j]?).bind (fun r => m.heap[r]?)

/-- The request at position `j` of the history: `this.transferHistory[j]`. -/
def EngineObjects.historyAt (m : EngineObjects) (j : Nat) : Option TransferRequest :=
  (m.transferHistory[j]?).bind (fun r => m.heap[r]?)

/-- The call `this.transferQueue.findIndex(t => t.id === transferId)` on the
objects; `none` is `-1`. -/
def EngineObjects.findIndex (m : EngineObjects) (transferId : String) : Option Nat :=
  m.transferQueue.findIdx? (fun r => (m.heap[r]?).map (fun t => t.id) == some transferId)

/-- The `catch` block of `processTransfer` on the objects. -/
def EngineObjects.processCatch (m : EngineObjects) (transferId : String) (err : JSError) :
    EngineObjects :=
  if transferId == "" then m
  else
    match m.findIndex transferId with
    | none => m
    | some transferIndex =>
      match m.transferQueue[transferIndex]? with
      | none => m
      | some transfer =>
        { m with
          heap := m.heap.modify
            (fun t => { t with
              status := .failed
              error := some (match err with | .error msg => msg | .typeError msg => msg) })
            transfer }

/-- The first atomic step of `processTransfer(transferId)`, up to the wait: locate
the request in the queue (or throw not-found, through the `catch` block), keep its
index and its reference, and write `status = 'processing'` and `processedAt` to the
object. -/
def EngineObjects.processBegin (m : EngineObjects) (transferId : String)
    (processedAt : Nat) : Except JSError ProcessFrame × EngineObjects :=
  match m.findIndex transferId with
  | none =>
    (.error (.error ("Transfer with ID " ++ transferId ++ " not found")),
      m.processCatch transferId (.error ("Transfer with ID " ++ transferId ++ " not found")))
  | some transferIndex =>
    match m.transferQueue[transferIndex]? with
    | none =>
      (.error (.typeError "Cannot set properties of undefined (setting 'status')"),
        m.processCatch transferId
          (.typeError "Cannot set properties of undefined (setting 'status')"))
    | some transfer =>
      (.ok { transferIndex := transferIndex, transfer := transfer },
        { m with
          heap := m.heap.modify
            (fun t => { t with status := .processing, processedAt := some processedAt })
            transfer })

/-- The second atomic step of `processTransfer`, after the wait: write
`status = 'completed'`, `completedAt` and `transactionHash` to the object kept in
`transfer`, remove the queue element at the index kept in `transferIndex`
(`splice(transferIndex, 1)` removes nothing when the index is past the end), push
`transfer` to the history and return it. -/
def EngineObjects.processFinish (m : EngineObjects) (frame : ProcessFrame)
    (completedAt : Nat) (hashDigits : String) : Nat × EngineObjects :=
  (frame.transfer,
    { heap := m.heap.modify
        (fun t => { t with
          status := .completed
          completedAt := some completedAt
          transactionHash := some ("0x" ++ hashDigits) })
        frame.transfer
      transferQueue := m.transferQueue.eraseIdx frame.transferIndex
      transferHistory := m.transferHistory ++ [frame.transfer] })

/-- Two queued requests, `a` and `b`, of one wallet. -/
def twoQueued : A2ATransfer where
  supportedPlatforms := ["solana", "ethereum", "polygon", "immutablex", "flow"]
  transferQueue :=
    [{ id := "a", sourcePlatform := "solana", targetPlatform := "flow", assets := [{}],
       wallet := "w", status := .pending, createdAt := 1, fee := 1/100 },
     { id := "b", sourcePlatform := "flow", targetPlatform := "flow", assets := [{}],
       wallet := "w", status := .pending, createdAt := 2, fee := 1/100 }]
  transferHistory := []
  config := none

/-! ## Reachable registries -/

/-- The registries reachable from the constructor's registry through
`updatePlatform` calls whose `platformData` satisfies `P`. -/
inductive RegistryReachableBy (P : PlatformFields → Prop) : A2APlatforms → Prop where
  | new : RegistryReachableBy P A2APlatforms.new
  | update {reg : A2APlatforms} (platformId : String) (platformData : PlatformFields) :
      RegistryReachableBy P reg → P platformData →
      RegistryReachableBy P (reg.updatePlatform platformId platformData).2

/-- The registries reachable from the constructor's registry through
`updatePlatform` calls. -/
def RegistryReachable (reg : A2APlatforms) : Prop :=
  RegistryReachableBy (fun _ => True) reg

/-- No `transferFee` in the registry is negative: neither in a record of
`this.platforms` nor in its prototype object. -/
def feesNonneg (reg : A2APlatforms) : Prop :=
  (∀ e ∈ reg.platforms, ∀ q, e.2.fields.transferFee = some q → 0 ≤ q) ∧
  (∀ q, reg.proto.transferFee = some q → 0 ≤ q)

/-! ## The engine as the application configures it -/

/-- The engine `EqicGameApp.init` builds: a new `A2ATransfer`, then `init` with
`feePercentage: 1.2` and `supportedPlatforms` the ids of
`A2APlatforms.getAllPlatforms(true)`. -/
def appEngine (reg : A2APlatforms) : A2ATransfer :=
  (A2ATransfer.new.init
    { feePercentage := some (6/5)
      supportedPlatforms := some ((reg.getAllPlatforms true).filterMap (fun p => p.fields.id)) }).2

/-- A request with twelve assets without value: more assets than the default
`maxTransferSize` of ten, and a total value of zero, below the default
`minTransferValue` of five. -/
def oversizedParams : TransferParams where
  sourcePlatform := some "solana"
  targetPlatform := some "polygon"
  assets := some (List.replicate 12 {})
  wallet := some { address := some "wallet-3" }

/-! ## The code's number arithmetic

JavaScript computes on IEEE 754 doubles.  A finite double is an integer number of
units of `2^-1074` (the smallest positive double) whose absolute value has at most 53
significant binary digits and is at most `maxFiniteUnits`; it is kept here as that
integer.  The sign of zero is not kept: none of the computations below divides by a
variable, so they cannot tell `-0` from `0`. -/

/-- A JavaScript number as the code computes with it. -/
inductive JSDouble where
  | nan
  | inf (negative : Bool)
  | fin (units : Int)
  deriving DecidableEq

/-- The number of binary digits of `n`, counted in at most `fuel` halvings. -/
def bitLengthAux : Nat → Nat → Nat
  | 0, _ => 0
  | fuel + 1, n => if n = 0 then 0 else bitLengthAux fuel (n / 2) + 1

/-- The number of binary digits of `n` (`0` for `0`). -/
def bitLength (n : Nat) : Nat :=
  bitLengthAux n n

/-- The positive rational `n / D` rounded to the nearest integer, a tie going to the
even one: the quotient `q`, moved up by one when the remainder is more than half of
`D`, or exactly half with `q` odd. -/
def roundHalfEven (n D : Nat) : Nat :=
  let q := n / D
  let r := n % D
  if D < 2 * r ∨ (2 * r = D ∧ q % 2 = 1) then q + 1 else q

/-- The positive rational `n / d`, given in units of `2^-1074`, rounded to the
nearest integer number of units with at most 53 significant binary digits, a tie
going to the even one: with `s` the number of low binary digits to drop, `n / d` is
rounded to the nearest multiple of `2^s`. -/
def roundUnits (n d : Nat) : Nat :=
  let s := bitLength (n / (d * 2 ^ 53))
  roundHalfEven n (d * 2 ^ s) * 2 ^ s

/-- The largest finite double, `(2^53 - 1) * 2^971`, in units. -/
def maxFiniteUnits : Nat := (2 ^ 53 - 1) * 2 ^ 2045

/-- The double nearest to the rational of absolute value `n / d` units and of the
given sign: the rounded value, or an infinity when that exceeds the largest finite
double. -/
def JSDouble.round (negative : Bool) (n d : Nat) : JSDouble :=
  if maxFiniteUnits < roundUnits n d then .inf negative
  else .fin (if negative then -(roundUnits n d : Int) else (roundUnits n d : Int))

/-- The double a number literal `n / d` denotes. -/
def JSDouble.ofFrac (n : Int) (d : Nat) : JSDouble :=
  JSDouble.round (decide (n < 0)) (n.natAbs * 2 ^ 1074) d

/-- The double of a stored number. -/
def JSDouble.ofRat (q : ℚ) : JSDouble :=
  JSDouble.ofFrac q.num q.den

/-- The exact value of a finite double (`none` for `NaN` and the infinities). -/
def JSDouble.toRat : JSDouble → Option ℚ
  | .fin x => some ((x : ℚ) / 2 ^ 1074)
  | _ => none

/-- JavaScript `a + b` on doubles. -/
def JSDouble.add : JSDouble → JSDouble → JSDouble
  | .nan, _ => .nan
  | _, .nan => .nan
  | .inf a, .inf b => if a = b then .inf a else .nan
  | .inf a, .fin _ => .inf a
  | .fin _, .inf b => .inf b
  | .fin x, .fin y => JSDouble.round (decide (x + y < 0)) (x + y).natAbs 1

/-- JavaScript `a * b` on doubles. -/
def JSDouble.mul : JSDouble → JSDouble → JSDouble
  | .nan, _ => .nan
  | _, .nan => .nan
  | .inf a, .inf b => .inf (a != b)
  | .inf a, .fin y => if y = 0 then .nan else .inf (a != decide (y < 0))
  | .fin x, .inf b => if x = 0 then .nan else .inf (decide (x < 0) != b)
  | .fin x, .fin y => JSDouble.round (decide (x * y < 0)) (x * y).natAbs (2 ^ 1074)

/-- JavaScript `a / c` on doubles for a positive integer constant `c`. -/
def JSDouble.divNat (a : JSDouble) (c : Nat) : JSDouble :=
  match a with
  | .nan => .nan
  | .inf s => .inf s
  | .fin x => JSDouble.round (decide (x < 0)) x.natAbs c

/-- JavaScript `a <= b` on doubles (false when an operand is `NaN`). -/
def JSDouble.le : JSDouble → JSDouble → Bool
  | .nan, _ => false
  | _, .nan => false
  | .inf a, .inf b => a || !b
  | .inf a, .fin _ => a
  | .fin _, .inf b => !b
  | .fin x, .fin y => decide (x ≤ y)

/-- The call `Math.max(a, b)`: `NaN` when an argument is `NaN`. -/
def JSDouble.max (a b : JSDouble) : JSDouble :=
  match a, b with
  | .nan, _ => .nan
  | _, .nan => .nan
  | a, b => if a.le b then b else a

/-- JavaScript truthiness of a double: `0` and `NaN` are falsy. -/
def JSDouble.truthy : JSDouble → Bool
  | .nan => false
  | .inf _ => true
  | .fin x => x != 0

/-- The read `v.transferFee` as an operand of the arithmetic: the double of the
stored number, and `NaN` for `undefined`. -/
def JSVal.transferFee64 (v : JSVal) : JSDouble :=
  match v.transferFee with
  | some q => JSDouble.ofRat q
  | none => .nan

/-- The local `totalFee` of `checkTransferCompatibility`:
`baseFee = source.transferFee + target.transferFee * 0.5`,
`bridgeFee = requiresBridge ? 1.5 : 0`, `totalFee = baseFee + bridgeFee`. -/
def totalFee (sourceFee targetFee : JSDouble) (bridge : Bool) : JSDouble :=
  let baseFee := sourceFee.add (targetFee.mul (JSDouble.ofFrac 1 2))
  let bridgeFee := if bridge then JSDouble.ofFrac 3 2 else JSDouble.fin 0
  baseFee.add bridgeFee

/-- The field `estimatedFee` of the object `checkTransferCompatibility` returns, as
the double the code computes (`none` when the object has no such field). -/
def A2APlatforms.estimatedFee64 (reg : A2APlatforms) (sourcePlatform targetPlatform : String) :
    Option JSDouble :=
  match reg.checkTransferCompatibility sourcePlatform targetPlatform with
  | .incompatible _ => none
  | .compatible bridge _ _ _ =>
    some (totalFee (reg.get sourcePlatform).transferFee64
      (reg.get targetPlatform).transferFee64 bridge)

/-- The expression `asset.value || 0` as a double. -/
def Asset.value64 (asset : Asset) : JSDouble :=
  match asset.value with
  | some q => if (JSDouble.ofRat q).truthy then JSDouble.ofRat q else .fin 0
  | none => .fin 0

/-- The method `_calculateFee(assets)` as the code computes it, on doubles. -/
def A2ATransfer._calculateFee64 (e : A2ATransfer) (assets : List Asset) :
    Except JSError JSDouble :=
  let totalValue : JSDouble :=
    assets.foldl (fun sum asset => JSDouble.add sum asset.value64) (.fin 0)
  match e.config with
  | none => .error (.typeError "Cannot read properties of undefined (reading 'feePercentage')")
  | some config =>
    let fee := totalValue.mul ((JSDouble.ofRat config.feePercentage).divNat 100)
    .ok (fee.max (JSDouble.ofFrac 1 100))

/-- The comparison `estimatedFee(s, t) >= estimatedFee(t, s)` of the two estimates the
code computes for a pair of platforms (false when one of the two results carries no
estimate, or a `NaN`). -/
def A2APlatforms.estimateGe (reg : A2APlatforms) (s t : String) : Bool :=
  match reg.estimatedFee64 s t, reg.estimatedFee64 t s with
  | some a, some b => b.le a
  | _, _ => false

/-- The comparison `s.transferFee >= t.transferFee` of the fees of two platforms, as
the doubles the code holds (false when one of the two carries no fee). -/
def A2APlatforms.feeGe (reg : A2APlatforms) (s t : String) : Bool :=
  (reg.get t).transferFee64.le (reg.get s).transferFee64

/-- The registry after `updatePlatform('solana', { transferFee: 3 })` and
`updatePlatform('ethereum', { transferFee: 3.0000000000000004 })`; the second fee is
the double next above `3`, `6755399441055745 / 2^51`. -/
def closeFeesRegistry : A2APlatforms :=
  ((A2APlatforms.new.updatePlatform "solana" { transferFee := some 3 }).2.updatePlatform
    "ethereum" { transferFee := some (6755399441055745 / 2 ^ 51) }).2

/-- A request of two assets worth `0.7` and `0.1`. -/
def smallAssetsParams : TransferParams where
  sourcePlatform := some "solana"
  targetPlatform := some "ethereum"
  assets := some [{ value := some (7/10) }, { value := some (1/10) }]
  wallet := some { address := some "wallet-1" }

/-! # Properties -/

/-! ## Auxiliary facts -/

theorem get_of_own {reg : A2APlatforms} {k : String} {r : PlatformData}
    (h : reg.own k = some r) : reg.get k = .object r := by
  simp [A2APlatforms.get, h]

theorem registered_of_own {reg : A2APlatforms} {k : String} {r : PlatformData}
    (h : reg.own k = some r) : reg.registered k := by
  unfold A2APlatforms.own at h
  unfold A2APlatforms.registered
  rcases Option.map_eq_some'.mp h with ⟨e, he, rfl⟩
  have hk : e.1 = k := by simpa using List.find?_some he
  exact List.mem_map.mpr ⟨e, List.mem_of_find?_eq_some he, hk⟩

theorem own_of_registered {reg : A2APlatforms} {k : String}
    (h : reg.registered k) : ∃ r, reg.own k = some r := by
  unfold A2APlatforms.registered at h
  rcases List.mem_map.mp h with ⟨e, he, rfl⟩
  unfold A2APlatforms.own
  cases hf : reg.platforms.find? (fun x => x.1 == e.1) with
  | none =>
    have := List.find?_eq_none.mp hf e he
    simp at this
  | some x => exact ⟨x.2, rfl⟩

/-! ## The platform registry -/

/-- With the prototype of `this.platforms` carrying no truthy `supported` field
(as in every registry that never saw an update of the key `__proto__`), a pair with
an id that is not registered, or with a registered platform whose `supported` is not
`true`, is answered `compatible = false` with one of the two reasons. -/
theorem checkTransferCompatibility_rejects (reg : A2APlatforms) (s t : String)
    (hp : reg.proto.supported ≠ some true)
    (h : ¬ reg.registered s ∨ ¬ reg.registered t ∨
      (∃ r, reg.own s = some r ∧ r.fields.supported ≠ some true) ∨
      (∃ r, reg.own t = some r ∧ r.fields.supported ≠ some true)) :
    reg.checkTransferCompatibility s t = .incompatible "One or both platforms not found" ∨
    reg.checkTransferCompatibility s t =
      .incompatible "One or both platforms not currently supported" := by
  have key : ∀ k, (¬ reg.registered k ∨
      ∃ r, reg.own k = some r ∧ r.fields.supported ≠ some true) →
      truthyFlag (reg.get k).supported = false := by
    intro k hk
    have hflag : ∀ o : Option Bool, o ≠ some true → truthyFlag o = false := by
      intro o ho
      cases o with
      | none => rfl
      | some b => cases b <;> simp_all [truthyFlag]
    rcases hk with hk | ⟨r, hr, hsup⟩
    · have hown : reg.own k = none := by
        cases ho : reg.own k with
        | none => rfl
        | some r => exact absurd (registered_of_own ho) hk
      unfold A2APlatforms.get
      rw [hown]
      cases reg.proto.prop k with
      | some p => rfl
      | none =>
        simp only
        split
        · exact hflag _ hp
        · split <;> rfl
    · rw [get_of_own hr]
      exact hflag _ hsup
  have hbad : truthyFlag (reg.get s).supported = false ∨
      truthyFlag (reg.get t).supported = false := by
    rcases h with h | h | h | h
    · exact Or.inl (key s (Or.inl h))
    · exact Or.inr (key t (Or.inl h))
    · exact Or.inl (key s (Or.inr h))
    · exact Or.inr (key t (Or.inr h))
  unfold A2APlatforms.checkTransferCompatibility
  simp only
  split
  · exact Or.inl rfl
  · rw [if_pos]
    · exact Or.inr rfl
    · rcases hbad with hb | hb <;> simp [hb]

/-- C2 (evaluation at the failing input). After
`updatePlatform("__proto__", { supported: true, transferFee: 1 })` on the
constructor's registry, which reports success and installs the data as the
prototype of `this.platforms`, the id `__proto__` is still not a registered platform
(it is no key of `getAllPlatforms`), and yet
`checkTransferCompatibility("__proto__", "solana")` answers `compatible = true`
without any `reason`. -/
theorem checkTransferCompatibility_unregistered_compatible :
    (A2APlatforms.new.updatePlatform "__proto__"
        { supported := some true, transferFee := some 1 }).1 = true ∧
    ¬ (A2APlatforms.new.updatePlatform "__proto__"
        { supported := some true, transferFee := some 1 }).2.registered "__proto__" ∧
    ((A2APlatforms.new.updatePlatform "__proto__"
        { supported := some true, transferFee := some 1 }).2.checkTransferCompatibility
      "__proto__" "solana").isCompatible = true ∧
    ((A2APlatforms.new.updatePlatform "__proto__"
        { supported := some true, transferFee := some 1 }).2.checkTransferCompatibility
      "__proto__" "solana").reason = none := by
  decide

/-- C9 (evaluation at the failing input). After
`updatePlatform("solana", { id: "ethereum" })` on the constructor's registry the
platform registered under the key `solana` is reported with `id = "ethereum"`, both
by `getPlatform("solana")` and in the first entry of `getAllPlatforms()`. -/
theorem updatePlatform_overrides_id :
    (A2APlatforms.new.updatePlatform "solana" { id := some "ethereum" }).1 = true ∧
    ((A2APlatforms.new.updatePlatform "solana" { id := some "ethereum" }).2.getPlatform
      "solana").map (fun r => r.fields.id) = some (some "ethereum") ∧
    ((A2APlatforms.new.updatePlatform "solana"
      { id := some "ethereum" }).2.getAllPlatforms.head?).map (fun r => r.fields.id) =
        some (some "ethereum") ∧
    ((A2APlatforms.new.updatePlatform "solana" { id := some "ethereum" }).2.platforms.map
      Prod.fst) = ["solana", "ethereum", "polygon", "immutablex", "flow"] := by
  decide

theorem own_set_of_own {reg : A2APlatforms} {k : String} {r : PlatformData}
    (v : PlatformData) (h : reg.own k = some r) : (reg.set k v).own k = some v := by
  have hsome : (reg.own k).isSome = true := by rw [h]; rfl
  unfold A2APlatforms.set
  rw [if_pos hsome]
  unfold A2APlatforms.own at h ⊢
  rcases Option.map_eq_some'.mp h with ⟨e, he, -⟩
  have hk : (e.1 == k) = true := by
    have := List.find?_some he
    simpa using this
  have hcomp : ((fun e : String × PlatformData => e.1 == k) ∘
      fun e => if (e.1 == k) = true then (e.1, v) else e) = fun e => e.1 == k := by
    funext x
    simp only [Function.comp]
    split <;> rfl
  simp only [List.find?_map, hcomp, he]
  have hk2 : e.1 = k := by simpa using hk
  simp [hk2]

/-- When `platformData` carries no `id` field and the stored record carries none,
the platform read back after `updatePlatform` has `id` equal to its registry key. -/
theorem getPlatform_id_of_no_id (reg : A2APlatforms) (k : String) (r : PlatformData)
    (d : PlatformFields) (hr : reg.own k = some r) (hrid : r.fields.id = none)
    (hd : d.id = none) :
    ((reg.updatePlatform k d).2.getPlatform k).map (fun x => x.fields.id) =
      some (some k) := by
  have hget := get_of_own hr
  have hset : (reg.updatePlatform k d).2.own k = some (r.merge d) := by
    simp only [A2APlatforms.updatePlatform, hget, JSVal.truthy, JSVal.spread,
      Bool.not_true, Bool.false_eq_true, if_false]
    exact own_set_of_own _ hr
  simp [A2APlatforms.getPlatform, get_of_own hset, JSVal.truthy, JSVal.spread, withId,
    PlatformFields.merge, PlatformData.merge, hrid, hd]

/-- C10 (evaluation at the failing input). On the constructor's registry the id
`constructor` is not registered, yet `updatePlatform("constructor", {})` returns
`true` and creates a platform: `getAllPlatforms(false)` grows from five entries to
six and the registered keys gain `constructor`. -/
theorem updatePlatform_creates_inherited :
    ¬ A2APlatforms.new.registered "constructor" ∧
    (A2APlatforms.new.updatePlatform "constructor" {}).1 = true ∧
    A2APlatforms.new.getAllPlatforms.length = 5 ∧
    (A2APlatforms.new.updatePlatform "constructor" {}).2.getAllPlatforms.length = 6 ∧
    (A2APlatforms.new.updatePlatform "constructor" {}).2.platforms.map Prod.fst =
      ["solana", "ethereum", "polygon", "immutablex", "flow", "constructor"] := by
  decide

/-- An id for which the read `this.platforms[id]` is falsy is refused by
`updatePlatform`: it returns `false` and the registry is unchanged. -/
theorem updatePlatform_of_falsy (reg : A2APlatforms) (k : String) (d : PlatformFields)
    (h : (reg.get k).truthy = false) : reg.updatePlatform k d = (false, reg) := by
  simp [A2APlatforms.updatePlatform, h]

/-- While the prototype of `this.platforms` is `Object.prototype`, an id that is not
registered and is no property name of `Object.prototype` is refused by
`updatePlatform`: it returns `false` and the registry is unchanged. -/
theorem updatePlatform_of_unknown (reg : A2APlatforms) (k : String) (d : PlatformFields)
    (hproto : reg.proto = {}) (hk : ¬ reg.registered k)
    (hm : k ∉ objectPrototypeMethods) (hp : k ≠ "__proto__") :
    reg.updatePlatform k d = (false, reg) := by
  apply updatePlatform_of_falsy
  have hown : reg.own k = none := by
    cases ho : reg.own k with
    | none => rfl
    | some r => exact absurd (registered_of_own ho) hk
  have hprop : reg.proto.prop k = none := by
    rw [hproto]
    unfold PlatformFields.prop
    repeat' split
    all_goals rfl
  simp [A2APlatforms.get, hown, hprop, hp, hm, JSVal.truthy]

/-! ## The transfer engine -/

theorem falsyStr_eq_true_iff (o : Option String) :
    falsyStr o = true ↔ o = none ∨ o = some "" := by
  cases o with
  | none => simp [falsyStr]
  | some s => simp [falsyStr]

theorem falsyStr_some_of_ne {s : String} (h : s ≠ "") : falsyStr (some s) = false := by
  simp [falsyStr, h]

/-- C3. `createTransfer` validates in a fixed order and the first violation decides
the error: (1) a missing or empty `sourcePlatform` or `targetPlatform` gives
`Source and target platforms are required`; (2) otherwise an id outside the engine's
supported-platform list gives `Unsupported platform specified`; (3) otherwise missing
or empty `assets` give `No assets specified for transfer`; (4) otherwise a missing
wallet or a missing or empty address gives `Valid wallet is required for transfer`. -/
theorem createTransfer_validation_order (e : A2ATransfer) (p : TransferParams)
    (now : Nat) (rand : Fin 10000) (createdAt : Nat) :
    ((p.sourcePlatform = none ∨ p.sourcePlatform = some "" ∨
        p.targetPlatform = none ∨ p.targetPlatform = some "") →
      (e.createTransfer p now rand createdAt).1 =
        .error (.error "Source and target platforms are required")) ∧
    (∀ s t, p.sourcePlatform = some s → p.targetPlatform = some t → s ≠ "" → t ≠ "" →
      (s ∉ e.supportedPlatforms ∨ t ∉ e.supportedPlatforms) →
      (e.createTransfer p now rand createdAt).1 =
        .error (.error "Unsupported platform specified")) ∧
    (∀ s t, p.sourcePlatform = some s → p.targetPlatform = some t → s ≠ "" → t ≠ "" →
      s ∈ e.supportedPlatforms → t ∈ e.supportedPlatforms →
      (p.assets = none ∨ p.assets = some []) →
      (e.createTransfer p now rand createdAt).1 =
        .error (.error "No assets specified for transfer")) ∧
    (∀ s t a, p.sourcePlatform = some s → p.targetPlatform = some t → s ≠ "" → t ≠ "" →
      s ∈ e.supportedPlatforms → t ∈ e.supportedPlatforms →
      p.assets = some a → a ≠ [] →
      (p.wallet = none ∨ ∃ w, p.wallet = some w ∧ (w.address = none ∨ w.address = some "")) →
      (e.createTransfer p now rand createdAt).1 =
        .error (.error "Valid wallet is required for transfer")) := by
  refine ⟨?_, ?_, ?_, ?_⟩
  · intro h
    have hf : (falsyStr p.sourcePlatform || falsyStr p.targetPlatform) = true := by
      rcases h with h | h | h | h <;> simp [h, falsyStr]
    simp [A2ATransfer.createTransfer, hf]
  · intro s t hs ht hs0 ht0 hmem
    have hc : (!e.supportedPlatforms.contains s || !e.supportedPlatforms.contains t) = true := by
      rcases hmem with h | h <;> simp [h]
    simp only [A2ATransfer.createTransfer, hs, ht, falsyStr_some_of_ne hs0,
      falsyStr_some_of_ne ht0, Option.getD_some, Bool.or_self, Bool.false_eq_true, if_false]
    rw [if_pos hc]
  · intro s t hs ht hs0 ht0 hsm htm ha
    have hc : (!e.supportedPlatforms.contains s || !e.supportedPlatforms.contains t) = false := by
      simp [hsm, htm]
    simp only [A2ATransfer.createTransfer, hs, ht, falsyStr_some_of_ne hs0,
      falsyStr_some_of_ne ht0, Option.getD_some, Bool.or_self, Bool.false_eq_true, if_false, hc]
    rcases ha with ha | ha <;> simp [ha]
  · intro s t a hs ht hs0 ht0 hsm htm ha hne hw
    have hc : (!e.supportedPlatforms.contains s || !e.supportedPlatforms.contains t) = false := by
      simp [hsm, htm]
    have hlen : (a.length == 0) = false := by
      cases a with
      | nil => exact absurd rfl hne
      | cons x xs => rfl
    simp only [A2ATransfer.createTransfer, hs, ht, falsyStr_some_of_ne hs0,
      falsyStr_some_of_ne ht0, Option.getD_some, Bool.or_self, Bool.false_eq_true, if_false, hc,
      ha, hlen]
    rcases hw with hw | ⟨w, hw, hadr⟩
    · simp [hw]
    · have hf : falsyStr w.address = true := (falsyStr_eq_true_iff _).mpr hadr
      simp [hw, hf]

/-- Witness for C3: on the constructor's engine, one input per rule; the second
has an unsupported platform and an empty asset list and yields the
unsupported-platform error. -/
theorem createTransfer_validation_order_witness :
    (A2ATransfer.new.createTransfer { targetPlatform := some "flow" } 0 0 0).1 =
      .error (.error "Source and target platforms are required") ∧
    (A2ATransfer.new.createTransfer
      { sourcePlatform := some "solana", targetPlatform := some "bitcoin", assets := some [] }
      0 0 0).1 = .error (.error "Unsupported platform specified") ∧
    (A2ATransfer.new.createTransfer
      { sourcePlatform := some "solana", targetPlatform := some "flow", assets := some [] }
      0 0 0).1 = .error (.error "No assets specified for transfer") ∧
    (A2ATransfer.new.createTransfer
      { sourcePlatform := some "solana", targetPlatform := some "flow",
        assets := some [{ value := some 100 }], wallet := some { address := some "" } }
      0 0 0).1 = .error (.error "Valid wallet is required for transfer") :=
  ⟨(createTransfer_validation_order A2ATransfer.new { targetPlatform := some "flow" }
      0 0 0).1 (Or.inl rfl),
   (createTransfer_validation_order A2ATransfer.new
      { sourcePlatform := some "solana", targetPlatform := some "bitcoin", assets := some [] }
      0 0 0).2.1 "solana" "bitcoin" rfl rfl (by decide) (by decide) (Or.inr (by decide)),
   (createTransfer_validation_order A2ATransfer.new
      { sourcePlatform := some "solana", targetPlatform := some "flow", assets := some [] }
      0 0 0).2.2.1 "solana" "flow" rfl rfl (by decide) (by decide) (by decide) (by decide)
      (Or.inr rfl),
   (createTransfer_validation_order A2ATransfer.new
      { sourcePlatform := some "solana", targetPlatform := some "flow",
        assets := some [{ value := some 100 }], wallet := some { address := some "" } }
      0 0 0).2.2.2 "solana" "flow" [{ value := some 100 }] rfl rfl (by decide) (by decide)
      (by decide) (by decide) rfl (by simp) (Or.inr ⟨_, rfl, Or.inr rfl⟩)⟩

/-- Every run of `createTransfer` either throws and leaves the engine as it was, or
returns a request and appends exactly that request to the pending queue. -/
theorem createTransfer_cases (e : A2ATransfer) (p : TransferParams)
    (now : Nat) (rand : Fin 10000) (createdAt : Nat) :
    (∃ err, e.createTransfer p now rand createdAt = (.error err, e)) ∨
    (∃ r, e.createTransfer p now rand createdAt =
      (.ok r, { e with transferQueue := e.transferQueue ++ [r] })) := by
  unfold A2ATransfer.createTransfer
  by_cases h1 : (falsyStr p.sourcePlatform || falsyStr p.targetPlatform) = true
  · exact Or.inl ⟨_, by rw [if_pos h1]⟩
  · rw [if_neg h1]
    simp only []
    by_cases h2 : (!e.supportedPlatforms.contains (p.sourcePlatform.getD "") ||
        !e.supportedPlatforms.contains (p.targetPlatform.getD "")) = true
    · exact Or.inl ⟨_, by rw [if_pos h2]⟩
    · rw [if_neg h2]
      cases p.assets with
      | none => exact Or.inl ⟨_, rfl⟩
      | some assets =>
        simp only []
        by_cases h3 : (assets.length == 0) = true
        · exact Or.inl ⟨_, by rw [if_pos h3]⟩
        · rw [if_neg h3]
          cases p.wallet with
          | none => exact Or.inl ⟨_, rfl⟩
          | some wallet =>
            simp only []
            by_cases h4 : falsyStr wallet.address = true
            · exact Or.inl ⟨_, by rw [if_pos h4]⟩
            · rw [if_neg h4]
              cases e._calculateFee assets with
              | error err => exact Or.inl ⟨_, rfl⟩
              | ok fee => exact Or.inr ⟨_, rfl⟩

theorem createTransfer_error_state (e : A2ATransfer) (p : TransferParams)
    (now : Nat) (rand : Fin 10000) (createdAt : Nat) (err : JSError)
    (h : (e.createTransfer p now rand createdAt).1 = .error err) :
    (e.createTransfer p now rand createdAt).2 = e := by
  rcases createTransfer_cases e p now rand createdAt with ⟨err1, h1⟩ | ⟨r, h1⟩
  · rw [h1]
  · rw [h1] at h
    cases h

/-- C4. Whenever `createTransfer` fails, whatever the error, the pending queue and
the history after the call are the lists they were before it; and an empty `assets`
sequence always makes it fail. -/
theorem createTransfer_failure_keeps_state (e : A2ATransfer) (p : TransferParams)
    (now : Nat) (rand : Fin 10000) (createdAt : Nat) :
    (∀ err, (e.createTransfer p now rand createdAt).1 = .error err →
      (e.createTransfer p now rand createdAt).2.transferQueue = e.transferQueue ∧
      (e.createTransfer p now rand createdAt).2.transferHistory = e.transferHistory) ∧
    (p.assets = some [] →
      (∃ err, (e.createTransfer p now rand createdAt).1 = .error err) ∧
      (e.createTransfer p now rand createdAt).2.transferQueue = e.transferQueue) := by
  have hempty : p.assets = some [] →
      ∃ err, (e.createTransfer p now rand createdAt).1 = .error err := by
    intro ha
    unfold A2ATransfer.createTransfer
    by_cases h1 : (falsyStr p.sourcePlatform || falsyStr p.targetPlatform) = true
    · exact ⟨_, by rw [if_pos h1]⟩
    · rw [if_neg h1]
      simp only []
      by_cases h2 : (!e.supportedPlatforms.contains (p.sourcePlatform.getD "") ||
          !e.supportedPlatforms.contains (p.targetPlatform.getD "")) = true
      · exact ⟨_, by rw [if_pos h2]⟩
      · rw [if_neg h2, ha]
        exact ⟨_, rfl⟩
  refine ⟨fun err h => ?_, fun ha => ?_⟩
  · rw [createTransfer_error_state e p now rand createdAt err h]
    exact ⟨rfl, rfl⟩
  · obtain ⟨err, herr⟩ := hempty ha
    refine ⟨⟨err, herr⟩, ?_⟩
    rw [createTransfer_error_state e p now rand createdAt err herr]

/-- Witness for C4: an engine with one queued request, called with an empty `assets`
sequence. -/
theorem createTransfer_failure_keeps_state_witness :
    (queuedEngine.createTransfer
        { sourcePlatform := some "solana", targetPlatform := some "flow", assets := some [] }
        5 7 5).2.transferQueue = queuedEngine.transferQueue :=
  ((createTransfer_failure_keeps_state queuedEngine
      { sourcePlatform := some "solana", targetPlatform := some "flow", assets := some [] }
      5 7 5).2 rfl).2

theorem orDefault_zero (x : Option ℚ) : orDefault x 0 = x.getD 0 := by
  cases x with
  | none => rfl
  | some v =>
    by_cases hv : v = 0
    · simp [orDefault, hv]
    · simp [orDefault, hv]

theorem foldl_value_sum (assets : List Asset) (init : ℚ) :
    assets.foldl (fun sum asset => sum + orDefault asset.value 0) init =
      init + (assets.map (fun a => a.value.getD 0)).sum := by
  induction assets generalizing init with
  | nil => simp
  | cons a as ih =>
    simp only [List.foldl_cons, List.map_cons, List.sum_cons]
    rw [ih, orDefault_zero, add_assoc]

theorem calculateFee_eq (e : A2ATransfer) (config : TransferConfig)
    (assets : List Asset) (h : e.config = some config) :
    e._calculateFee assets =
      .ok (max ((assets.map (fun a => a.value.getD 0)).sum * (config.feePercentage / 100))
        (1/100)) := by
  simp only [A2ATransfer._calculateFee, h, foldl_value_sum, zero_add]

/-- C5. On an initialised engine every input that passes the four validations
(the two platform ids may be equal) makes `createTransfer` return a request with
status `pending`, the given platforms and assets, `wallet` equal to `wallet.address`
and `fee` equal to `_calculateFee(assets)`; the new pending queue is the old one with
exactly this request appended at the end, and the history is unchanged. -/
theorem createTransfer_success (e : A2ATransfer) (config : TransferConfig)
    (p : TransferParams) (s t : String) (a : List Asset) (w : Wallet) (adr : String)
    (now : Nat) (rand : Fin 10000) (createdAt : Nat)
    (hcfg : e.config = some config)
    (hs : p.sourcePlatform = some s) (ht : p.targetPlatform = some t)
    (hs0 : s ≠ "") (ht0 : t ≠ "")
    (hsm : s ∈ e.supportedPlatforms) (htm : t ∈ e.supportedPlatforms)
    (ha : p.assets = some a) (hne : a ≠ [])
    (hw : p.wallet = some w) (hadr : w.address = some adr) (hadr0 : adr ≠ "") :
    ∃ r, (e.createTransfer p now rand createdAt).1 = .ok r ∧
      r.status = .pending ∧ r.sourcePlatform = s ∧ r.targetPlatform = t ∧
      r.assets = a ∧ r.wallet = adr ∧ e._calculateFee a = .ok r.fee ∧
      (e.createTransfer p now rand createdAt).2.transferQueue = e.transferQueue ++ [r] ∧
      (e.createTransfer p now rand createdAt).2.transferHistory = e.transferHistory := by
  have hc : (!e.supportedPlatforms.contains s || !e.supportedPlatforms.contains t) = false := by
    simp [hsm, htm]
  have hlen : (a.length == 0) = false := by
    cases a with
    | nil => exact absurd rfl hne
    | cons x xs => rfl
  have hfee := calculateFee_eq e config a hcfg
  refine ⟨⟨transferId now rand, s, t, a, adr, .pending, createdAt,
      max ((a.map (fun x => x.value.getD 0)).sum * (config.feePercentage / 100)) (1/100),
      none, none, none, none⟩, ?_, rfl, rfl, rfl, rfl, rfl, hfee, ?_, ?_⟩ <;>
  simp [A2ATransfer.createTransfer, hs, ht, falsyStr_some_of_ne hs0, falsyStr_some_of_ne ht0,
    hc, ha, hlen, hw, hadr, falsyStr_some_of_ne hadr0, hfee, hsm, htm, hne]

/-- Witness for C5: a same-platform request `flow -> flow` on the example engine. -/
theorem createTransfer_success_witness :
    ∃ r, (exampleEngine.createTransfer samePlatformParams 1700000000000 42 1700000000001).1 =
        .ok r ∧
      r.status = .pending ∧ r.sourcePlatform = "flow" ∧ r.targetPlatform = "flow" ∧
      r.assets = [{ id := some "sword", value := some 40 }, { id := some "shield" }] ∧
      r.wallet = "wallet-2" ∧
      exampleEngine._calculateFee
        [{ id := some "sword", value := some 40 }, { id := some "shield" }] = .ok r.fee ∧
      (exampleEngine.createTransfer samePlatformParams 1700000000000 42
        1700000000001).2.transferQueue = exampleEngine.transferQueue ++ [r] ∧
      (exampleEngine.createTransfer samePlatformParams 1700000000000 42
        1700000000001).2.transferHistory = exampleEngine.transferHistory :=
  createTransfer_success exampleEngine
    { feePercentage := 3/2, maxTransferSize := 10, minTransferValue := 5,
      supportedPlatforms := none }
    samePlatformParams "flow" "flow" _ { address := some "wallet-2" } "wallet-2"
    1700000000000 42 1700000000001
    (by simp [exampleEngine, A2ATransfer.init, orDefault]) rfl rfl (by decide) (by decide)
    (by decide) (by decide) rfl (by simp) rfl rfl (by decide)

theorem findIdx_none_of_no_match (q : List TransferRequest) (tid : String)
    (h : ∀ t ∈ q, t.id ≠ tid) : q.findIdx? (fun t => t.id == tid) = none := by
  rw [List.findIdx?_eq_none_iff]
  intro t ht
  simpa using h t ht

theorem findIdx_append_fresh (q : List TransferRequest) (r : TransferRequest)
    (h : ∀ t ∈ q, t.id ≠ r.id) :
    (q ++ [r]).findIdx? (fun t => t.id == r.id) = some q.length := by
  induction q with
  | nil => simp [List.findIdx?_cons]
  | cons x xs ih =>
    have hx : (x.id == r.id) = false := by simpa using h x (List.mem_cons_self _ _)
    have ih2 := ih (fun t ht => h t (List.mem_cons_of_mem _ ht))
    simp [List.findIdx?_cons, hx, ih2]

/-- C8. For every engine and every id that matches no request in the pending queue,
`processTransfer(id)` throws `Transfer with ID <id> not found` and leaves the engine,
hence the queue, the history and every request record, unchanged. -/
theorem processTransfer_not_found (e : A2ATransfer) (tid : String)
    (processedAt completedAt : Nat) (hashDigits : String)
    (h : ∀ t ∈ e.transferQueue, t.id ≠ tid) :
    e.processTransfer tid processedAt completedAt hashDigits =
      (.error (.error ("Transfer with ID " ++ tid ++ " not found")), e) := by
  have hidx : e.findIndex tid = none := findIdx_none_of_no_match _ _ h
  have hbody : e.processBody tid processedAt completedAt hashDigits =
      (.error (.error ("Transfer with ID " ++ tid ++ " not found")), e) := by
    simp [A2ATransfer.processBody, hidx]
  have hcatch : ∀ err, e.processCatch tid err = e := by
    intro err
    unfold A2ATransfer.processCatch
    split
    · rfl
    · rw [hidx]
  simp [A2ATransfer.processTransfer, hbody, hcatch]

/-- C7. A request just created by `createTransfer`, whose id differs from the ids of
all other queued requests, is completed by `processTransfer(id)` run to completion:
the call returns that request with status `completed` and with `processedAt`,
`completedAt` and `transactionHash` set; afterwards it is in
`getTransferHistory(wallet)`, and no entry of `getPendingTransfers(wallet)` is it or
carries its id. -/
theorem processTransfer_fresh (e : A2ATransfer) (p : TransferParams)
    (now : Nat) (rand : Fin 10000) (createdAt : Nat) (r : TransferRequest)
    (processedAt completedAt : Nat) (hashDigits : String)
    (hc : (e.createTransfer p now rand createdAt).1 = .ok r)
    (hfresh : ∀ t ∈ e.transferQueue, t.id ≠ r.id) :
    ∃ done e2,
      (e.createTransfer p now rand createdAt).2.processTransfer r.id processedAt completedAt
        hashDigits = (.ok done, e2) ∧
      done = { r with
        status := .completed
        processedAt := some processedAt
        completedAt := some completedAt
        transactionHash := some ("0x" ++ hashDigits) } ∧
      done ∈ e2.getTransferHistory r.wallet ∧
      done ∉ e2.getPendingTransfers r.wallet ∧
      r ∉ e2.getPendingTransfers r.wallet ∧
      (∀ t ∈ e2.getPendingTransfers r.wallet, t.id ≠ r.id) ∧
      e2.transferQueue = e.transferQueue ∧
      e2.transferHistory = e.transferHistory ++ [done] := by
  rcases createTransfer_cases e p now rand createdAt with ⟨err, h1⟩ | ⟨r1, h1⟩
  · rw [h1] at hc
    cases hc
  · rw [h1] at hc ⊢
    have hr : r1 = r := by
      simpa using hc
    subst hr
    have hidx : ({ e with transferQueue := e.transferQueue ++ [r1] } : A2ATransfer).findIndex
        r1.id = some e.transferQueue.length := findIdx_append_fresh _ _ hfresh
    have hpend : ∀ t ∈ e.transferQueue.filter (fun t => t.wallet == r1.wallet),
        t.id ≠ r1.id := fun t ht => hfresh t (List.mem_of_mem_filter ht)
    have hget : (e.transferQueue ++ [r1]).get? e.transferQueue.length = some r1 := by
      simp
    have herase : (e.transferQueue ++ [r1]).eraseIdx e.transferQueue.length =
        e.transferQueue := by
      rw [List.eraseIdx_append_of_length_le (le_refl _)]
      simp
    refine ⟨{ r1 with
        status := .completed
        processedAt := some processedAt
        completedAt := some completedAt
        transactionHash := some ("0x" ++ hashDigits) },
      { e with
        transferHistory := e.transferHistory ++ [{ r1 with
          status := .completed
          processedAt := some processedAt
          completedAt := some completedAt
          transactionHash := some ("0x" ++ hashDigits) }] },
      ?_, rfl, ?_, ?_, ?_, ?_, rfl, rfl⟩
    · simp only [A2ATransfer.processTransfer, A2ATransfer.processBody, hidx, hget, herase]
    · simp [A2ATransfer.getTransferHistory]
    · intro hmem
      exact hpend _ hmem rfl
    · intro hmem
      exact hpend _ hmem rfl
    · exact hpend

theorem exampleEngine_config :
    exampleEngine.config = some
      { feePercentage := 3/2, maxTransferSize := 10, minTransferValue := 5,
        supportedPlatforms := none } := by
  simp [exampleEngine, A2ATransfer.init, orDefault]

theorem transferId_queued : transferId 1700000000000 42 = "transfer-1700000000000-42" := by
  decide

theorem transferId_example : transferId 1700000000500 7 = "transfer-1700000000500-7" := by
  decide

theorem queuedEngine_queue :
    queuedEngine.transferQueue =
      [{ id := "transfer-1700000000000-42", sourcePlatform := "flow", targetPlatform := "flow",
         assets := [{ id := some "sword", value := some 40 }, { id := some "shield" }],
         wallet := "wallet-2", status := .pending, createdAt := 1700000000000,
         fee := 3/5 }] := by
  simp [queuedEngine, exampleEngine, samePlatformParams, A2ATransfer.createTransfer,
    A2ATransfer.init, A2ATransfer.new, A2ATransfer._calculateFee, falsyStr, orDefault,
    transferId_queued]
  norm_num

theorem queuedEngine_create :
    (queuedEngine.createTransfer exampleParams 1700000000500 7 1700000000501).1 =
      .ok exampleRequest := by
  have hcfg : queuedEngine.config = exampleEngine.config := by
    rcases createTransfer_cases exampleEngine samePlatformParams 1700000000000 42
      1700000000000 with ⟨err, h⟩ | ⟨r, h⟩ <;> simp [queuedEngine, h]
  have hsup : queuedEngine.supportedPlatforms = exampleEngine.supportedPlatforms := by
    rcases createTransfer_cases exampleEngine samePlatformParams 1700000000000 42
      1700000000000 with ⟨err, h⟩ | ⟨r, h⟩ <;> simp [queuedEngine, h]
  simp [A2ATransfer.createTransfer, exampleParams, hsup, hcfg, exampleEngine_config,
    A2ATransfer._calculateFee, falsyStr, orDefault, transferId_example, exampleRequest,
    exampleEngine, A2ATransfer.init, A2ATransfer.new]
  norm_num

/-- Witness for C7: the example request, created on an engine that already queues
another request with a different id, and then processed. -/
theorem processTransfer_fresh_witness :
    ∃ done e2,
      (queuedEngine.createTransfer exampleParams 1700000000500 7
        1700000000501).2.processTransfer exampleRequest.id 1700000000600 1700000002600
        "9f3c" = (.ok done, e2) ∧
      done = { exampleRequest with
        status := .completed
        processedAt := some 1700000000600
        completedAt := some 1700000002600
        transactionHash := some ("0x" ++ "9f3c") } ∧
      done ∈ e2.getTransferHistory exampleRequest.wallet ∧
      done ∉ e2.getPendingTransfers exampleRequest.wallet ∧
      exampleRequest ∉ e2.getPendingTransfers exampleRequest.wallet ∧
      (∀ t ∈ e2.getPendingTransfers exampleRequest.wallet, t.id ≠ exampleRequest.id) ∧
      e2.transferQueue = queuedEngine.transferQueue ∧
      e2.transferHistory = queuedEngine.transferHistory ++ [done] :=
  processTransfer_fresh queuedEngine exampleParams 1700000000500 7 1700000000501
    exampleRequest 1700000000600 1700000002600 "9f3c" queuedEngine_create
    (by
      rw [queuedEngine_queue]
      intro t ht
      rw [List.mem_singleton] at ht
      subst ht
      decide)

theorem processedEngine_queue : processedEngine.transferQueue = queuedEngine.transferQueue := by
  have hfresh : ∀ t ∈ queuedEngine.transferQueue, t.id ≠ exampleRequest.id := by
    rw [queuedEngine_queue]
    intro t ht
    rw [List.mem_singleton] at ht
    subst ht
    decide
  rcases createTransfer_cases queuedEngine exampleParams 1700000000500 7 1700000000501 with
    ⟨err, h⟩ | ⟨r, h⟩
  · have := queuedEngine_create
    rw [h] at this
    cases this
  · have hr : r = exampleRequest := by
      have := queuedEngine_create
      rw [h] at this
      simpa using this
    subst hr
    have hidx : ({ queuedEngine with
        transferQueue := queuedEngine.transferQueue ++ [exampleRequest] } :
          A2ATransfer).findIndex exampleRequest.id = some queuedEngine.transferQueue.length :=
      findIdx_append_fresh _ _ hfresh
    have hget : (queuedEngine.transferQueue ++ [exampleRequest]).get?
        queuedEngine.transferQueue.length = some exampleRequest := by
      simp
    have herase : (queuedEngine.transferQueue ++ [exampleRequest]).eraseIdx
        queuedEngine.transferQueue.length = queuedEngine.transferQueue := by
      rw [List.eraseIdx_append_of_length_le (le_refl _)]
      simp
    have hid : "transfer-1700000000500-7" = exampleRequest.id := rfl
    simp only [processedEngine, h, hid, A2ATransfer.processTransfer, A2ATransfer.processBody,
      hidx, hget, herase]

/-- Witness for C8: the id of the example request after it was processed and moved
to history; a second `processTransfer` on it finds nothing. -/
theorem processTransfer_not_found_witness :
    processedEngine.processTransfer "transfer-1700000000500-7" 1700000003000 1700000005000
      "77aa" =
      (.error (.error ("Transfer with ID " ++ "transfer-1700000000500-7" ++ " not found")),
        processedEngine) :=
  processTransfer_not_found processedEngine "transfer-1700000000500-7" 1700000003000
    1700000005000 "77aa"
    (by
      rw [processedEngine_queue, queuedEngine_queue]
      intro t ht
      rw [List.mem_singleton] at ht
      subst ht
      decide)

/-! ## The platform registry: reads and updates -/

theorem own_set_of_ne {reg : A2APlatforms} {k k2 : String} (v : PlatformData)
    (hk : (reg.own k).isSome = true) (hne : k2 ≠ k) : (reg.set k v).own k2 = reg.own k2 := by
  unfold A2APlatforms.set
  rw [if_pos hk]
  unfold A2APlatforms.own
  simp only [List.find?_map]
  have hcomp : ((fun e : String × PlatformData => e.1 == k2) ∘
      fun e => if (e.1 == k) = true then (e.1, v) else e) = fun e => e.1 == k2 := by
    funext x
    simp only [Function.comp]
    split <;> rfl
  rw [hcomp]
  cases hf : reg.platforms.find? (fun e => e.1 == k2) with
  | none => rfl
  | some x =>
    have hx : x.1 = k2 := by simpa using List.find?_some hf
    have hxk : ¬ x.1 = k := by
      rw [hx]
      exact hne
    simp [hxk]

theorem keys_set_of_own {reg : A2APlatforms} {k : String} (v : PlatformData)
    (hk : (reg.own k).isSome = true) :
    (reg.set k v).platforms.map Prod.fst = reg.platforms.map Prod.fst := by
  unfold A2APlatforms.set
  rw [if_pos hk]
  simp only [List.map_map]
  apply List.map_congr_left
  intro x _
  simp only [Function.comp]
  split <;> rfl

theorem prop_merge (a b : PlatformFields) (f : String) :
    (a.merge b).prop f = (b.prop f <|> a.prop f) := by
  have hmap : ∀ {α : Type} (g : α → Prim) (x y : Option α),
      (x <|> y).map g = (x.map g <|> y.map g) := by
    intro α g x y
    cases x <;> rfl
  unfold PlatformFields.prop
  by_cases h0 : f = "id"
  · simp only [if_pos h0]
    exact hmap _ _ _
  simp only [if_neg h0]
  by_cases h1 : f = "name"
  · simp only [if_pos h1]
    exact hmap _ _ _
  simp only [if_neg h1]
  by_cases h2 : f = "icon"
  · simp only [if_pos h2]
    exact hmap _ _ _
  simp only [if_neg h2]
  by_cases h3 : f = "description"
  · simp only [if_pos h3]
    exact hmap _ _ _
  simp only [if_neg h3]
  by_cases h4 : f = "transferFee"
  · simp only [if_pos h4]
    exact hmap _ _ _
  simp only [if_neg h4]
  by_cases h5 : f = "estimatedTime"
  · simp only [if_pos h5]
    exact hmap _ _ _
  simp only [if_neg h5]
  by_cases h6 : f = "supported"
  · simp only [if_pos h6]
    exact hmap _ _ _
  simp only [if_neg h6]
  by_cases h7 : f = "testnet"
  · simp only [if_pos h7]
    exact hmap _ _ _
  simp only [if_neg h7]
  by_cases h8 : f = "mainnet"
  · simp only [if_pos h8]
    exact hmap _ _ _
  simp only [if_neg h8]
  rfl

/-- C11. For every registered id, `updatePlatform(id, platformData)` returns `true`
and merges: afterwards every field named in `platformData` has the new value, every
other field of that platform has its old value, and the record of every other
platform, the registered keys and their order are unchanged. -/
theorem updatePlatform_merges (reg : A2APlatforms) (k : String) (d : PlatformFields)
    (r : PlatformData) (hr : reg.own k = some r) :
    (reg.updatePlatform k d).1 = true ∧
    (∃ r2, (reg.updatePlatform k d).2.own k = some r2 ∧
      (∀ f v, d.prop f = some v → r2.fields.prop f = some v) ∧
      (∀ f, d.prop f = none → r2.fields.prop f = r.fields.prop f) ∧
      r2.indexed = r.indexed) ∧
    (∀ k2, k2 ≠ k → (reg.updatePlatform k d).2.own k2 = reg.own k2) ∧
    (reg.updatePlatform k d).2.platforms.map Prod.fst = reg.platforms.map Prod.fst ∧
    (reg.updatePlatform k d).2.proto = reg.proto := by
  have hsome : (reg.own k).isSome = true := by rw [hr]; rfl
  have hupd : reg.updatePlatform k d = (true, reg.set k (r.merge d)) := by
    simp [A2APlatforms.updatePlatform, get_of_own hr, JSVal.truthy, JSVal.spread]
  rw [hupd]
  refine ⟨rfl, ⟨r.merge d, own_set_of_own _ hr, ?_, ?_, rfl⟩, ?_, keys_set_of_own _ hsome, ?_⟩
  · intro f v hf
    show (r.fields.merge d).prop f = some v
    rw [prop_merge, hf]
    rfl
  · intro f hf
    show (r.fields.merge d).prop f = r.fields.prop f
    rw [prop_merge, hf]
    rfl
  · intro k2 hne
    exact own_set_of_ne _ hsome hne
  · unfold A2APlatforms.set
    rw [if_pos hsome]

/-- Witness for C11: the constructor's registry, `updatePlatform("ethereum",
{ transferFee: 3, supported: false })`: the fee is replaced, the name is kept, and
the record of `solana` is untouched. -/
theorem updatePlatform_merges_witness :
    (A2APlatforms.new.updatePlatform "ethereum"
      { transferFee := some 3, supported := some false }).1 = true ∧
    (∃ r2, (A2APlatforms.new.updatePlatform "ethereum"
        { transferFee := some 3, supported := some false }).2.own "ethereum" = some r2 ∧
      r2.fields.prop "transferFee" = some (.num 3) ∧
      r2.fields.prop "name" = some (.str "Ethereum")) ∧
    (A2APlatforms.new.updatePlatform "ethereum"
      { transferFee := some 3, supported := some false }).2.own "solana" =
        A2APlatforms.new.own "solana" := by
  have h := updatePlatform_merges A2APlatforms.new "ethereum"
    { transferFee := some 3, supported := some false } _ rfl
  obtain ⟨r2, h1, h2, h3, -⟩ := h.2.1
  exact ⟨h.1, ⟨r2, h1, h2 "transferFee" _ rfl, (h3 "name" rfl).trans rfl⟩,
    h.2.2.1 "solana" (by decide)⟩

theorem withId_supported (k : String) (r : PlatformData) :
    (withId k r).fields.supported = r.fields.supported := by
  cases h : r.fields.supported <;> simp [withId, PlatformFields.merge, h]

/-- The entries of `getAllPlatforms(false)` are the own properties of
`this.platforms` in their order, entry by entry `{ id: key, ...platform }`; and
`getAllPlatforms(true)` is the sub-sequence of the entries with a truthy `supported`,
in the same relative order. -/
theorem getAllPlatforms_entries (reg : A2APlatforms) :
    reg.getAllPlatforms false = reg.platforms.map (fun e => withId e.1 e.2) ∧
    (reg.getAllPlatforms false).length = reg.platforms.length ∧
    reg.getAllPlatforms true =
      (reg.getAllPlatforms false).filter (fun r => truthyFlag r.fields.supported) ∧
    (reg.getAllPlatforms true).Sublist (reg.getAllPlatforms false) := by
  have hall : reg.getAllPlatforms false = reg.platforms.map (fun e => withId e.1 e.2) := by
    simp [A2APlatforms.getAllPlatforms]
  have hact : reg.getAllPlatforms true =
      (reg.getAllPlatforms false).filter (fun r => truthyFlag r.fields.supported) := by
    rw [hall, List.filter_map]
    simp only [A2APlatforms.getAllPlatforms, if_true]
    congr 1
    apply List.filter_congr
    intro x _
    simp [Function.comp, withId_supported]
  refine ⟨hall, by rw [hall, List.length_map], hact, ?_⟩
  rw [hact]
  exact List.filter_sublist _

/-- An entry of `getAllPlatforms` carries the registry key as `id` when the stored
record has no `id` field of its own. -/
theorem withId_id_of_none (k : String) (r : PlatformData) (h : r.fields.id = none) :
    (withId k r).fields.id = some k := by
  simp [withId, PlatformFields.merge, h]

/-- The constructor's registry lists its five platforms in the order of the
object literal, each entry carrying its key as `id`. -/
theorem getAllPlatforms_new :
    (A2APlatforms.new.getAllPlatforms false).map (fun r => r.fields.id) =
      [some "solana", some "ethereum", some "polygon", some "immutablex", some "flow"] ∧
    (A2APlatforms.new.getAllPlatforms true).map (fun r => r.fields.id) =
      [some "solana", some "ethereum", some "polygon", some "immutablex", some "flow"] := by
  decide

/-- C12 (evaluation at the failing input). After
`updatePlatform("solana", { id: "ethereum" })` on the constructor's registry the
registered keys are still `solana, ethereum, polygon, immutablex, flow`, but the
entries of `getAllPlatforms(false)` carry the ids
`ethereum, ethereum, polygon, immutablex, flow`: the entry of `solana` does not carry
its id, and likewise in `getAllPlatforms(true)`. -/
theorem getAllPlatforms_entry_with_foreign_id :
    (A2APlatforms.new.updatePlatform "solana" { id := some "ethereum" }).2.platforms.map
      Prod.fst = ["solana", "ethereum", "polygon", "immutablex", "flow"] ∧
    ((A2APlatforms.new.updatePlatform "solana" { id := some "ethereum" }).2.getAllPlatforms
      false).map (fun r => r.fields.id) =
      [some "ethereum", some "ethereum", some "polygon", some "immutablex", some "flow"] ∧
    ((A2APlatforms.new.updatePlatform "solana" { id := some "ethereum" }).2.getAllPlatforms
      true).map (fun r => r.fields.id) =
      [some "ethereum", some "ethereum", some "polygon", some "immutablex", some "flow"] := by
  decide

/-- For a registered id `getPlatform` returns `{ id: key, ...platform }` of the
stored record, and that object is an entry of `getAllPlatforms(false)`. -/
theorem getPlatform_of_own (reg : A2APlatforms) (k : String) (r : PlatformData)
    (hr : reg.own k = some r) :
    reg.getPlatform k = some (withId k r) ∧ withId k r ∈ reg.getAllPlatforms false := by
  refine ⟨by simp [A2APlatforms.getPlatform, get_of_own hr, JSVal.truthy, JSVal.spread], ?_⟩
  unfold A2APlatforms.own at hr
  rcases Option.map_eq_some'.mp hr with ⟨e, he, rfl⟩
  have hk : e.1 = k := by simpa using List.find?_some he
  rw [(getAllPlatforms_entries reg).1, ← hk]
  exact List.mem_map.mpr ⟨e, List.mem_of_find?_eq_some he, rfl⟩

/-- An id for which the read `this.platforms[id]` is `undefined` gets `null` from
`getPlatform`; while the prototype of `this.platforms` is `Object.prototype` these are
the ids that are neither registered nor a property name of `Object.prototype`. -/
theorem getPlatform_of_unknown (reg : A2APlatforms) (k : String)
    (hproto : reg.proto = {}) (hk : ¬ reg.registered k)
    (hm : k ∉ objectPrototypeMethods) (hp : k ≠ "__proto__") :
    reg.getPlatform k = none := by
  have hown : reg.own k = none := by
    cases ho : reg.own k with
    | none => rfl
    | some r => exact absurd (registered_of_own ho) hk
  have hprop : reg.proto.prop k = none := by
    rw [hproto]
    unfold PlatformFields.prop
    repeat' split
    all_goals rfl
  simp [A2APlatforms.getPlatform, A2APlatforms.get, hown, hprop, hp, hm, JSVal.truthy]

/-- C13 (evaluation at the failing input). On the constructor's registry the ids
`constructor` and `toString` are not registered platform keys, yet
`getPlatform("constructor")` and `getPlatform("toString")` do not return `null`: each
returns an object that carries the id and no other field. -/
theorem getPlatform_inherited_not_null :
    ¬ A2APlatforms.new.registered "constructor" ∧
    A2APlatforms.new.getPlatform "constructor" =
      some { fields := { id := some "constructor" } } ∧
    ¬ A2APlatforms.new.registered "toString" ∧
    A2APlatforms.new.getPlatform "toString" = some { fields := { id := some "toString" } } := by
  decide

/-- The object `checkTransferCompatibility` returns for two registered platforms
that are both supported. -/
theorem checkTransferCompatibility_eq (reg : A2APlatforms) (s t : String)
    (rs rt : PlatformData) (hs : reg.own s = some rs) (ht : reg.own t = some rt)
    (hss : rs.fields.supported = some true) (hts : rt.fields.supported = some true) :
    reg.checkTransferCompatibility s t =
      .compatible (requiresBridge s t)
        (JSNum.add (JSNum.add rs.fields.transferFee
          (JSNum.mul rt.fields.transferFee (some (1/2))))
          (if requiresBridge s t then some (3/2) else some 0))
        (if requiresBridge s t then "15-30 minutes"
          else if s == t then "< 5 minutes" else "5-15 minutes")
        (if requiresBridge s t then "Requires bridge transfer between networks" else "") := by
  simp [A2APlatforms.checkTransferCompatibility, get_of_own hs, get_of_own ht,
    JSVal.truthy, JSVal.supported, JSVal.transferFee, truthyFlag, hss, hts]

theorem requiresBridge_iff (s t : String) :
    requiresBridge s t = true ↔ (s = "solana" ∧ t = "flow") ∨ (s = "flow" ∧ t = "solana") := by
  simp [requiresBridge]

theorem requiresBridge_comm (s t : String) : requiresBridge s t = requiresBridge t s := by
  rw [Bool.eq_iff_iff, requiresBridge_iff, requiresBridge_iff]
  constructor <;> rintro (⟨h1, h2⟩ | ⟨h1, h2⟩)
  · exact Or.inr ⟨h2, h1⟩
  · exact Or.inl ⟨h2, h1⟩
  · exact Or.inr ⟨h2, h1⟩
  · exact Or.inl ⟨h2, h1⟩

theorem requiresBridge_self (s : String) : requiresBridge s s = false := by
  cases h : requiresBridge s s with
  | false => rfl
  | true =>
    rcases (requiresBridge_iff s s).mp h with ⟨h1, h2⟩ | ⟨h1, h2⟩
    · rw [h1] at h2
      exact absurd h2 (by decide)
    · rw [h1] at h2
      exact absurd h2 (by decide)

/-- C19. For every pair of registered, supported platforms the answer of
`checkTransferCompatibility` has `requiresBridge = true` if and only if the unordered
pair of ids is `solana, flow`; `requiresBridge` is the same for `(s, t)` and `(t, s)`,
is `false` when `s = t`, and `notes` is non-empty exactly when `requiresBridge` is
`true`. -/
theorem checkTransferCompatibility_bridge (reg : A2APlatforms) (s t : String)
    (rs rt : PlatformData) (hs : reg.own s = some rs) (ht : reg.own t = some rt)
    (hss : rs.fields.supported = some true) (hts : rt.fields.supported = some true) :
    (∃ b n, (reg.checkTransferCompatibility s t).requiresBridge = some b ∧
      (reg.checkTransferCompatibility s t).notes = some n ∧
      (b = true ↔ (s = "solana" ∧ t = "flow") ∨ (s = "flow" ∧ t = "solana")) ∧
      (n ≠ "" ↔ b = true)) ∧
    (reg.checkTransferCompatibility s t).requiresBridge =
      (reg.checkTransferCompatibility t s).requiresBridge ∧
    (s = t → (reg.checkTransferCompatibility s t).requiresBridge = some false) := by
  rw [checkTransferCompatibility_eq reg s t rs rt hs ht hss hts,
    checkTransferCompatibility_eq reg t s rt rs ht hs hts hss]
  refine ⟨⟨requiresBridge s t, _, rfl, rfl, requiresBridge_iff s t, ?_⟩, ?_, ?_⟩
  · cases requiresBridge s t <;> simp
  · simp only [Compatibility.requiresBridge, requiresBridge_comm s t]
  · intro hst
    subst hst
    simp only [Compatibility.requiresBridge, requiresBridge_self]

/-- Witness for C19: the constructor's registry at `flow -> solana`, which requires
the bridge and carries the note. -/
theorem checkTransferCompatibility_bridge_witness :
    (A2APlatforms.new.checkTransferCompatibility "flow" "solana").requiresBridge =
      (A2APlatforms.new.checkTransferCompatibility "solana" "flow").requiresBridge ∧
    (A2APlatforms.new.checkTransferCompatibility "flow" "solana").requiresBridge =
      some true :=
  ⟨(checkTransferCompatibility_bridge A2APlatforms.new "flow" "solana" _ _ rfl rfl
      rfl rfl).2.1, by decide⟩

/-- C20. For every compatible pair of registered, supported platforms,
`estimatedTime` falls in exactly one of three mutually exclusive cases: `< 5 minutes`
when `s = t` (where `requiresBridge` is `false`), `15-30 minutes` when `requiresBridge`,
and `5-15 minutes` otherwise; testing `s = t` first gives the same result as the
code's order, and `estimatedTime` is the same for `(s, t)` and `(t, s)`. -/
theorem checkTransferCompatibility_time (reg : A2APlatforms) (s t : String)
    (rs rt : PlatformData) (hs : reg.own s = some rs) (ht : reg.own t = some rt)
    (hss : rs.fields.supported = some true) (hts : rt.fields.supported = some true) :
    (s = t → requiresBridge s t = false ∧
      (reg.checkTransferCompatibility s t).estimatedTime = some "< 5 minutes") ∧
    (requiresBridge s t = true → s ≠ t ∧
      (reg.checkTransferCompatibility s t).estimatedTime = some "15-30 minutes") ∧
    (s ≠ t → requiresBridge s t = false →
      (reg.checkTransferCompatibility s t).estimatedTime = some "5-15 minutes") ∧
    (reg.checkTransferCompatibility s t).estimatedTime =
      some (if s = t then "< 5 minutes"
        else if requiresBridge s t then "15-30 minutes" else "5-15 minutes") ∧
    (reg.checkTransferCompatibility s t).estimatedTime =
      (reg.checkTransferCompatibility t s).estimatedTime := by
  rw [checkTransferCompatibility_eq reg s t rs rt hs ht hss hts,
    checkTransferCompatibility_eq reg t s rt rs ht hs hts hss]
  simp only [Compatibility.estimatedTime]
  refine ⟨?_, ?_, ?_, ?_, ?_⟩
  · intro hst
    subst hst
    simp [requiresBridge_self]
  · intro hb
    have hne : s ≠ t := by
      intro hst
      subst hst
      rw [requiresBridge_self] at hb
      cases hb
    exact ⟨hne, by simp [hb]⟩
  · intro hne hb
    simp [hb, hne]
  · by_cases hst : s = t
    · subst hst
      simp [requiresBridge_self]
    · simp [hst]
  · rw [requiresBridge_comm t s]
    by_cases hst : s = t
    · subst hst
      rfl
    · have hts2 : ¬ t = s := fun h => hst h.symm
      simp [hst, hts2]

/-- Witness for C20: the constructor's registry at `polygon -> polygon`, the fast
bucket. -/
theorem checkTransferCompatibility_time_witness :
    requiresBridge "polygon" "polygon" = false ∧
    (A2APlatforms.new.checkTransferCompatibility "polygon" "polygon").estimatedTime =
      some "< 5 minutes" :=
  (checkTransferCompatibility_time A2APlatforms.new "polygon" "polygon" _ _ rfl rfl
    rfl rfl).1 rfl

/-! ## The transfer engine: queries, fees and identifiers -/

/-- Every run of `processTransfer` to completion either finds no queued request with
the id, throws not-found and leaves the engine as it was, or locates the first queued
request with the id, returns it completed, removes it from the queue and appends it
to the history. -/
theorem processTransfer_cases (e : A2ATransfer) (tid : String)
    (processedAt completedAt : Nat) (hashDigits : String) :
    ((∀ t ∈ e.transferQueue, t.id ≠ tid) ∧
      e.processTransfer tid processedAt completedAt hashDigits =
        (.error (.error ("Transfer with ID " ++ tid ++ " not found")), e)) ∨
    (∃ i t, e.transferQueue[i]? = some t ∧ t.id = tid ∧
      (∀ j u, j < i → e.transferQueue[j]? = some u → u.id ≠ tid) ∧
      e.processTransfer tid processedAt completedAt hashDigits =
        (.ok (completedRecord t processedAt completedAt hashDigits),
          { e with
            transferQueue := e.transferQueue.eraseIdx i
            transferHistory := e.transferHistory ++
              [completedRecord t processedAt completedAt hashDigits] })) := by
  cases hidx : e.findIndex tid with
  | none =>
    left
    have hno : ∀ t ∈ e.transferQueue, t.id ≠ tid := by
      intro t ht
      have := List.findIdx?_eq_none_iff.mp hidx t ht
      simpa using this
    refine ⟨hno, ?_⟩
    have hcatch : ∀ err, e.processCatch tid err = e := by
      intro err
      unfold A2ATransfer.processCatch
      split
      · rfl
      · rw [hidx]
    simp [A2ATransfer.processTransfer, A2ATransfer.processBody, hidx, hcatch]
  | some i =>
    right
    obtain ⟨hlt, hp, hmin⟩ := List.findIdx?_eq_some_iff_getElem.mp hidx
    have hget : e.transferQueue[i]? = some e.transferQueue[i] := List.getElem?_eq_getElem hlt
    refine ⟨i, e.transferQueue[i], hget, by simpa using hp, ?_, ?_⟩
    · intro j u hj hu
      have hjlt : j < e.transferQueue.length := Nat.lt_trans hj hlt
      have := hmin j hj
      rw [List.getElem?_eq_getElem hjlt] at hu
      cases hu
      simpa using this
    · simp only [A2ATransfer.processTransfer, A2ATransfer.processBody, hidx,
        List.get?_eq_getElem?, hget]
      rfl

/-- C14. `getTransferHistory(w)` is the sub-sequence of the history whose requests
have wallet `w`, in history order, and `getPendingTransfers(w)` is the sub-sequence
of the pending queue whose requests have wallet `w`, in queue order: each result is
a sub-list of its list, contains exactly the requests of that list with wallet `w`,
each as often as the list does, and so never a request of another wallet. -/
theorem wallet_queries (e : A2ATransfer) (w : String) :
    (e.getTransferHistory w).Sublist e.transferHistory ∧
    (∀ t, t ∈ e.getTransferHistory w ↔ t ∈ e.transferHistory ∧ t.wallet = w) ∧
    (∀ t, t.wallet = w → (e.getTransferHistory w).count t = e.transferHistory.count t) ∧
    (e.getPendingTransfers w).Sublist e.transferQueue ∧
    (∀ t, t ∈ e.getPendingTransfers w ↔ t ∈ e.transferQueue ∧ t.wallet = w) ∧
    (∀ t, t.wallet = w → (e.getPendingTransfers w).count t = e.transferQueue.count t) := by
  refine ⟨List.filter_sublist _, ?_, ?_, List.filter_sublist _, ?_, ?_⟩
  · intro t
    simp [A2ATransfer.getTransferHistory, List.mem_filter]
  · intro t ht
    unfold A2ATransfer.getTransferHistory
    rw [List.count_filter]
    simpa using ht
  · intro t
    simp [A2ATransfer.getPendingTransfers, List.mem_filter]
  · intro t ht
    unfold A2ATransfer.getPendingTransfers
    rw [List.count_filter]
    simpa using ht

/-- Witness for C14: the queue of `queuedEngine` holds one request, of wallet
`wallet-2`; it is counted once for that wallet. -/
theorem wallet_queries_witness :
    (queuedEngine.getPendingTransfers "wallet-2").count
      { id := "transfer-1700000000000-42", sourcePlatform := "flow", targetPlatform := "flow",
        assets := [{ id := some "sword", value := some 40 }, { id := some "shield" }],
        wallet := "wallet-2", status := .pending, createdAt := 1700000000000, fee := 3/5 } =
      queuedEngine.transferQueue.count
        { id := "transfer-1700000000000-42", sourcePlatform := "flow", targetPlatform := "flow",
          assets := [{ id := some "sword", value := some 40 }, { id := some "shield" }],
          wallet := "wallet-2", status := .pending, createdAt := 1700000000000,
          fee := 3/5 } :=
  (wallet_queries queuedEngine "wallet-2").2.2.2.2.2 _ rfl

/-- What a successful `createTransfer` has checked and built: the four validations
passed, the request is the object literal of the source, with the fee
`_calculateFee(assets)` returned, and it was appended to the pending queue. -/
theorem createTransfer_ok_inv (e : A2ATransfer) (p : TransferParams)
    (now : Nat) (rand : Fin 10000) (createdAt : Nat) (r : TransferRequest)
    (h : (e.createTransfer p now rand createdAt).1 = .ok r) :
    p.sourcePlatform = some r.sourcePlatform ∧ r.sourcePlatform ≠ "" ∧
    p.targetPlatform = some r.targetPlatform ∧ r.targetPlatform ≠ "" ∧
    r.sourcePlatform ∈ e.supportedPlatforms ∧ r.targetPlatform ∈ e.supportedPlatforms ∧
    p.assets = some r.assets ∧ r.assets ≠ [] ∧
    (∃ w, p.wallet = some w ∧ w.address = some r.wallet) ∧ r.wallet ≠ "" ∧
    e._calculateFee r.assets = .ok r.fee ∧
    r = { id := transferId now rand, sourcePlatform := r.sourcePlatform,
          targetPlatform := r.targetPlatform, assets := r.assets, wallet := r.wallet,
          status := .pending, createdAt := createdAt, fee := r.fee } ∧
    (e.createTransfer p now rand createdAt).2 =
      { e with transferQueue := e.transferQueue ++ [r] } := by
  unfold A2ATransfer.createTransfer at h ⊢
  by_cases h1 : (falsyStr p.sourcePlatform || falsyStr p.targetPlatform) = true
  · rw [if_pos h1] at h
    cases h
  · rw [if_neg h1] at h ⊢
    simp only [] at h ⊢
    by_cases h2 : (!e.supportedPlatforms.contains (p.sourcePlatform.getD "") ||
        !e.supportedPlatforms.contains (p.targetPlatform.getD "")) = true
    · rw [if_pos h2] at h
      cases h
    · rw [if_neg h2] at h ⊢
      cases hA : p.assets with
      | none =>
        rw [hA] at h
        cases h
      | some assets =>
        rw [hA] at h
        simp only [] at h ⊢
        by_cases h3 : (assets.length == 0) = true
        · rw [if_pos h3] at h
          cases h
        · rw [if_neg h3] at h ⊢
          cases hW : p.wallet with
          | none =>
            rw [hW] at h
            cases h
          | some wallet =>
            rw [hW] at h
            simp only [] at h ⊢
            by_cases h4 : falsyStr wallet.address = true
            · rw [if_pos h4] at h
              cases h
            · rw [if_neg h4] at h ⊢
              cases hF : e._calculateFee assets with
              | error err =>
                rw [hF] at h
                cases h
              | ok fee =>
                rw [hF] at h
                simp only [Except.ok.injEq] at h
                subst h
                simp only [Bool.or_eq_true, not_or, Bool.not_eq_true] at h1
                have hsrc : ∃ s, p.sourcePlatform = some s ∧ s ≠ "" := by
                  cases hs : p.sourcePlatform with
                  | none => simp [hs, falsyStr] at h1
                  | some s =>
                    refine ⟨s, rfl, ?_⟩
                    intro h0
                    simp [hs, falsyStr, h0] at h1
                have htgt : ∃ t, p.targetPlatform = some t ∧ t ≠ "" := by
                  cases ht : p.targetPlatform with
                  | none => simp [ht, falsyStr] at h1
                  | some t =>
                    refine ⟨t, rfl, ?_⟩
                    intro h0
                    simp [ht, falsyStr, h0] at h1
                have hadr : ∃ a, wallet.address = some a ∧ a ≠ "" := by
                  cases ha : wallet.address with
                  | none => simp [ha, falsyStr] at h4
                  | some a =>
                    refine ⟨a, rfl, ?_⟩
                    intro h0
                    simp [ha, falsyStr, h0] at h4
                obtain ⟨s, hs, hs0⟩ := hsrc
                obtain ⟨t, ht, ht0⟩ := htgt
                obtain ⟨a, ha, ha0⟩ := hadr
                have hmem : s ∈ e.supportedPlatforms ∧ t ∈ e.supportedPlatforms := by
                  simpa [hs, ht] using h2
                have hne : assets ≠ [] := by
                  intro h0
                  simp [h0] at h3
                simp only [hs, ht, ha, Option.getD_some]
                refine ⟨?_, hs0, ?_, ht0, hmem.1, hmem.2, ?_, hne, ⟨wallet, ?_, ?_⟩, ha0, hF,
                  ?_, ?_⟩ <;> first | rfl | trivial

/-- C17 (amended). On an initialised engine, after a successful `createTransfer` of a
valid input, `getPendingTransfers(wallet.address)` is its value before the call
followed by the new request; on an engine with an empty queue it is exactly that one
request, with status `pending` and, as `fee`, the value `_calculateFee` returned for
its assets, which the code computes as `Math.max(total * (feePercentage / 100), 0.01)`
in doubles, `total` adding `asset.value || 0` from left to right. -/
theorem getPendingTransfers_after_create (e : A2ATransfer) (config : TransferConfig)
    (p : TransferParams) (now : Nat) (rand : Fin 10000) (createdAt : Nat)
    (r : TransferRequest) (hcfg : e.config = some config)
    (h : (e.createTransfer p now rand createdAt).1 = .ok r) :
    (∃ w, p.wallet = some w ∧ w.address = some r.wallet) ∧
    (e.createTransfer p now rand createdAt).2.getPendingTransfers r.wallet =
      e.getPendingTransfers r.wallet ++ [r] ∧
    (e.transferQueue = [] →
      (e.createTransfer p now rand createdAt).2.getPendingTransfers r.wallet = [r]) ∧
    r.status = .pending ∧
    e._calculateFee r.assets = .ok r.fee ∧
    e._calculateFee64 r.assets =
      .ok ((((r.assets.map Asset.value64).foldl JSDouble.add (.fin 0)).mul
        ((JSDouble.ofRat config.feePercentage).divNat 100)).max (JSDouble.ofFrac 1 100)) := by
  obtain ⟨-, -, -, -, -, -, -, -, hw, -, hfee, hr, hst⟩ :=
    createTransfer_ok_inv e p now rand createdAt r h
  have hpend : (e.createTransfer p now rand createdAt).2.getPendingTransfers r.wallet =
      e.getPendingTransfers r.wallet ++ [r] := by
    rw [hst]
    simp [A2ATransfer.getPendingTransfers, List.filter_append]
  refine ⟨hw, hpend, ?_, by rw [hr], hfee, ?_⟩
  · intro hq
    rw [hpend]
    simp [A2ATransfer.getPendingTransfers, hq]
  · simp only [A2ATransfer._calculateFee64, hcfg, List.foldl_map]

theorem queuedEngine_config :
    queuedEngine.config = some
      { feePercentage := 3/2, maxTransferSize := 10, minTransferValue := 5,
        supportedPlatforms := none } := by
  have hcfg : queuedEngine.config = exampleEngine.config := by
    rcases createTransfer_cases exampleEngine samePlatformParams 1700000000000 42
      1700000000000 with ⟨err, h⟩ | ⟨r, h⟩ <;> simp [queuedEngine, h]
  rw [hcfg]
  exact exampleEngine_config

/-- Witness for C17 (amended): the example request created on `queuedEngine`, whose
queue holds a request of another wallet. -/
theorem getPendingTransfers_after_create_witness :
    (queuedEngine.createTransfer exampleParams 1700000000500 7
      1700000000501).2.getPendingTransfers exampleRequest.wallet =
      queuedEngine.getPendingTransfers exampleRequest.wallet ++ [exampleRequest] :=
  (getPendingTransfers_after_create queuedEngine
    { feePercentage := 3/2, maxTransferSize := 10, minTransferValue := 5,
      supportedPlatforms := none }
    exampleParams 1700000000500 7 1700000000501 exampleRequest queuedEngine_config
    queuedEngine_create).2.1

/-- C15. The fee of a request is fixed at creation.  A successful `processTransfer`
returns the located queue entry with the same `fee`, `id`, `sourcePlatform`,
`targetPlatform`, `assets`, `wallet` and `createdAt`, and that record is what it
appends to the history; for a request just created under a fresh id the record in
history has the fee `_calculateFee(assets)` computed by `createTransfer`; and an
`updatePlatform` call on the registry leaves the engine, hence every queued and
historical request, as it was, and does not change the outcome of a later
`createTransfer`. -/
theorem fee_fixed_at_creation :
    (∀ (e : A2ATransfer) (tid : String) (processedAt completedAt : Nat) (hashDigits : String)
        (done : TransferRequest) (e2 : A2ATransfer),
      e.processTransfer tid processedAt completedAt hashDigits = (.ok done, e2) →
      ∃ i t, e.transferQueue[i]? = some t ∧ t.id = tid ∧
        done.fee = t.fee ∧ done.id = t.id ∧ done.sourcePlatform = t.sourcePlatform ∧
        done.targetPlatform = t.targetPlatform ∧ done.assets = t.assets ∧
        done.wallet = t.wallet ∧ done.createdAt = t.createdAt ∧
        e2.transferQueue = e.transferQueue.eraseIdx i ∧
        e2.transferHistory = e.transferHistory ++ [done]) ∧
    (∀ (e : A2ATransfer) (p : TransferParams) (now : Nat) (rand : Fin 10000)
        (createdAt : Nat) (r : TransferRequest) (processedAt completedAt : Nat)
        (hashDigits : String),
      (e.createTransfer p now rand createdAt).1 = .ok r →
      (∀ t ∈ e.transferQueue, t.id ≠ r.id) →
      e._calculateFee r.assets = .ok r.fee ∧
      ∃ done e2, (e.createTransfer p now rand createdAt).2.processTransfer r.id processedAt
          completedAt hashDigits = (.ok done, e2) ∧
        done.fee = r.fee ∧ e2.transferHistory = e.transferHistory ++ [done]) ∧
    (∀ (m : Modules) (platformId : String) (platformData : PlatformFields),
      (m.updatePlatform platformId platformData).2.a2a = m.a2a ∧
      ∀ (p : TransferParams) (now : Nat) (rand : Fin 10000) (createdAt : Nat),
        ((m.updatePlatform platformId platformData).2.createTransfer p now rand createdAt).1 =
          (m.createTransfer p now rand createdAt).1) := by
  refine ⟨?_, ?_, ?_⟩
  · intro e tid processedAt completedAt hashDigits done e2 h
    rcases processTransfer_cases e tid processedAt completedAt hashDigits with
      ⟨-, herr⟩ | ⟨i, t, hget, hid, -, hok⟩
    · rw [herr] at h
      cases h
    · rw [hok] at h
      simp only [Prod.mk.injEq, Except.ok.injEq] at h
      obtain ⟨hdone, he2⟩ := h
      subst hdone
      subst he2
      exact ⟨i, t, hget, hid, rfl, rfl, rfl, rfl, rfl, rfl, rfl, rfl, rfl⟩
  · intro e p now rand createdAt r processedAt completedAt hashDigits hc hfresh
    obtain ⟨-, -, -, -, -, -, -, -, -, -, hfee, -, hst⟩ :=
      createTransfer_ok_inv e p now rand createdAt r hc
    refine ⟨hfee, ?_⟩
    rw [hst]
    have hidx : ({ e with transferQueue := e.transferQueue ++ [r] } : A2ATransfer).findIndex
        r.id = some e.transferQueue.length := findIdx_append_fresh _ _ hfresh
    have hget : (e.transferQueue ++ [r]).get? e.transferQueue.length = some r := by
      simp
    have herase : (e.transferQueue ++ [r]).eraseIdx e.transferQueue.length =
        e.transferQueue := by
      rw [List.eraseIdx_append_of_length_le (le_refl _)]
      simp
    refine ⟨completedRecord r processedAt completedAt hashDigits,
      { e with
        transferHistory := e.transferHistory ++
          [completedRecord r processedAt completedAt hashDigits] }, ?_, rfl, rfl⟩
    simp only [A2ATransfer.processTransfer, A2ATransfer.processBody, hidx, hget, herase]
    rfl
  · intro m platformId platformData
    exact ⟨rfl, fun _ _ _ _ => rfl⟩

/-- Witness for C15: the example request, created on `queuedEngine` under a fresh id
and then processed; its fee in history is the fee computed at creation. -/
theorem fee_fixed_at_creation_witness :
    exampleEngine._calculateFee exampleRequest.assets = .ok exampleRequest.fee ∧
    ∃ done e2, (queuedEngine.createTransfer exampleParams 1700000000500 7
        1700000000501).2.processTransfer exampleRequest.id 1700000000600 1700000002600
        "9f3c" = (.ok done, e2) ∧
      done.fee = exampleRequest.fee ∧
      e2.transferHistory = queuedEngine.transferHistory ++ [done] := by
  have h := fee_fixed_at_creation.2.1 queuedEngine exampleParams 1700000000500 7
    1700000000501 exampleRequest 1700000000600 1700000002600 "9f3c" queuedEngine_create
    (by
      rw [queuedEngine_queue]
      intro t ht
      rw [List.mem_singleton] at ht
      subst ht
      decide)
  refine ⟨?_, h.2⟩
  have hfee := h.1
  simp only [A2ATransfer._calculateFee, queuedEngine_config, exampleEngine_config] at hfee ⊢
  exact hfee

/-! ## Request identifiers -/

theorem digitChar_toNat (k : Nat) (h : k < 10) : (Nat.digitChar k).toNat - 48 = k := by
  interval_cases k <;> rfl

theorem digitChar_ne_dash (k : Nat) (h : k < 10) : Nat.digitChar k ≠ '-' := by
  interval_cases k <;> decide

theorem toDigitsCore_decode (fuel : Nat) : ∀ (n : Nat) (ds : List Char), n < fuel →
    (Nat.toDigitsCore 10 fuel n ds).foldl (fun acc c => acc * 10 + (c.toNat - 48)) 0 =
      ds.foldl (fun acc c => acc * 10 + (c.toNat - 48)) n := by
  induction fuel with
  | zero => intro n ds h; exact absurd h (Nat.not_lt_zero _)
  | succ fuel ih =>
    intro n ds h
    have hmod : n % 10 < 10 := Nat.mod_lt _ (by decide)
    simp only [Nat.toDigitsCore]
    split
    · rename_i h0
      have hn : n % 10 = n := by omega
      simp only [List.foldl_cons, Nat.zero_mul, Nat.zero_add]
      rw [digitChar_toNat _ hmod, hn]
    · rename_i h0
      have hlt : n / 10 < fuel := by omega
      rw [ih (n / 10) _ hlt]
      simp only [List.foldl_cons, digitChar_toNat _ hmod]
      congr 1
      omega

theorem toDigitsCore_no_dash (fuel : Nat) : ∀ (n : Nat) (ds : List Char),
    (∀ c ∈ ds, c ≠ '-') → ∀ c ∈ Nat.toDigitsCore 10 fuel n ds, c ≠ '-' := by
  induction fuel with
  | zero => intro n ds h; simpa [Nat.toDigitsCore] using h
  | succ fuel ih =>
    intro n ds h
    have hmod : n % 10 < 10 := Nat.mod_lt _ (by decide)
    have hds : ∀ c ∈ Nat.digitChar (n % 10) :: ds, c ≠ '-' := by
      intro c hc
      rcases List.mem_cons.mp hc with rfl | hc
      · exact digitChar_ne_dash _ hmod
      · exact h c hc
    simp only [Nat.toDigitsCore]
    split
    · exact hds
    · exact ih _ _ hds

theorem toDigits_injective (a b : Nat) (h : Nat.toDigits 10 a = Nat.toDigits 10 b) : a = b := by
  have ha := toDigitsCore_decode (a + 1) a [] (Nat.lt_succ_self a)
  have hb := toDigitsCore_decode (b + 1) b [] (Nat.lt_succ_self b)
  simp only [List.foldl_nil] at ha hb
  unfold Nat.toDigits at h
  rw [← ha, ← hb, h]

theorem append_dash_cancel : ∀ (xs xs2 ys ys2 : List Char),
    (∀ c ∈ xs, c ≠ '-') → (∀ c ∈ xs2, c ≠ '-') →
    xs ++ '-' :: ys = xs2 ++ '-' :: ys2 → xs = xs2 ∧ ys = ys2 := by
  intro xs
  induction xs with
  | nil =>
    intro xs2 ys ys2 _ h2 h
    cases xs2 with
    | nil => simpa using h
    | cons x xs2 =>
      simp only [List.nil_append, List.cons_append, List.cons.injEq] at h
      exact absurd h.1.symm (h2 x (List.mem_cons_self _ _))
  | cons x xs ih =>
    intro xs2 ys ys2 h1 h2 h
    cases xs2 with
    | nil =>
      simp only [List.nil_append, List.cons_append, List.cons.injEq] at h
      exact absurd h.1 (h1 x (List.mem_cons_self _ _))
    | cons y xs2 =>
      simp only [List.cons_append, List.cons.injEq] at h
      obtain ⟨hxs, hys⟩ := ih xs2 ys ys2 (fun c hc => h1 c (List.mem_cons_of_mem _ hc))
        (fun c hc => h2 c (List.mem_cons_of_mem _ hc)) h.2
      exact ⟨by rw [h.1, hxs], hys⟩

/-- The identifier determines the clock reading and the random draw it was built
from. -/
theorem transferId_injective (now1 now2 : Nat) (rand1 rand2 : Fin 10000)
    (h : transferId now1 rand1 = transferId now2 rand2) : now1 = now2 ∧ rand1 = rand2 := by
  have hdata := congrArg String.data h
  simp only [transferId, String.data_append, List.append_assoc] at hdata
  have hrest := List.append_cancel_left hdata
  have hnd : ∀ n : Nat, ∀ c ∈ (toString n).data, c ≠ '-' := by
    intro n
    exact toDigitsCore_no_dash (n + 1) n [] (fun c hc => absurd hc (List.not_mem_nil c))
  simp only [List.singleton_append] at hrest
  obtain ⟨h1, h2⟩ := append_dash_cancel _ _ _ _ (hnd now1) (hnd now2) hrest
  have e1 : now1 = now2 := toDigits_injective _ _ h1
  have e2 : rand1.val = rand2.val := toDigits_injective _ _ h2
  exact ⟨e1, Fin.ext e2⟩

theorem perm_cons_eraseIdx {α : Type} : ∀ (l : List α) (i : Nat) (a : α),
    l[i]? = some a → l.Perm (a :: l.eraseIdx i) := by
  intro l
  induction l with
  | nil => intro i a h; simp at h
  | cons x xs ih =>
    intro i a h
    cases i with
    | zero =>
      simp only [List.getElem?_cons_zero, Option.some.injEq] at h
      subst h
      simp
    | succ i =>
      simp only [List.getElem?_cons_succ] at h
      simp only [List.eraseIdx_cons_succ]
      exact ((ih i a h).cons x).trans (List.Perm.swap a x _)

/-- In a reachable state the ids of the requests in queue and history are, up to
order, the identifiers built from the pairs of the successful `createTransfer`
calls. -/
theorem reachable_ids {ps : List (Nat × Fin 10000)} {e : A2ATransfer}
    (h : ReachableWith ps e) :
    ((e.transferQueue ++ e.transferHistory).map (fun t => t.id)).Perm
      (ps.map (fun p => transferId p.1 p.2)) := by
  induction h with
  | new => simp [A2ATransfer.new]
  | init config _ ih => exact ih
  | createOk p now rand createdAt r _ hok ih =>
    obtain ⟨-, -, -, -, -, -, -, -, -, -, -, hr, hst⟩ :=
      createTransfer_ok_inv _ p now rand createdAt r hok
    have hid : r.id = transferId now rand := by rw [hr]
    rw [hst]
    simp only [List.map_append, List.map_cons, List.map_nil, List.append_assoc, hid]
    simp only [List.map_append] at ih
    refine List.Perm.trans ?_ (ih.cons _)
    refine List.Perm.trans (List.perm_append_comm_assoc _ _ _) ?_
    simp
  | createError p now rand createdAt err _ herr ih =>
    rw [createTransfer_error_state _ p now rand createdAt err herr]
    exact ih
  | process tid processedAt completedAt hashDigits _ ih =>
    rename_i ps0 e0 _
    rcases processTransfer_cases e0 tid processedAt completedAt hashDigits with
      ⟨-, herr⟩ | ⟨i, t, hget, -, -, hok⟩
    · rw [herr]
      exact ih
    · rw [hok]
      refine List.Perm.trans ?_ ih
      have hq := perm_cons_eraseIdx e0.transferQueue i t hget
      have h1 : (e0.transferQueue.map (fun t => t.id)).Perm
          (t.id :: (e0.transferQueue.eraseIdx i).map (fun t => t.id)) := by
        simpa using hq.map (fun t => t.id)
      have hdone : (completedRecord t processedAt completedAt hashDigits).id = t.id := rfl
      simp only [List.map_append, List.map_cons, List.map_nil, hdone]
      have hL : ((e0.transferQueue.eraseIdx i).map (fun t => t.id) ++
          (e0.transferHistory.map (fun t => t.id) ++ [t.id])).Perm
          (t.id :: ((e0.transferQueue.eraseIdx i).map (fun t => t.id) ++
            e0.transferHistory.map (fun t => t.id))) := by
        rw [← List.append_assoc]
        exact List.perm_append_singleton _ _
      have hR : (e0.transferQueue.map (fun t => t.id) ++
          e0.transferHistory.map (fun t => t.id)).Perm
          (t.id :: ((e0.transferQueue.eraseIdx i).map (fun t => t.id) ++
            e0.transferHistory.map (fun t => t.id))) := by
        simpa using h1.append_right (e0.transferHistory.map (fun t => t.id))
      exact hL.trans hR.symm

/-- C16 (counterexample). Two successful `createTransfer` calls on the example
engine in the same millisecond with the same random draw return the same id
`transfer-5-7`, and the queue then holds two requests with that id. -/
theorem createTransfer_ids_collide :
    (exampleEngine.createTransfer exampleParams 5 7 5).1.toOption.map (fun r => r.id) =
      some "transfer-5-7" ∧
    ((exampleEngine.createTransfer exampleParams 5 7 5).2.createTransfer samePlatformParams
      5 7 6).1.toOption.map (fun r => r.id) = some "transfer-5-7" ∧
    ((exampleEngine.createTransfer exampleParams 5 7 5).2.createTransfer samePlatformParams
      5 7 6).2.transferQueue.map (fun r => r.id) = ["transfer-5-7", "transfer-5-7"] := by
  decide

/-- C16 (amended). The id of a request is determined by the clock reading and the
random draw of its `createTransfer` call: for any two successful calls the returned
ids differ if and only if the (clock reading, random draw) pairs differ; hence in
every state reached through successful calls with pairwise distinct pairs, the
requests in queue and history have pairwise distinct ids. -/
theorem createTransfer_ids_distinct (e1 e2 : A2ATransfer) (p1 p2 : TransferParams)
    (now1 now2 : Nat) (rand1 rand2 : Fin 10000) (createdAt1 createdAt2 : Nat)
    (r1 r2 : TransferRequest)
    (h1 : (e1.createTransfer p1 now1 rand1 createdAt1).1 = .ok r1)
    (h2 : (e2.createTransfer p2 now2 rand2 createdAt2).1 = .ok r2) :
    (r1.id ≠ r2.id ↔ (now1, rand1) ≠ (now2, rand2)) ∧
    (∀ (ps : List (Nat × Fin 10000)) (e : A2ATransfer), ReachableWith ps e → ps.Nodup →
      ((e.transferQueue ++ e.transferHistory).map (fun t => t.id)).Nodup) := by
  obtain ⟨-, -, -, -, -, -, -, -, -, -, -, hr1, -⟩ :=
    createTransfer_ok_inv e1 p1 now1 rand1 createdAt1 r1 h1
  obtain ⟨-, -, -, -, -, -, -, -, -, -, -, hr2, -⟩ :=
    createTransfer_ok_inv e2 p2 now2 rand2 createdAt2 r2 h2
  have hid1 : r1.id = transferId now1 rand1 := by rw [hr1]
  have hid2 : r2.id = transferId now2 rand2 := by rw [hr2]
  refine ⟨?_, ?_⟩
  · rw [hid1, hid2]
    constructor
    · intro hne hpair
      apply hne
      rw [Prod.mk.injEq] at hpair
      rw [hpair.1, hpair.2]
    · intro hne hEq
      apply hne
      obtain ⟨ha, hb⟩ := transferId_injective _ _ _ _ hEq
      rw [ha, hb]
  · intro ps e hreach hnd
    rw [(reachable_ids hreach).nodup_iff]
    refine (List.nodup_map_iff_inj_on hnd).mpr ?_
    intro x _ y _ hxy
    obtain ⟨ha, hb⟩ := transferId_injective _ _ _ _ hxy
    exact Prod.ext ha hb

theorem exampleEngine_create :
    (exampleEngine.createTransfer samePlatformParams 1700000000000 42 1700000000000).1 =
      .ok { id := "transfer-1700000000000-42", sourcePlatform := "flow",
            targetPlatform := "flow",
            assets := [{ id := some "sword", value := some 40 }, { id := some "shield" }],
            wallet := "wallet-2", status := .pending, createdAt := 1700000000000,
            fee := 3/5 } := by
  simp [A2ATransfer.createTransfer, samePlatformParams, exampleEngine_config,
    A2ATransfer._calculateFee, falsyStr, orDefault, transferId_queued,
    exampleEngine, A2ATransfer.init, A2ATransfer.new]
  norm_num

/-- Witness for C16 (amended): the two requests of the example, created at different
clock readings. -/
theorem createTransfer_ids_distinct_witness :
    exampleRequest.id ≠
      ({ id := "transfer-1700000000000-42", sourcePlatform := "flow", targetPlatform := "flow",
         assets := [{ id := some "sword", value := some 40 }, { id := some "shield" }],
         wallet := "wallet-2", status := .pending, createdAt := 1700000000000,
         fee := 3/5 } : TransferRequest).id :=
  ((createTransfer_ids_distinct queuedEngine exampleEngine exampleParams samePlatformParams
    1700000000500 1700000000000 7 42 1700000000501 1700000000000 exampleRequest _
    queuedEngine_create exampleEngine_create).1).mpr (by decide)

/-! ## Overlapping calls of `processTransfer` -/

/-- C18 (counterexample). With the requests `a` and `b` queued, two calls
`processTransfer("a")` whose begin steps both run before either finish step both
locate object `0` at index `0` and both succeed; afterwards the request occurs twice
in the history, and the queue is empty although request `b` (object `1`) was never
located: it is still `pending` and in neither list. -/
theorem processTransfer_overlap_duplicates :
    ((EngineObjects.ofEngine twoQueued).processBegin "a" 10).1.toOption = some ⟨0, 0⟩ ∧
    (((EngineObjects.ofEngine twoQueued).processBegin "a" 10).2.processBegin "a"
      11).1.toOption = some ⟨0, 0⟩ ∧
    ((((EngineObjects.ofEngine twoQueued).processBegin "a" 10).2.processBegin "a"
      11).2.processFinish ⟨0, 0⟩ 20 "aa").1 = 0 ∧
    (((((EngineObjects.ofEngine twoQueued).processBegin "a" 10).2.processBegin "a"
      11).2.processFinish ⟨0, 0⟩ 20 "aa").2.processFinish ⟨0, 0⟩ 21 "bb").1 = 0 ∧
    (((((EngineObjects.ofEngine twoQueued).processBegin "a" 10).2.processBegin "a"
      11).2.processFinish ⟨0, 0⟩ 20 "aa").2.processFinish ⟨0, 0⟩ 21 "bb").2.transferHistory =
        [0, 0] ∧
    (((((EngineObjects.ofEngine twoQueued).processBegin "a" 10).2.processBegin "a"
      11).2.processFinish ⟨0, 0⟩ 20 "aa").2.processFinish ⟨0, 0⟩ 21 "bb").2.transferQueue =
        [] ∧
    ((((((EngineObjects.ofEngine twoQueued).processBegin "a" 10).2.processBegin "a"
      11).2.processFinish ⟨0, 0⟩ 20 "aa").2.processFinish ⟨0, 0⟩ 21 "bb").2.heap[1]?).map
        (fun t => (t.id, t.status)) = some ("b", Status.pending) := by
  decide

theorem heap_modify_ids (heap : List TransferRequest) (g : TransferRequest → TransferRequest)
    (hg : ∀ t, (g t).id = t.id) (r r2 : Nat) :
    ((heap.modify g r)[r2]?).map (fun t => t.id) = (heap[r2]?).map (fun t => t.id) := by
  rw [List.getElem?_modify]
  cases heap[r2]? with
  | none => rfl
  | some t =>
    simp only [Option.map_eq_map, Option.map_some']
    split
    · rw [hg]
    · rfl

theorem findIndex_congr (m1 m2 : EngineObjects) (tid : String)
    (hq : m1.transferQueue = m2.transferQueue)
    (hids : ∀ r : Nat, (m1.heap[r]?).map (fun t => t.id) = (m2.heap[r]?).map (fun t => t.id)) :
    m1.findIndex tid = m2.findIndex tid := by
  unfold EngineObjects.findIndex
  rw [hq]
  congr 1
  funext r
  rw [hids r]

/-- What a successful begin step has located and written. -/
theorem processBegin_ok_inv (m m1 : EngineObjects) (tid : String) (processedAt : Nat)
    (f : ProcessFrame) (hb : m.processBegin tid processedAt = (.ok f, m1)) :
    m.findIndex tid = some f.transferIndex ∧
    m.transferQueue[f.transferIndex]? = some f.transfer ∧
    (∃ t, m.heap[f.transfer]? = some t ∧ t.id = tid) ∧
    m1 = { m with
      heap := m.heap.modify
        (fun t => { t with status := .processing, processedAt := some processedAt })
        f.transfer } := by
  unfold EngineObjects.processBegin at hb
  cases hidx : m.findIndex tid with
  | none =>
    rw [hidx] at hb
    simp only [Prod.mk.injEq] at hb
    cases hb.1
  | some i =>
    rw [hidx] at hb
    simp only [] at hb
    cases hget : m.transferQueue[i]? with
    | none =>
      rw [hget] at hb
      simp only [Prod.mk.injEq] at hb
      cases hb.1
    | some r =>
      rw [hget] at hb
      simp only [Prod.mk.injEq, Except.ok.injEq] at hb
      obtain ⟨hf, hm1⟩ := hb
      subst hf
      refine ⟨rfl, hget, ?_, hm1.symm⟩
      obtain ⟨hlt, hp, -⟩ := List.findIdx?_eq_some_iff_getElem.mp hidx
      have hr : m.transferQueue[i] = r := by
        rw [List.getElem?_eq_getElem hlt] at hget
        simpa using hget
      rw [hr] at hp
      simp only [beq_iff_eq] at hp
      rcases Option.map_eq_some'.mp hp with ⟨t, ht, hid⟩
      exact ⟨t, ht, hid⟩

/-- C18 (amended). The engine does not serialise two `processTransfer` calls on the
same queued id.  When the first call has located the request, a second begin step run
before either finish step locates the same object at the same index; both calls then
return that object, each finish step appends it to the history, so it occurs there
once per call, and it ends `completed` under the id.  When instead the second call
begins only after the first has finished, and no other queue position holds a request
with the id, the second call throws not-found and changes nothing, the history has
gained the request once and the queue has lost exactly the located position. -/
theorem processTransfer_two_calls (m m1 : EngineObjects) (tid : String)
    (processedAt1 processedAt2 completedAt1 completedAt2 : Nat) (hash1 hash2 : String)
    (f : ProcessFrame) (hb : m.processBegin tid processedAt1 = (.ok f, m1)) :
    (∃ m2, m1.processBegin tid processedAt2 = (.ok f, m2) ∧
      (m2.processFinish f completedAt1 hash1).1 = f.transfer ∧
      ((m2.processFinish f completedAt1 hash1).2.processFinish f completedAt2 hash2).1 =
        f.transfer ∧
      ((m2.processFinish f completedAt1 hash1).2.processFinish f completedAt2
        hash2).2.transferHistory = m.transferHistory ++ [f.transfer, f.transfer] ∧
      ∃ t, ((m2.processFinish f completedAt1 hash1).2.processFinish f completedAt2
          hash2).2.heap[f.transfer]? = some t ∧
        t.id = tid ∧ t.status = .completed) ∧
    ((∀ j r t, j ≠ f.transferIndex → m.transferQueue[j]? = some r → m.heap[r]? = some t →
        t.id ≠ tid) →
      (m1.processFinish f completedAt1 hash1).2.processBegin tid processedAt2 =
        (.error (.error ("Transfer with ID " ++ tid ++ " not found")),
          (m1.processFinish f completedAt1 hash1).2) ∧
      (m1.processFinish f completedAt1 hash1).2.transferHistory =
        m.transferHistory ++ [f.transfer] ∧
      (m1.processFinish f completedAt1 hash1).2.transferQueue =
        m.transferQueue.eraseIdx f.transferIndex) := by
  obtain ⟨hidx, hget, ⟨t0, ht0, hid0⟩, hm1⟩ := processBegin_ok_inv m m1 tid processedAt1 f hb
  have hids1 : ∀ r : Nat, (m1.heap[r]?).map (fun t => t.id) = (m.heap[r]?).map (fun t => t.id) := by
    intro r
    rw [hm1]
    refine heap_modify_ids _ _ ?_ _ _
    intro t
    rfl
  have hq1 : m1.transferQueue = m.transferQueue := by rw [hm1]
  have hh1 : m1.transferHistory = m.transferHistory := by rw [hm1]
  have hidx1 : m1.findIndex tid = some f.transferIndex := by
    rw [findIndex_congr m1 m tid hq1 hids1, hidx]
  have hget1 : m1.transferQueue[f.transferIndex]? = some f.transfer := by rw [hq1, hget]
  refine ⟨?_, ?_⟩
  · refine ⟨{ m1 with
        heap := m1.heap.modify
          (fun t => { t with status := .processing, processedAt := some processedAt2 })
          f.transfer }, ?_, rfl, rfl, ?_, ?_⟩
    · simp only [EngineObjects.processBegin, hidx1, hget1]
    · simp only [EngineObjects.processFinish, hh1, List.append_assoc, List.singleton_append]
    · have hm1heap : m1.heap[f.transfer]? = some
          { t0 with status := .processing, processedAt := some processedAt1 } := by
        rw [hm1]
        simp only [List.getElem?_modify_eq, ht0, Option.map_eq_map, Option.map_some']
      simp only [EngineObjects.processFinish, List.getElem?_modify_eq, hm1heap,
        Option.map_eq_map, Option.map_some']
      exact ⟨_, rfl, hid0, rfl⟩
  · intro hother
    refine ⟨?_, by simp only [EngineObjects.processFinish, hh1], by
      simp only [EngineObjects.processFinish, hq1]⟩
    have hnone : (m1.processFinish f completedAt1 hash1).2.findIndex tid = none := by
      unfold EngineObjects.findIndex
      rw [List.findIdx?_eq_none_iff]
      intro r hr
      simp only [EngineObjects.processFinish, hq1] at hr
      obtain ⟨j, hj, hjr⟩ := List.mem_eraseIdx_iff_getElem?.mp hr
      have hids2 : (((m1.processFinish f completedAt1 hash1).2.heap[r]?).map (fun t => t.id)) =
          (m.heap[r]?).map (fun t => t.id) := by
        simp only [EngineObjects.processFinish]
        refine (heap_modify_ids _ _ ?_ _ _).trans (hids1 r)
        intro t
        rfl
      rw [hids2]
      cases hmr : m.heap[r]? with
      | none => rfl
      | some t =>
        have := hother j r t hj hjr hmr
        simpa using this
    have hcatch : ∀ err, (m1.processFinish f completedAt1 hash1).2.processCatch tid err =
        (m1.processFinish f completedAt1 hash1).2 := by
      intro err
      unfold EngineObjects.processCatch
      split
      · rfl
      · rw [hnone]
    simp only [EngineObjects.processBegin, hnone, hcatch]

theorem twoQueued_begin :
    (EngineObjects.ofEngine twoQueued).processBegin "a" 10 =
      (.ok ⟨0, 0⟩, ((EngineObjects.ofEngine twoQueued).processBegin "a" 10).2) := by
  rfl

theorem twoQueued_others (j r : Nat) (t : TransferRequest) (hj : j ≠ 0)
    (hq : (EngineObjects.ofEngine twoQueued).transferQueue[j]? = some r)
    (hh : (EngineObjects.ofEngine twoQueued).heap[r]? = some t) : t.id ≠ "a" := by
  have hqe : (EngineObjects.ofEngine twoQueued).transferQueue = [0, 1] := by decide
  rw [hqe] at hq
  match j, hj, hq with
  | 0, hj, _ => exact absurd rfl hj
  | 1, _, hq =>
    simp only [List.getElem?_cons_succ, List.getElem?_cons_zero, Option.some.injEq] at hq
    subst hq
    have hhe : (EngineObjects.ofEngine twoQueued).heap[1]?.map (fun t => t.id) = some "b" := by
      decide
    rw [hh] at hhe
    simp only [Option.map_some', Option.some.injEq] at hhe
    rw [hhe]
    decide
  | j + 2, _, hq => simp at hq

/-- Witness for C18 (amended): `twoQueued`, two calls on the id `a`.  Overlapping,
both return object `0` and the history holds it twice; one after the other, the
second call throws not-found and the history holds it once. -/
theorem processTransfer_two_calls_witness :
    (∃ m2, ((EngineObjects.ofEngine twoQueued).processBegin "a" 10).2.processBegin "a" 11 =
        (.ok ⟨0, 0⟩, m2) ∧
      ((m2.processFinish ⟨0, 0⟩ 20 "aa").2.processFinish ⟨0, 0⟩ 21 "bb").2.transferHistory =
        (EngineObjects.ofEngine twoQueued).transferHistory ++ [0, 0]) ∧
    ((((EngineObjects.ofEngine twoQueued).processBegin "a" 10).2.processFinish ⟨0, 0⟩ 20
        "aa").2.processBegin "a" 11).1.toOption = none ∧
    (((EngineObjects.ofEngine twoQueued).processBegin "a" 10).2.processFinish ⟨0, 0⟩ 20
        "aa").2.transferHistory = (EngineObjects.ofEngine twoQueued).transferHistory ++ [0] := by
  have h := processTransfer_two_calls (EngineObjects.ofEngine twoQueued) _ "a" 10 11 20 21
    "aa" "bb" ⟨0, 0⟩ twoQueued_begin
  obtain ⟨m2, hm2, -, -, hhist, -⟩ := h.1
  obtain ⟨hseq, hhist1, -⟩ := h.2 twoQueued_others
  refine ⟨⟨m2, hm2, hhist⟩, ?_, hhist1⟩
  rw [hseq]
  rfl

/-- The objects built from an engine given by value show that engine: position by
position the queue and the history hold the same requests. -/
theorem ofEngine_at (e : A2ATransfer) (j : Nat) :
    (EngineObjects.ofEngine e).queueAt j = e.transferQueue[j]? ∧
    (EngineObjects.ofEngine e).historyAt j = e.transferHistory[j]? := by
  constructor
  · unfold EngineObjects.queueAt EngineObjects.ofEngine
    simp only []
    by_cases hj : j < e.transferQueue.length
    · rw [List.getElem?_range hj, Option.some_bind, List.getElem?_append_left hj]
    · have hge : e.transferQueue.length ≤ j := Nat.le_of_not_lt hj
      have hnone : (List.range e.transferQueue.length)[j]? = none :=
        List.getElem?_eq_none (by rw [List.length_range]; exact hge)
      rw [hnone, List.getElem?_eq_none hge]
      rfl
  · unfold EngineObjects.historyAt EngineObjects.ofEngine
    simp only [List.getElem?_map]
    by_cases hj : j < e.transferHistory.length
    · rw [List.getElem?_range hj, Option.map_some', Option.some_bind,
        List.getElem?_append_right (Nat.le_add_right _ _), Nat.add_sub_cancel_left]
    · have hge : e.transferHistory.length ≤ j := Nat.le_of_not_lt hj
      have hnone : (List.range e.transferHistory.length)[j]? = none :=
        List.getElem?_eq_none (by rw [List.length_range]; exact hge)
      rw [hnone, List.getElem?_eq_none hge]
      rfl

theorem ofEngine_findIndex (e : A2ATransfer) (tid : String) :
    (EngineObjects.ofEngine e).findIndex tid = e.findIndex tid := by
  unfold EngineObjects.findIndex A2ATransfer.findIndex
  have hpred : ∀ r, r < e.transferQueue.length →
      ((EngineObjects.ofEngine e).heap[r]?).map (fun t => t.id) =
        (e.transferQueue[r]?).map (fun t => t.id) := by
    intro r hr
    simp [EngineObjects.ofEngine, List.getElem?_append_left hr]
  cases hidx : e.transferQueue.findIdx? (fun t => t.id == tid) with
  | none =>
    rw [List.findIdx?_eq_none_iff]
    intro r hr
    have hlt : r < e.transferQueue.length := by
      simpa [EngineObjects.ofEngine] using hr
    rw [hpred r hlt, List.getElem?_eq_getElem hlt]
    have := List.findIdx?_eq_none_iff.mp hidx e.transferQueue[r] (List.getElem_mem _)
    simpa using this
  | some i =>
    obtain ⟨hlt, hp, hmin⟩ := List.findIdx?_eq_some_iff_getElem.mp hidx
    rw [List.findIdx?_eq_some_iff_getElem]
    have hlen : (EngineObjects.ofEngine e).transferQueue.length = e.transferQueue.length := by
      simp [EngineObjects.ofEngine]
    refine ⟨by rw [hlen]; exact hlt, ?_, ?_⟩
    · have hget : (EngineObjects.ofEngine e).transferQueue[i] = i := by
        simp [EngineObjects.ofEngine]
      rw [hget, hpred i hlt, List.getElem?_eq_getElem hlt]
      simpa using hp
    · intro j hj
      have hjlt : j < e.transferQueue.length := Nat.lt_trans hj hlt
      have hget : (EngineObjects.ofEngine e).transferQueue[j] = j := by
        simp [EngineObjects.ofEngine]
      rw [hget, hpred j hjlt, List.getElem?_eq_getElem hjlt]
      have := hmin j hj
      simpa using this

theorem range_getElem? (n k : Nat) :
    (List.range n)[k]? = if k < n then some k else none := by
  by_cases hk : k < n
  · rw [if_pos hk, List.getElem?_range hk]
  · rw [if_neg hk]
    exact List.getElem?_eq_none (by rw [List.length_range]; exact Nat.le_of_not_lt hk)

/-- The two steps run back to back on the objects of an engine do what
`processTransfer` run to completion does on the engine: a failing begin step changes
nothing and the call throws the same error; after a successful begin step the finish
step returns the object that shows the returned request, and position by position the
queue and the history show the lists of the engine afterwards. -/
theorem processSteps_refine (e : A2ATransfer) (tid : String)
    (processedAt completedAt : Nat) (hashDigits : String) :
    (∀ err m1, (EngineObjects.ofEngine e).processBegin tid processedAt = (.error err, m1) →
      m1 = EngineObjects.ofEngine e ∧
      e.processTransfer tid processedAt completedAt hashDigits = (.error err, e)) ∧
    (∀ f m1, (EngineObjects.ofEngine e).processBegin tid processedAt = (.ok f, m1) →
      ∃ done e2, e.processTransfer tid processedAt completedAt hashDigits = (.ok done, e2) ∧
        (m1.processFinish f completedAt hashDigits).2.heap[
          (m1.processFinish f completedAt hashDigits).1]? = some done ∧
        ∀ j, (m1.processFinish f completedAt hashDigits).2.queueAt j = e2.transferQueue[j]? ∧
          (m1.processFinish f completedAt hashDigits).2.historyAt j =
            e2.transferHistory[j]?) := by
  have hfi := ofEngine_findIndex e tid
  rcases processTransfer_cases e tid processedAt completedAt hashDigits with
    ⟨hno, herr⟩ | ⟨i, t, hget, hid, hmin, hok⟩
  · have hnone : (EngineObjects.ofEngine e).findIndex tid = none := by
      rw [hfi]
      exact findIdx_none_of_no_match _ _ hno
    have hcatch : ∀ err, (EngineObjects.ofEngine e).processCatch tid err =
        EngineObjects.ofEngine e := by
      intro err
      unfold EngineObjects.processCatch
      split
      · rfl
      · rw [hnone]
    have hbegin : (EngineObjects.ofEngine e).processBegin tid processedAt =
        (.error (.error ("Transfer with ID " ++ tid ++ " not found")),
          EngineObjects.ofEngine e) := by
      simp only [EngineObjects.processBegin, hnone, hcatch]
    refine ⟨?_, ?_⟩
    · intro err m1 hb
      rw [hbegin] at hb
      simp only [Prod.mk.injEq, Except.error.injEq] at hb
      rw [← hb.1, ← hb.2]
      exact ⟨rfl, herr⟩
    · intro f m1 hb
      rw [hbegin] at hb
      simp only [Prod.mk.injEq] at hb
      cases hb.1
  · have hlt : i < e.transferQueue.length := by
      rcases List.getElem?_eq_some_iff.mp hget with ⟨h, -⟩
      exact h
    have hsome : e.findIndex tid = some i := by
      unfold A2ATransfer.findIndex
      rw [List.findIdx?_eq_some_iff_getElem]
      refine ⟨hlt, ?_, ?_⟩
      · have : e.transferQueue[i] = t := by
          rw [List.getElem?_eq_getElem hlt] at hget
          simpa using hget
        rw [this]
        simpa using hid
      · intro j hj
        have hjlt : j < e.transferQueue.length := Nat.lt_trans hj hlt
        have := hmin j e.transferQueue[j] hj (List.getElem?_eq_getElem hjlt)
        simpa using this
    have hidx : (EngineObjects.ofEngine e).findIndex tid = some i := by rw [hfi, hsome]
    have hqi : (EngineObjects.ofEngine e).transferQueue[i]? = some i := by
      simp only [EngineObjects.ofEngine]
      exact List.getElem?_range hlt
    have hbegin : (EngineObjects.ofEngine e).processBegin tid processedAt =
        (.ok ⟨i, i⟩,
          { EngineObjects.ofEngine e with
            heap := (EngineObjects.ofEngine e).heap.modify
              (fun t => { t with status := .processing, processedAt := some processedAt })
              i }) := by
      simp only [EngineObjects.processBegin, hidx, hqi]
    refine ⟨?_, ?_⟩
    · intro err m1 hb
      rw [hbegin] at hb
      simp only [Prod.mk.injEq] at hb
      cases hb.1
    · intro f m1 hb
      rw [hbegin] at hb
      simp only [Prod.mk.injEq, Except.ok.injEq] at hb
      obtain ⟨hf, hm1⟩ := hb
      subst hf
      subst hm1
      have hheap_i : (EngineObjects.ofEngine e).heap[i]? = some t := by
        simp only [EngineObjects.ofEngine]
        rw [List.getElem?_append_left hlt, hget]
      have hheap_ne : ∀ k, k ≠ i →
          (List.modify
            (fun t : TransferRequest => { t with
              status := .completed
              completedAt := some completedAt
              transactionHash := some ("0x" ++ hashDigits) })
            i
            (List.modify
              (fun t : TransferRequest =>
                { t with status := .processing, processedAt := some processedAt })
              i (EngineObjects.ofEngine e).heap))[k]? =
          (e.transferQueue ++ e.transferHistory)[k]? := by
        intro k hk
        rw [List.getElem?_modify_ne _ _ (Ne.symm hk), List.getElem?_modify_ne _ _ (Ne.symm hk)]
        rfl
      refine ⟨_, _, hok, ?_, ?_⟩
      · simp only [EngineObjects.processFinish, List.getElem?_modify_eq, hheap_i,
          Option.map_eq_map, Option.map_some']
        rfl
      · intro j
        constructor
        · simp only [EngineObjects.queueAt, EngineObjects.processFinish]
          have hq : (EngineObjects.ofEngine e).transferQueue =
              List.range e.transferQueue.length := rfl
          rw [hq, List.getElem?_eraseIdx, List.getElem?_eraseIdx]
          by_cases hj : j < i
          · have hjlt : j < e.transferQueue.length := Nat.lt_trans hj hlt
            rw [if_pos hj, if_pos hj, List.getElem?_range hjlt, Option.some_bind,
              hheap_ne j (Nat.ne_of_lt hj), List.getElem?_append_left hjlt]
          · rw [if_neg hj, if_neg hj, range_getElem?]
            by_cases hj1 : j + 1 < e.transferQueue.length
            · have hne : j + 1 ≠ i := by omega
              rw [if_pos hj1, Option.some_bind, hheap_ne (j + 1) hne,
                List.getElem?_append_left hj1]
            · rw [if_neg hj1, List.getElem?_eq_none (Nat.le_of_not_lt hj1)]
              rfl
        · simp only [EngineObjects.historyAt, EngineObjects.processFinish]
          have hh : (EngineObjects.ofEngine e).transferHistory =
              (List.range e.transferHistory.length).map
                (fun i => e.transferQueue.length + i) := rfl
          rw [hh]
          rcases Nat.lt_trichotomy j e.transferHistory.length with hj | hj | hj
          · have hj2 : j < ((List.range e.transferHistory.length).map
                (fun i => e.transferQueue.length + i)).length := by
              simpa using hj
            rw [List.getElem?_append_left hj2, List.getElem?_append_left hj,
              List.getElem?_map, List.getElem?_range hj, Option.map_some', Option.some_bind,
              hheap_ne _ (by omega),
              List.getElem?_append_right (Nat.le_add_right _ _), Nat.add_sub_cancel_left]
          · have hlen : ((List.range e.transferHistory.length).map
                (fun i => e.transferQueue.length + i)).length = j := by
              simpa using hj.symm
            have h1 : (((List.range e.transferHistory.length).map
                (fun i => e.transferQueue.length + i)) ++ [i])[j]? = some i := by
              rw [← hlen]
              exact List.getElem?_concat_length _ _
            have h2 : (e.transferHistory ++
                [completedRecord t processedAt completedAt hashDigits])[j]? =
                some (completedRecord t processedAt completedAt hashDigits) := by
              rw [hj]
              exact List.getElem?_concat_length _ _
            rw [h1, h2, Option.some_bind]
            simp only [List.getElem?_modify_eq, hheap_i, Option.map_eq_map, Option.map_some']
            rfl
          · have h1 : (((List.range e.transferHistory.length).map
                (fun i => e.transferQueue.length + i)) ++ [i])[j]? = none := by
              apply List.getElem?_eq_none
              simp only [List.length_append, List.length_map, List.length_range,
                List.length_singleton]
              omega
            have h2 : (e.transferHistory ++
                [completedRecord t processedAt completedAt hashDigits])[j]? = none := by
              apply List.getElem?_eq_none
              simp only [List.length_append, List.length_singleton]
              omega
            rw [h1, h2]
            rfl

/-! ## Fee estimates in reachable registries -/

theorem prop_transferFee_none (o : PlatformFields) (k : String) (p : Prim)
    (h : o.prop k = some p) : (JSVal.prim p).spread.fields.transferFee = none := by
  cases p <;> rfl

theorem get_fee_nonneg (reg : A2APlatforms) (hinv : feesNonneg reg) (k : String) (q : ℚ)
    (h : (reg.get k).spread.fields.transferFee = some q) : 0 ≤ q := by
  unfold A2APlatforms.get at h
  cases hown : reg.own k with
  | some r =>
    rw [hown] at h
    unfold A2APlatforms.own at hown
    rcases Option.map_eq_some'.mp hown with ⟨e, he, rfl⟩
    exact hinv.1 e (List.mem_of_find?_eq_some he) q h
  | none =>
    rw [hown] at h
    simp only [] at h
    cases hprop : reg.proto.prop k with
    | some p =>
      rw [hprop] at h
      simp only [] at h
      rw [prop_transferFee_none _ _ _ hprop] at h
      cases h
    | none =>
      rw [hprop] at h
      simp only [] at h
      split at h
      · exact hinv.2 q h
      · split at h <;> cases h

theorem feesNonneg_update (reg : A2APlatforms) (hinv : feesNonneg reg) (k : String)
    (d : PlatformFields) (hd : ∀ q, d.transferFee = some q → 0 ≤ q) :
    feesNonneg (reg.updatePlatform k d).2 := by
  unfold A2APlatforms.updatePlatform
  split
  · exact hinv
  · have hv : ∀ q, ((reg.get k).spread.merge d).fields.transferFee = some q → 0 ≤ q := by
      intro q hq
      simp only [PlatformData.merge, PlatformFields.merge] at hq
      cases hdf : d.transferFee with
      | some a =>
        rw [hdf] at hq
        simp only [Option.some_orElse, Option.some.injEq] at hq
        exact hq ▸ hd a hdf
      | none =>
        rw [hdf] at hq
        simp only [Option.none_orElse] at hq
        exact get_fee_nonneg reg hinv k q hq
    simp only []
    unfold A2APlatforms.set
    split
    · refine ⟨?_, hinv.2⟩
      intro e he q hq
      simp only [List.mem_map] at he
      obtain ⟨e0, he0, rfl⟩ := he
      split at hq
      · exact hv q hq
      · exact hinv.1 e0 he0 q hq
    · split
      · exact ⟨hinv.1, hv⟩
      · refine ⟨?_, hinv.2⟩
        intro e he q hq
        simp only [List.mem_append, List.mem_singleton] at he
        rcases he with he | rfl
        · exact hinv.1 e he q hq
        · exact hv q hq

theorem feesNonneg_new : feesNonneg A2APlatforms.new := by
  refine ⟨?_, ?_⟩
  · intro e he q hq
    simp only [A2APlatforms.new, List.mem_cons, List.mem_singleton, List.not_mem_nil,
      or_false] at he
    rcases he with rfl | rfl | rfl | rfl | rfl <;>
      (simp only [Option.some.injEq] at hq; rw [← hq]; norm_num)
  · intro q hq
    simp [A2APlatforms.new] at hq

theorem reachable_feesNonneg (reg : A2APlatforms)
    (h : RegistryReachableBy (fun d => ∀ q, d.transferFee = some q → 0 ≤ q) reg) :
    feesNonneg reg := by
  induction h with
  | new => exact feesNonneg_new
  | update k d _ hd ih => exact feesNonneg_update _ ih k d hd

theorem jsval_fee_spread (v : JSVal) : v.transferFee = v.spread.fields.transferFee := by
  cases v with
  | undefined => rfl
  | prim p => cases p <;> rfl
  | func => rfl
  | object r => rfl

/-- C21 (counterexample). The registry after
`updatePlatform("solana", { transferFee: -10 })` is reachable from the constructor's
registry, and there `checkTransferCompatibility("solana", "ethereum")` is compatible
with `estimatedFee = -10 + 0.5 * 2 = -9`. -/
theorem estimatedFee_negative :
    RegistryReachable (A2APlatforms.new.updatePlatform "solana"
      { transferFee := some (-10) }).2 ∧
    (A2APlatforms.new.updatePlatform "solana"
      { transferFee := some (-10) }).2.checkTransferCompatibility "solana" "ethereum" =
        .compatible false (some (-9)) "5-15 minutes" "" := by
  refine ⟨RegistryReachableBy.update _ _ RegistryReachableBy.new trivial, ?_⟩
  have hs : (A2APlatforms.new.updatePlatform "solana" { transferFee := some (-10) }).2.own
      "solana" = some ((A2APlatforms.new.own "solana").getD {} |>.merge
        { transferFee := some (-10) }) := by
    decide
  have ht : (A2APlatforms.new.updatePlatform "solana" { transferFee := some (-10) }).2.own
      "ethereum" = A2APlatforms.new.own "ethereum" := by
    decide
  rw [checkTransferCompatibility_eq _ "solana" "ethereum" _ _ hs ht rfl rfl]
  have hb : requiresBridge "solana" "ethereum" = false := by decide
  simp only [hb, Bool.false_eq_true, if_false]
  have hne : ("solana" == "ethereum") = false := by decide
  simp only [hne, Bool.false_eq_true, if_false]
  have hfee : JSNum.add (JSNum.add (some (-10)) (JSNum.mul (some 2) (some (1/2)))) (some 0) =
      some (-9) := by
    simp only [JSNum.add, JSNum.mul]
    norm_num
  exact congrArg (fun f => Compatibility.compatible false f "5-15 minutes" "") hfee

/-- C21 (amended). In every registry reachable from the constructor's registry
through `updatePlatform` calls whose `platformData` carries no negative
`transferFee`, every result of `checkTransferCompatibility` with `compatible = true`
whose `estimatedFee` is a number has `estimatedFee >= 0`. -/
theorem estimatedFee_nonneg (reg : A2APlatforms)
    (h : RegistryReachableBy (fun d => ∀ q, d.transferFee = some q → 0 ≤ q) reg)
    (s t : String) (b : Bool) (fee : ℚ) (time notes : String)
    (hres : reg.checkTransferCompatibility s t = .compatible b (some fee) time notes) :
    0 ≤ fee := by
  have hinv := reachable_feesNonneg reg h
  unfold A2APlatforms.checkTransferCompatibility at hres
  simp only [] at hres
  split at hres
  · cases hres
  · split at hres
    · cases hres
    · simp only [Compatibility.compatible.injEq] at hres
      obtain ⟨-, hfee, -, -⟩ := hres
      cases hfs : (reg.get s).transferFee with
      | none => simp [hfs, JSNum.add] at hfee
      | some fs =>
        cases hft : (reg.get t).transferFee with
        | none => simp [hfs, hft, JSNum.add, JSNum.mul] at hfee
        | some ft =>
          have h1 : 0 ≤ fs := get_fee_nonneg reg hinv s fs (by rw [← jsval_fee_spread, hfs])
          have h2 : 0 ≤ ft := get_fee_nonneg reg hinv t ft (by rw [← jsval_fee_spread, hft])
          rw [hfs, hft] at hfee
          by_cases hb : requiresBridge s t = true
          · simp only [hb, if_true, JSNum.add, JSNum.mul, Option.some.injEq] at hfee
            rw [← hfee]
            positivity
          · simp only [hb, Bool.false_eq_true, if_false, JSNum.add, JSNum.mul,
              Option.some.injEq] at hfee
            rw [← hfee]
            positivity

theorem updated_registry_reachable :
    RegistryReachableBy (fun d => ∀ q, d.transferFee = some q → 0 ≤ q)
      (A2APlatforms.new.updatePlatform "ethereum" { transferFee := some 3 }).2 :=
  RegistryReachableBy.update _ _ RegistryReachableBy.new (by
    intro q hq
    simp only [Option.some.injEq] at hq
    rw [← hq]
    norm_num)

theorem updated_registry_estimate :
    (A2APlatforms.new.updatePlatform "ethereum"
      { transferFee := some 3 }).2.checkTransferCompatibility "solana" "ethereum" =
        .compatible false (some 2) "5-15 minutes" "" := by
  have hs : (A2APlatforms.new.updatePlatform "ethereum" { transferFee := some 3 }).2.own
      "solana" = A2APlatforms.new.own "solana" := by
    rfl
  have ht : (A2APlatforms.new.updatePlatform "ethereum" { transferFee := some 3 }).2.own
      "ethereum" = some ((A2APlatforms.new.own "ethereum").getD {} |>.merge
        { transferFee := some 3 }) := by
    decide
  rw [checkTransferCompatibility_eq _ "solana" "ethereum" _ _ hs ht rfl rfl]
  have hb : requiresBridge "solana" "ethereum" = false := by decide
  have hne : ("solana" == "ethereum") = false := by decide
  simp only [hb, hne, Bool.false_eq_true, if_false]
  have hfee : JSNum.add (JSNum.add (some (1/2)) (JSNum.mul (some 3) (some (1/2))))
      (some 0) = some 2 := by
    simp only [JSNum.add, JSNum.mul]
    norm_num
  exact congrArg (fun f => Compatibility.compatible false f "5-15 minutes" "") hfee

/-- Witness for C21 (amended): the constructor's registry after
`updatePlatform("ethereum", { transferFee: 3 })`, at `solana -> ethereum`, where the
estimate is `0.5 + 0.5 * 3 = 2`. -/
theorem estimatedFee_nonneg_witness :
    (A2APlatforms.new.updatePlatform "ethereum"
      { transferFee := some 3 }).2.checkTransferCompatibility "solana" "ethereum" =
        .compatible false (some 2) "5-15 minutes" "" ∧ (0 : ℚ) ≤ 2 :=
  ⟨updated_registry_estimate,
    estimatedFee_nonneg _ updated_registry_reachable "solana" "ethereum" false 2
      "5-15 minutes" "" updated_registry_estimate⟩

/-! ## Precedence of the two rejections -/

/-- While the prototype of `this.platforms` is `Object.prototype`, the read
`this.platforms[id]` is `undefined` for an id that is neither registered nor a
property name of `Object.prototype`. -/
theorem get_of_unknown (reg : A2APlatforms) (k : String)
    (hproto : reg.proto = {}) (hk : ¬ reg.registered k)
    (hm : k ∉ objectPrototypeMethods) (hp : k ≠ "__proto__") :
    reg.get k = .undefined := by
  have hown : reg.own k = none := by
    cases ho : reg.own k with
    | none => rfl
    | some r => exact absurd (registered_of_own ho) hk
  have hprop : reg.proto.prop k = none := by
    rw [hproto]
    unfold PlatformFields.prop
    repeat' split
    all_goals rfl
  simp [A2APlatforms.get, hown, hprop, hp, hm]

/-- When one of the two reads `this.platforms[id]` is falsy the answer is the
not-found rejection, whatever the other platform is; the not-supported rejection is
given only when both reads are truthy and one of the two has no truthy `supported`. -/
theorem checkTransferCompatibility_precedence (reg : A2APlatforms) (s t : String) :
    (((reg.get s).truthy = false ∨ (reg.get t).truthy = false) →
      reg.checkTransferCompatibility s t = .incompatible "One or both platforms not found") ∧
    (reg.checkTransferCompatibility s t =
        .incompatible "One or both platforms not currently supported" →
      (reg.get s).truthy = true ∧ (reg.get t).truthy = true ∧
      (truthyFlag (reg.get s).supported = false ∨
        truthyFlag (reg.get t).supported = false)) := by
  unfold A2APlatforms.checkTransferCompatibility
  simp only []
  constructor
  · intro h
    rw [if_pos]
    rcases h with h | h <;> simp [h]
  · intro h
    split at h
    · simp only [Compatibility.incompatible.injEq] at h
      exact absurd h (by decide)
    · rename_i h1
      split at h
      · rename_i h2
        simp only [Bool.or_eq_true, Bool.not_eq_true', not_or, Bool.not_eq_false] at h1 h2
        exact ⟨h1.1, h1.2, h2⟩
      · cases h

/-- C23 (evaluation at the failing input). On the constructor's registry, with
`ethereum` switched to `supported = false`, the id `constructor` is not registered,
yet `checkTransferCompatibility("constructor", "ethereum")` and
`checkTransferCompatibility("constructor", "solana")` answer with the not-supported
reason instead of the not-found reason. -/
theorem checkTransferCompatibility_inherited_reason :
    ¬ (A2APlatforms.new.updatePlatform "ethereum"
      { supported := some false }).2.registered "constructor" ∧
    ((A2APlatforms.new.updatePlatform "ethereum"
      { supported := some false }).2.checkTransferCompatibility "constructor"
        "ethereum").reason = some "One or both platforms not currently supported" ∧
    ((A2APlatforms.new.updatePlatform "ethereum"
      { supported := some false }).2.checkTransferCompatibility "constructor"
        "solana").reason = some "One or both platforms not currently supported" ∧
    (A2APlatforms.new.checkTransferCompatibility "constructor" "solana").reason =
      some "One or both platforms not currently supported" := by
  decide

/-! ## The engine: configuration, bookkeeping and reachable states -/

theorem init_keeps (e : A2ATransfer) (config : InitConfig) :
    (e.init config).2.supportedPlatforms = e.supportedPlatforms ∧
    (e.init config).2.transferQueue = e.transferQueue ∧
    (e.init config).2.transferHistory = e.transferHistory ∧
    (∃ c, (e.init config).2.config = some c ∧
      c.supportedPlatforms = config.supportedPlatforms ∧
      c.feePercentage = config.feePercentage.getD (3/2)) := by
  refine ⟨rfl, rfl, rfl, _, rfl, rfl, ?_⟩
  cases h : config.feePercentage with
  | none => simp [orDefault]
  | some v => simp

/-- Whatever `config.supportedPlatforms` is, after `init(config)` the membership
check of `createTransfer` is made against the list the constructor wrote to
`this.supportedPlatforms`. -/
theorem createTransfer_membership_after_init (e : A2ATransfer) (config : InitConfig)
    (p : TransferParams) (s t : String) (now : Nat) (rand : Fin 10000) (createdAt : Nat)
    (hs : p.sourcePlatform = some s) (ht : p.targetPlatform = some t)
    (hs0 : s ≠ "") (ht0 : t ≠ "") :
    ((e.init config).2.createTransfer p now rand createdAt).1 =
        .error (.error "Unsupported platform specified") ↔
      ¬ (s ∈ e.supportedPlatforms ∧ t ∈ e.supportedPlatforms) := by
  have hsup : (e.init config).2.supportedPlatforms = e.supportedPlatforms := rfl
  constructor
  · intro h hmem
    unfold A2ATransfer.createTransfer at h
    have h1 : (falsyStr p.sourcePlatform || falsyStr p.targetPlatform) = false := by
      simp [hs, ht, falsyStr_some_of_ne hs0, falsyStr_some_of_ne ht0]
    have h2 : (!(e.init config).2.supportedPlatforms.contains (p.sourcePlatform.getD "") ||
        !(e.init config).2.supportedPlatforms.contains (p.targetPlatform.getD "")) =
          false := by
      simp [hs, ht, hsup, hmem.1, hmem.2]
    rw [h1] at h
    simp only [Bool.false_eq_true, if_false] at h
    rw [h2] at h
    simp only [Bool.false_eq_true, if_false] at h
    repeat' split at h
    all_goals first
      | (simp only [Except.error.injEq, JSError.error.injEq] at h; exact absurd h (by decide))
      | (cases h; done)
      | skip
    all_goals
      rename_i err herr
      unfold A2ATransfer._calculateFee at herr
      split at herr
      · simp only [Except.error.injEq] at herr
        rw [← herr] at h
        cases h
      · cases herr
  · intro hmem
    have hc : (!e.supportedPlatforms.contains s || !e.supportedPlatforms.contains t) = true := by
      by_cases h1 : s ∈ e.supportedPlatforms
      · by_cases h2 : t ∈ e.supportedPlatforms
        · exact absurd ⟨h1, h2⟩ hmem
        · simp [h2]
      · simp [h1]
    simp only [A2ATransfer.createTransfer, hs, ht, falsyStr_some_of_ne hs0,
      falsyStr_some_of_ne ht0, Option.getD_some, Bool.or_self, Bool.false_eq_true, if_false,
      hsup]
    rw [if_pos hc]

/-- C22 (evaluation at the failing input). With `flow` switched off in the
registry, the application configures the engine with
`supportedPlatforms = [solana, ethereum, polygon, immutablex]`, which `init` stores in
`this.config`; `flow` is no member of it, and yet `createTransfer` from `solana` to
`flow` passes the membership check and succeeds.  Conversely, after
`init({ supportedPlatforms: ["bitcoin"] })` a transfer from `bitcoin` to `bitcoin`
is refused as unsupported. -/
theorem createTransfer_ignores_configured_platforms :
    (appEngine (A2APlatforms.new.updatePlatform "flow"
      { supported := some false }).2).config.map (fun c => c.supportedPlatforms) =
        some (some ["solana", "ethereum", "polygon", "immutablex"]) ∧
    (((appEngine (A2APlatforms.new.updatePlatform "flow"
      { supported := some false }).2).createTransfer
        { sourcePlatform := some "solana", targetPlatform := some "flow",
          assets := some [{ value := some 100 }], wallet := some { address := some "w" } }
        5 7 5).1.toOption.map (fun r => (r.sourcePlatform, r.targetPlatform, r.status))) =
      some ("solana", "flow", Status.pending) ∧
    ((A2ATransfer.new.init { supportedPlatforms := some ["bitcoin"] }).2.createTransfer
        { sourcePlatform := some "bitcoin", targetPlatform := some "bitcoin",
          assets := some [{ value := some 100 }], wallet := some { address := some "w" } }
        5 7 5).1.toOption = none ∧
    ((A2ATransfer.new.init { supportedPlatforms := some ["bitcoin"] }).2.createTransfer
        { sourcePlatform := some "bitcoin", targetPlatform := some "bitcoin",
          assets := some [{ value := some 100 }], wallet := some { address := some "w" } }
        5 7 5).2.transferQueue = [] := by
  decide

/-- In a reachable state every queued request is as `createTransfer` built it
(`pending`, nothing stamped, no error), and every request in the history is as
`processTransfer` completed it. -/
theorem reachable_status {ps : List (Nat × Fin 10000)} {e : A2ATransfer}
    (h : ReachableWith ps e) :
    (∀ t ∈ e.transferQueue, t.status = .pending ∧ t.processedAt = none ∧
      t.completedAt = none ∧ t.transactionHash = none ∧ t.error = none) ∧
    (∀ t ∈ e.transferHistory, t.status = .completed ∧ t.processedAt.isSome = true ∧
      t.completedAt.isSome = true ∧ t.transactionHash.isSome = true ∧ t.error = none) := by
  induction h with
  | new => simp [A2ATransfer.new]
  | init config _ ih => exact ih
  | createOk p now rand createdAt r _ hok ih =>
    obtain ⟨-, -, -, -, -, -, -, -, -, -, -, hr, hst⟩ :=
      createTransfer_ok_inv _ p now rand createdAt r hok
    rw [hst]
    refine ⟨?_, ih.2⟩
    intro t ht
    simp only [List.mem_append, List.mem_singleton] at ht
    rcases ht with ht | rfl
    · exact ih.1 t ht
    · rw [hr]
      exact ⟨rfl, rfl, rfl, rfl, rfl⟩
  | createError p now rand createdAt err _ herr ih =>
    rw [createTransfer_error_state _ p now rand createdAt err herr]
    exact ih
  | process tid processedAt completedAt hashDigits _ ih =>
    rename_i ps0 e0 _
    rcases processTransfer_cases e0 tid processedAt completedAt hashDigits with
      ⟨-, herr⟩ | ⟨i, t, hget, -, -, hok⟩
    · rw [herr]
      exact ih
    · rw [hok]
      have htq : t ∈ e0.transferQueue := List.getElem?_mem hget
      refine ⟨?_, ?_⟩
      · intro u hu
        exact ih.1 u (List.mem_of_mem_eraseIdx hu)
      · intro u hu
        simp only [List.mem_append, List.mem_singleton] at hu
        rcases hu with hu | rfl
        · exact ih.2 u hu
        · exact ⟨rfl, rfl, rfl, rfl, (ih.1 t htq).2.2.2.2⟩

/-- C25. In every state reachable from the constructor's engine by `init`,
`createTransfer` and `processTransfer` calls, each run to completion, every request in
the pending queue has a non-terminal status (`pending` or `processing`) and every
request in the history has a terminal status (`completed` or `failed`), with
`completedAt` and `transactionHash` set on every completed request. -/
theorem reachable_statuses (e : A2ATransfer) (h : Reachable e) :
    (∀ t ∈ e.transferQueue, t.status = .pending ∨ t.status = .processing) ∧
    (∀ t ∈ e.transferHistory, (t.status = .completed ∨ t.status = .failed) ∧
      (t.status = .completed →
        t.completedAt.isSome = true ∧ t.transactionHash.isSome = true)) := by
  obtain ⟨ps, hps⟩ := h
  have hst := reachable_status hps
  refine ⟨fun t ht => Or.inl (hst.1 t ht).1, fun t ht => ?_⟩
  obtain ⟨h1, -, h3, h4, -⟩ := hst.2 t ht
  exact ⟨Or.inl h1, fun _ => ⟨h3, h4⟩⟩

theorem processedEngine_reachable : Reachable processedEngine := by
  refine ⟨_, ReachableWith.process "transfer-1700000000500-7" 1700000000600 1700000002600
    "9f3c" (ReachableWith.createOk exampleParams 1700000000500 7 1700000000501 exampleRequest
      (ReachableWith.createOk samePlatformParams 1700000000000 42 1700000000000 _
        (ReachableWith.init { feePercentage := some (3/2) } ReachableWith.new)
        exampleEngine_create)
      queuedEngine_create)⟩

/-- Witness for C25: the engine after two requests were created and the second one
processed. -/
theorem reachable_statuses_witness :
    (∀ t ∈ processedEngine.transferQueue, t.status = .pending ∨ t.status = .processing) ∧
    (∀ t ∈ processedEngine.transferHistory, (t.status = .completed ∨ t.status = .failed) ∧
      (t.status = .completed →
        t.completedAt.isSome = true ∧ t.transactionHash.isSome = true)) :=
  reachable_statuses processedEngine processedEngine_reachable

theorem processTransfer_lengths (e : A2ATransfer) (tid : String)
    (processedAt completedAt : Nat) (hashDigits : String) :
    (e.processTransfer tid processedAt completedAt hashDigits).2.transferQueue.length +
      (e.processTransfer tid processedAt completedAt hashDigits).2.transferHistory.length =
      e.transferQueue.length + e.transferHistory.length := by
  rcases processTransfer_cases e tid processedAt completedAt hashDigits with
    ⟨-, herr⟩ | ⟨i, t, hget, -, -, hok⟩
  · rw [herr]
  · rw [hok]
    have hlt : i < e.transferQueue.length := by
      rcases List.getElem?_eq_some_iff.mp hget with ⟨h, -⟩
      exact h
    simp only [List.length_append, List.length_singleton, List.length_eraseIdx_of_lt hlt]
    omega

/-- C24. A successful `processTransfer(id)` run to completion moves exactly one
request: the new queue is the old one without its first entry with the id, the other
entries in their order, and the new history is the old one with that request,
completed, appended at the end.  So the sum of the two lengths is unchanged by every
`processTransfer`, grows by one on each successful `createTransfer` and is unchanged
by a failing one; and in every reachable state no request is in both lists, the sum
of the lengths is the number of successful `createTransfer` calls, and the ids in the
two lists are, up to order, the ids those calls returned. -/
theorem processTransfer_moves_one :
    (∀ (e : A2ATransfer) (tid : String) (processedAt completedAt : Nat) (hashDigits : String)
        (done : TransferRequest) (e2 : A2ATransfer),
      e.processTransfer tid processedAt completedAt hashDigits = (.ok done, e2) →
      ∃ i t, e.transferQueue[i]? = some t ∧ t.id = tid ∧
        (∀ j u, j < i → e.transferQueue[j]? = some u → u.id ≠ tid) ∧
        done = completedRecord t processedAt completedAt hashDigits ∧
        e2.transferQueue = e.transferQueue.eraseIdx i ∧
        e2.transferQueue.Sublist e.transferQueue ∧
        e2.transferQueue.length + 1 = e.transferQueue.length ∧
        e2.transferHistory = e.transferHistory ++ [done]) ∧
    (∀ (e : A2ATransfer) (tid : String) (processedAt completedAt : Nat) (hashDigits : String),
      (e.processTransfer tid processedAt completedAt hashDigits).2.transferQueue.length +
        (e.processTransfer tid processedAt completedAt hashDigits).2.transferHistory.length =
        e.transferQueue.length + e.transferHistory.length) ∧
    (∀ (e : A2ATransfer) (p : TransferParams) (now : Nat) (rand : Fin 10000)
        (createdAt : Nat),
      ((∃ r, (e.createTransfer p now rand createdAt).1 = .ok r) →
        (e.createTransfer p now rand createdAt).2.transferQueue.length +
          (e.createTransfer p now rand createdAt).2.transferHistory.length =
          e.transferQueue.length + e.transferHistory.length + 1) ∧
      ((∃ err, (e.createTransfer p now rand createdAt).1 = .error err) →
        (e.createTransfer p now rand createdAt).2.transferQueue.length +
          (e.createTransfer p now rand createdAt).2.transferHistory.length =
          e.transferQueue.length + e.transferHistory.length)) ∧
    (∀ (ps : List (Nat × Fin 10000)) (e : A2ATransfer), ReachableWith ps e →
      (∀ t, ¬ (t ∈ e.transferQueue ∧ t ∈ e.transferHistory)) ∧
      e.transferQueue.length + e.transferHistory.length = ps.length ∧
      ((e.transferQueue ++ e.transferHistory).map (fun t => t.id)).Perm
        (ps.map (fun p => transferId p.1 p.2))) := by
  refine ⟨?_, processTransfer_lengths, ?_, ?_⟩
  · intro e tid processedAt completedAt hashDigits done e2 h
    rcases processTransfer_cases e tid processedAt completedAt hashDigits with
      ⟨-, herr⟩ | ⟨i, t, hget, hid, hmin, hok⟩
    · rw [herr] at h
      cases h
    · rw [hok] at h
      simp only [Prod.mk.injEq, Except.ok.injEq] at h
      obtain ⟨hdone, he2⟩ := h
      subst hdone
      subst he2
      have hlt : i < e.transferQueue.length := by
        rcases List.getElem?_eq_some_iff.mp hget with ⟨h, -⟩
        exact h
      refine ⟨i, t, hget, hid, hmin, rfl, rfl, List.eraseIdx_sublist _ _, ?_, rfl⟩
      simp only [List.length_eraseIdx_of_lt hlt]
      omega
  · intro e p now rand createdAt
    constructor
    · rintro ⟨r, hr⟩
      obtain ⟨-, -, -, -, -, -, -, -, -, -, -, -, hst⟩ :=
        createTransfer_ok_inv e p now rand createdAt r hr
      rw [hst]
      simp only [List.length_append, List.length_singleton]
      omega
    · rintro ⟨err, herr⟩
      rw [createTransfer_error_state e p now rand createdAt err herr]
  · intro ps e hreach
    have hst := reachable_status hreach
    have hids := reachable_ids hreach
    refine ⟨?_, ?_, hids⟩
    · rintro t ⟨hq, hh⟩
      have h1 := (hst.1 t hq).1
      have h2 := (hst.2 t hh).1
      rw [h1] at h2
      cases h2
    · have := hids.length_eq
      simpa using this

/-- Witness for C24: the example request, processed on the engine that queues it
behind another request. -/
theorem processTransfer_moves_one_witness :
    (processedEngine.transferQueue.length + processedEngine.transferHistory.length =
      (queuedEngine.createTransfer exampleParams 1700000000500 7
        1700000000501).2.transferQueue.length +
      (queuedEngine.createTransfer exampleParams 1700000000500 7
        1700000000501).2.transferHistory.length) ∧
    ((queuedEngine.createTransfer exampleParams 1700000000500 7
        1700000000501).2.transferQueue.length +
      (queuedEngine.createTransfer exampleParams 1700000000500 7
        1700000000501).2.transferHistory.length =
      queuedEngine.transferQueue.length + queuedEngine.transferHistory.length + 1) :=
  ⟨processTransfer_moves_one.2.1 _ "transfer-1700000000500-7" 1700000000600 1700000002600
      "9f3c",
    (processTransfer_moves_one.2.2.1 queuedEngine exampleParams 1700000000500 7
      1700000000501).1 ⟨exampleRequest, queuedEngine_create⟩⟩

/-- C26. The history is append-only and its entries are never rewritten: after
`createTransfer` (succeeding or failing) the history is the list it was, and after
`processTransfer` run to completion it is the list it was, followed by the completed
request when the call succeeded and by nothing when it failed. -/
theorem history_append_only (e : A2ATransfer) :
    (∀ (p : TransferParams) (now : Nat) (rand : Fin 10000) (createdAt : Nat),
      (e.createTransfer p now rand createdAt).2.transferHistory = e.transferHistory) ∧
    (∀ (tid : String) (processedAt completedAt : Nat) (hashDigits : String),
      ∃ added, (e.processTransfer tid processedAt completedAt hashDigits).2.transferHistory =
          e.transferHistory ++ added ∧
        ((∃ done, (e.processTransfer tid processedAt completedAt hashDigits).1 = .ok done ∧
            added = [done]) ∨
          (∃ err, (e.processTransfer tid processedAt completedAt hashDigits).1 = .error err ∧
            added = []))) := by
  constructor
  · intro p now rand createdAt
    rcases createTransfer_cases e p now rand createdAt with ⟨err, h⟩ | ⟨r, h⟩ <;> rw [h]
  · intro tid processedAt completedAt hashDigits
    rcases processTransfer_cases e tid processedAt completedAt hashDigits with
      ⟨-, herr⟩ | ⟨i, t, -, -, -, hok⟩
    · rw [herr]
      exact ⟨[], by simp, Or.inr ⟨_, rfl, rfl⟩⟩
    · rw [hok]
      exact ⟨_, rfl, Or.inl ⟨_, rfl, rfl⟩⟩

/-- C29. The failure branch of `processTransfer` is never taken in a run to
completion: for every id carried by a queued request the call succeeds and returns
status `completed`; a failing call is the not-found case, which leaves the engine as
it was; and no reachable state holds a request with status `failed` or with an
`error` field. -/
theorem processTransfer_never_fails_midway :
    (∀ (e : A2ATransfer) (tid : String) (processedAt completedAt : Nat) (hashDigits : String),
      (∃ t ∈ e.transferQueue, t.id = tid) →
      ∃ done e2, e.processTransfer tid processedAt completedAt hashDigits = (.ok done, e2) ∧
        done.status = .completed ∧ done.id = tid) ∧
    (∀ (e : A2ATransfer) (tid : String) (processedAt completedAt : Nat) (hashDigits : String)
        (err : JSError) (e2 : A2ATransfer),
      e.processTransfer tid processedAt completedAt hashDigits = (.error err, e2) →
      err = .error ("Transfer with ID " ++ tid ++ " not found") ∧ e2 = e ∧
        ∀ t ∈ e.transferQueue, t.id ≠ tid) ∧
    (∀ (e : A2ATransfer), Reachable e →
      ∀ t ∈ e.transferQueue ++ e.transferHistory, t.status ≠ .failed ∧ t.error = none) := by
  refine ⟨?_, ?_, ?_⟩
  · rintro e tid processedAt completedAt hashDigits ⟨t0, ht0, hid0⟩
    rcases processTransfer_cases e tid processedAt completedAt hashDigits with
      ⟨hno, -⟩ | ⟨i, t, -, hid, -, hok⟩
    · exact absurd hid0 (hno t0 ht0)
    · exact ⟨_, _, hok, rfl, hid⟩
  · intro e tid processedAt completedAt hashDigits err e2 h
    rcases processTransfer_cases e tid processedAt completedAt hashDigits with
      ⟨hno, herr⟩ | ⟨i, t, -, -, -, hok⟩
    · rw [herr] at h
      simp only [Prod.mk.injEq, Except.error.injEq] at h
      exact ⟨h.1.symm, h.2.symm, hno⟩
    · rw [hok] at h
      simp only [Prod.mk.injEq] at h
      cases h.1
  · rintro e ⟨ps, hps⟩ t ht
    have hst := reachable_status hps
    rcases List.mem_append.mp ht with hq | hh
    · obtain ⟨h1, -, -, -, h5⟩ := hst.1 t hq
      exact ⟨by rw [h1]; decide, h5⟩
    · obtain ⟨h1, -, -, -, h5⟩ := hst.2 t hh
      exact ⟨by rw [h1]; decide, h5⟩

/-- Witness for C29: the request queued in `queuedEngine` is completed by
`processTransfer` on its id. -/
theorem processTransfer_never_fails_midway_witness :
    ∃ done e2, queuedEngine.processTransfer "transfer-1700000000000-42" 1 2 "ab" =
        (.ok done, e2) ∧
      done.status = .completed ∧ done.id = "transfer-1700000000000-42" :=
  processTransfer_never_fails_midway.1 queuedEngine "transfer-1700000000000-42" 1 2 "ab"
    ⟨_, by rw [queuedEngine_queue]; exact List.mem_singleton.mpr rfl, rfl⟩

/-- With `this.config` set, an input that passes the four validations is accepted:
`createTransfer` returns a request. -/
theorem createTransfer_of_valid (e : A2ATransfer) (config : TransferConfig)
    (p : TransferParams) (s t : String) (a : List Asset) (w : Wallet) (adr : String)
    (now : Nat) (rand : Fin 10000) (createdAt : Nat)
    (hcfg : e.config = some config)
    (hs : p.sourcePlatform = some s) (ht : p.targetPlatform = some t)
    (hs0 : s ≠ "") (ht0 : t ≠ "")
    (hsm : s ∈ e.supportedPlatforms) (htm : t ∈ e.supportedPlatforms)
    (ha : p.assets = some a) (hne : a ≠ [])
    (hw : p.wallet = some w) (hadr : w.address = some adr) (hadr0 : adr ≠ "") :
    ∃ r, (e.createTransfer p now rand createdAt).1 = .ok r := by
  have hc : (!e.supportedPlatforms.contains s || !e.supportedPlatforms.contains t) = false := by
    simp [hsm, htm]
  have hlen : (a.length == 0) = false := by
    cases a with
    | nil => exact absurd rfl hne
    | cons x xs => rfl
  have hfee := calculateFee_eq e config a hcfg
  refine ⟨⟨transferId now rand, s, t, a, adr, .pending, createdAt,
      max ((a.map (fun x => x.value.getD 0)).sum * (config.feePercentage / 100)) (1/100),
      none, none, none, none⟩, ?_⟩
  simp [A2ATransfer.createTransfer, hs, ht, falsyStr_some_of_ne hs0, falsyStr_some_of_ne ht0,
    hc, ha, hlen, hw, hadr, falsyStr_some_of_ne hadr0, hfee, hsm, htm, hne]

/-- C28. On an initialised engine `createTransfer` succeeds if and only if the four
validations pass: both platform ids non-empty, both in the supported list, `assets`
non-empty, `wallet.address` non-empty.  The configured `maxTransferSize` and
`minTransferValue` play no part: a valid request is accepted and queued also when it
has more assets than `maxTransferSize` or a total value below `minTransferValue`. -/
theorem createTransfer_succeeds_iff (e : A2ATransfer) (config : TransferConfig)
    (p : TransferParams) (now : Nat) (rand : Fin 10000) (createdAt : Nat)
    (hcfg : e.config = some config) :
    ((∃ r, (e.createTransfer p now rand createdAt).1 = .ok r) ↔
      ∃ s t a w adr, p.sourcePlatform = some s ∧ p.targetPlatform = some t ∧
        s ≠ "" ∧ t ≠ "" ∧ s ∈ e.supportedPlatforms ∧ t ∈ e.supportedPlatforms ∧
        p.assets = some a ∧ a ≠ [] ∧
        p.wallet = some w ∧ w.address = some adr ∧ adr ≠ "") ∧
    (∀ s t a w adr, p.sourcePlatform = some s → p.targetPlatform = some t →
        s ≠ "" → t ≠ "" → s ∈ e.supportedPlatforms → t ∈ e.supportedPlatforms →
        p.assets = some a → a ≠ [] →
        p.wallet = some w → w.address = some adr → adr ≠ "" →
        (config.maxTransferSize < (a.length : ℚ) ∨
          (a.map (fun x => x.value.getD 0)).sum < config.minTransferValue) →
      ∃ r, (e.createTransfer p now rand createdAt).1 = .ok r ∧
        (e.createTransfer p now rand createdAt).2.transferQueue = e.transferQueue ++ [r]) := by
  constructor
  · constructor
    · rintro ⟨r, hr⟩
      obtain ⟨h1, h2, h3, h4, h5, h6, h7, h8, ⟨w, hw, hadr⟩, h10, -, -, -⟩ :=
        createTransfer_ok_inv e p now rand createdAt r hr
      exact ⟨_, _, _, w, _, h1, h3, h2, h4, h5, h6, h7, h8, hw, hadr, h10⟩
    · rintro ⟨s, t, a, w, adr, hs, ht, hs0, ht0, hsm, htm, ha, hne, hw, hadr, hadr0⟩
      exact createTransfer_of_valid e config p s t a w adr now rand createdAt hcfg hs ht hs0
        ht0 hsm htm ha hne hw hadr hadr0
  · intro s t a w adr hs ht hs0 ht0 hsm htm ha hne hw hadr hadr0 _
    obtain ⟨r, hr⟩ := createTransfer_of_valid e config p s t a w adr now rand createdAt hcfg
      hs ht hs0 ht0 hsm htm ha hne hw hadr hadr0
    obtain ⟨-, -, -, -, -, -, -, -, -, -, -, -, hst⟩ :=
      createTransfer_ok_inv e p now rand createdAt r hr
    exact ⟨r, hr, by rw [hst]⟩

theorem init_default_config :
    (A2ATransfer.new.init).2.config = some
      { feePercentage := 3/2, maxTransferSize := 10, minTransferValue := 5,
        supportedPlatforms := none } := by
  simp [A2ATransfer.init, orDefault]

/-- Witness for C28: after `init()` with the defaults (`maxTransferSize = 10`,
`minTransferValue = 5`), a valid request with twelve assets of total value zero is
accepted and queued. -/
theorem createTransfer_succeeds_iff_witness :
    ∃ r, ((A2ATransfer.new.init).2.createTransfer oversizedParams 5 7 5).1 = .ok r ∧
      ((A2ATransfer.new.init).2.createTransfer oversizedParams 5 7 5).2.transferQueue =
        (A2ATransfer.new.init).2.transferQueue ++ [r] :=
  (createTransfer_succeeds_iff (A2ATransfer.new.init).2 _ oversizedParams 5 7 5
    init_default_config).2 "solana" "polygon" (List.replicate 12 {})
    { address := some "wallet-3" } "wallet-3" rfl rfl (by decide) (by decide) (by decide)
    (by decide) rfl (by decide) rfl rfl (by decide) (Or.inl (by norm_num))

/-- C30. On an engine on which `init` has not run, `createTransfer` with an input
that passes the four validations throws the `TypeError` of reading
`this.config.feePercentage`, before anything is queued: the engine is unchanged, and
the constructor's engine keeps its empty queue whatever the input.  After `init()`
with an empty config the fee percentage is the default `1.5`. -/
theorem createTransfer_needs_init :
    (∀ (e : A2ATransfer) (p : TransferParams) (s t : String) (a : List Asset) (w : Wallet)
        (adr : String) (now : Nat) (rand : Fin 10000) (createdAt : Nat),
      e.config = none →
      p.sourcePlatform = some s → p.targetPlatform = some t → s ≠ "" → t ≠ "" →
      s ∈ e.supportedPlatforms → t ∈ e.supportedPlatforms →
      p.assets = some a → a ≠ [] →
      p.wallet = some w → w.address = some adr → adr ≠ "" →
      e.createTransfer p now rand createdAt =
        (.error (.typeError "Cannot read properties of undefined (reading 'feePercentage')"),
          e)) ∧
    (∀ (p : TransferParams) (now : Nat) (rand : Fin 10000) (createdAt : Nat),
      (∃ err, (A2ATransfer.new.createTransfer p now rand createdAt).1 = .error err) ∧
      (A2ATransfer.new.createTransfer p now rand createdAt).2.transferQueue = []) ∧
    (∀ (e : A2ATransfer), ∃ c, (e.init {}).2.config = some c ∧ c.feePercentage = 3/2 ∧
      ∀ assets, (e.init {}).2._calculateFee assets =
        .ok (max ((assets.map (fun a => a.value.getD 0)).sum * ((3/2) / 100)) (1/100))) := by
  refine ⟨?_, ?_, ?_⟩
  · intro e p s t a w adr now rand createdAt hcfg hs ht hs0 ht0 hsm htm ha hne hw hadr hadr0
    have hc : (!e.supportedPlatforms.contains s || !e.supportedPlatforms.contains t) =
        false := by
      simp [hsm, htm]
    have hlen : (a.length == 0) = false := by
      cases a with
      | nil => exact absurd rfl hne
      | cons x xs => rfl
    have hfee : e._calculateFee a =
        .error (.typeError "Cannot read properties of undefined (reading 'feePercentage')") := by
      simp [A2ATransfer._calculateFee, hcfg]
    simp [A2ATransfer.createTransfer, hs, ht, falsyStr_some_of_ne hs0, falsyStr_some_of_ne ht0,
      hc, ha, hlen, hw, hadr, falsyStr_some_of_ne hadr0, hfee, hsm, htm, hne]
  · intro p now rand createdAt
    rcases createTransfer_cases A2ATransfer.new p now rand createdAt with ⟨err, h⟩ | ⟨r, h⟩
    · rw [h]
      exact ⟨⟨err, rfl⟩, rfl⟩
    · have hr : (A2ATransfer.new.createTransfer p now rand createdAt).1 = .ok r := by rw [h]
      obtain ⟨-, -, -, -, -, -, -, -, -, -, hfee, -, -⟩ :=
        createTransfer_ok_inv A2ATransfer.new p now rand createdAt r hr
      simp [A2ATransfer._calculateFee, A2ATransfer.new] at hfee
  · intro e
    have hcfg : (e.init {}).2.config = some
        { feePercentage := 3/2, maxTransferSize := 10, minTransferValue := 5,
          supportedPlatforms := none } := by
      simp [A2ATransfer.init, orDefault]
    exact ⟨_, hcfg, rfl, fun assets => calculateFee_eq _ _ assets hcfg⟩

/-- Witness for C30: the example request on the constructor's engine, before any
`init`. -/
theorem createTransfer_needs_init_witness :
    A2ATransfer.new.createTransfer exampleParams 5 7 5 =
      (.error (.typeError "Cannot read properties of undefined (reading 'feePercentage')"),
        A2ATransfer.new) :=
  createTransfer_needs_init.1 A2ATransfer.new exampleParams "solana" "ethereum"
    [{ value := some 100 }] { address := some "wallet-1" } "wallet-1" 5 7 5 rfl rfl rfl
    (by decide) (by decide) (by decide) (by decide) rfl (by simp) rfl rfl (by decide)

/-! ## The numeric value of the fees

The estimate of `checkTransferCompatibility` and the fee of `_calculateFee` as the
doubles the code computes. -/

/-! ### Rounding -/

theorem bitLengthAux_le_iff : ∀ (fuel n k : Nat), n ≤ fuel →
    (bitLengthAux fuel n ≤ k ↔ n < 2 ^ k) := by
  intro fuel
  induction fuel with
  | zero =>
    intro n k hn
    have h0 : n = 0 := Nat.le_zero.mp hn
    subst h0
    simp [bitLengthAux]
  | succ fuel ih =>
    intro n k hn
    by_cases h0 : n = 0
    · subst h0
      simp [bitLengthAux]
    · simp only [bitLengthAux, if_neg h0]
      cases k with
      | zero =>
        simp only [pow_zero, Nat.lt_one_iff]
        constructor
        · intro h
          omega
        · intro h
          exact absurd h h0
      | succ k =>
        have hle : n / 2 ≤ fuel := by omega
        rw [Nat.add_le_add_iff_right, ih (n / 2) k hle, pow_succ]
        exact Nat.div_lt_iff_lt_mul (by decide)

theorem bitLength_le_iff (n k : Nat) : bitLength n ≤ k ↔ n < 2 ^ k :=
  bitLengthAux_le_iff n n k (Nat.le_refl n)

theorem lt_bitLength_iff (n k : Nat) : k < bitLength n ↔ 2 ^ k ≤ n := by
  rw [← Nat.not_le, bitLength_le_iff, Nat.not_lt]

theorem bitLength_mono {n m : Nat} (h : n ≤ m) : bitLength n ≤ bitLength m := by
  rw [bitLength_le_iff]
  exact Nat.lt_of_le_of_lt h ((bitLength_le_iff m _).mp (Nat.le_refl _))

theorem lt_pow_bitLength (n : Nat) : n < 2 ^ bitLength n :=
  (bitLength_le_iff n _).mp (Nat.le_refl _)

theorem roundHalfEven_ge_div (n D : Nat) : n / D ≤ roundHalfEven n D := by
  unfold roundHalfEven
  simp only []
  split <;> omega

theorem roundHalfEven_le_succ_div (n D : Nat) : roundHalfEven n D ≤ n / D + 1 := by
  unfold roundHalfEven
  simp only []
  split <;> omega

theorem roundHalfEven_mono {n m : Nat} (D : Nat) (h : n ≤ m) :
    roundHalfEven n D ≤ roundHalfEven m D := by
  have hq : n / D ≤ m / D := Nat.div_le_div_right h
  rcases Nat.lt_or_eq_of_le hq with hlt | heq
  · exact Nat.le_trans (roundHalfEven_le_succ_div n D)
      (Nat.le_trans hlt (roundHalfEven_ge_div m D))
  · have hn := Nat.div_add_mod n D
    have hm := Nat.div_add_mod m D
    have hr : n % D ≤ m % D := by
      rw [heq] at hn
      omega
    unfold roundHalfEven
    simp only []
    rw [heq]
    by_cases hup : D < 2 * (n % D) ∨ (2 * (n % D) = D ∧ m / D % 2 = 1)
    · have hup2 : D < 2 * (m % D) ∨ (2 * (m % D) = D ∧ m / D % 2 = 1) := by
        rcases hup with h1 | ⟨h1, h2⟩
        · exact Or.inl (by omega)
        · by_cases h3 : 2 * (m % D) = D
          · exact Or.inr ⟨h3, h2⟩
          · exact Or.inl (by omega)
      rw [if_pos hup, if_pos hup2]
    · rw [if_neg hup]
      split <;> omega

theorem roundHalfEven_le_of_lt (n D B : Nat) (hD : 0 < D) (h : n < B * D) :
    roundHalfEven n D ≤ B := by
  have hq : n / D < B := (Nat.div_lt_iff_lt_mul hD).mpr h
  exact Nat.le_trans (roundHalfEven_le_succ_div n D) hq

theorem roundHalfEven_ge_of_le (n D B : Nat) (hD : 0 < D) (h : B * D ≤ n) :
    B ≤ roundHalfEven n D :=
  Nat.le_trans ((Nat.le_div_iff_mul_le hD).mpr h) (roundHalfEven_ge_div n D)

theorem roundHalfEven_of_dvd (n D : Nat) (hD : 0 < D) (h : D ∣ n) :
    roundHalfEven n D = n / D := by
  have hr : n % D = 0 := Nat.mod_eq_zero_of_dvd h
  unfold roundHalfEven
  simp only [hr]
  rw [if_neg]
  omega

theorem roundHalfEven_scale (n D c : Nat) (hc : 0 < c) :
    roundHalfEven (n * c) (D * c) = roundHalfEven n D := by
  unfold roundHalfEven
  simp only []
  rw [Nat.mul_div_mul_right n D hc, Nat.mul_mod_mul_right]
  have e1 : D * c < 2 * (n % D * c) ↔ D < 2 * (n % D) := by
    rw [← Nat.mul_assoc]
    exact Nat.mul_lt_mul_right hc
  have e2 : 2 * (n % D * c) = D * c ↔ 2 * (n % D) = D := by
    rw [← Nat.mul_assoc]
    exact Nat.mul_left_inj (Nat.pos_iff_ne_zero.mp hc)
  simp only [e1, e2]

theorem shift_upper (n d : Nat) (hd : 0 < d) :
    n < 2 ^ 53 * (d * 2 ^ bitLength (n / (d * 2 ^ 53))) := by
  have h := lt_pow_bitLength (n / (d * 2 ^ 53))
  have hpos : 0 < d * 2 ^ 53 := Nat.mul_pos hd (Nat.two_pow_pos _)
  have h2 := (Nat.div_lt_iff_lt_mul hpos).mp h
  calc n < 2 ^ bitLength (n / (d * 2 ^ 53)) * (d * 2 ^ 53) := h2
    _ = 2 ^ 53 * (d * 2 ^ bitLength (n / (d * 2 ^ 53))) := by ring

theorem shift_lower (n d : Nat) (hd : 0 < d) (hs : 0 < bitLength (n / (d * 2 ^ 53))) :
    2 ^ 52 * (d * 2 ^ bitLength (n / (d * 2 ^ 53))) ≤ n := by
  obtain ⟨k, hk⟩ : ∃ k, bitLength (n / (d * 2 ^ 53)) = k + 1 :=
    ⟨bitLength (n / (d * 2 ^ 53)) - 1, by omega⟩
  have h1 : k < bitLength (n / (d * 2 ^ 53)) := by omega
  have h2 := (lt_bitLength_iff _ _).mp h1
  have hpos : 0 < d * 2 ^ 53 := Nat.mul_pos hd (Nat.two_pow_pos _)
  have h3 := (Nat.le_div_iff_mul_le hpos).mp h2
  rw [hk]
  calc 2 ^ 52 * (d * 2 ^ (k + 1)) = 2 ^ k * (d * 2 ^ 53) := by ring
    _ ≤ n := h3

theorem roundUnits_mono (d : Nat) (hd : 0 < d) {n m : Nat} (h : n ≤ m) :
    roundUnits n d ≤ roundUnits m d := by
  have hs : bitLength (n / (d * 2 ^ 53)) ≤ bitLength (m / (d * 2 ^ 53)) :=
    bitLength_mono (Nat.div_le_div_right h)
  unfold roundUnits
  simp only []
  rcases Nat.lt_or_eq_of_le hs with hlt | heq
  · have hup := roundHalfEven_le_of_lt n (d * 2 ^ bitLength (n / (d * 2 ^ 53))) (2 ^ 53)
      (Nat.mul_pos hd (Nat.two_pow_pos _)) (shift_upper n d hd)
    have hlow := roundHalfEven_ge_of_le m (d * 2 ^ bitLength (m / (d * 2 ^ 53))) (2 ^ 52)
      (Nat.mul_pos hd (Nat.two_pow_pos _))
      (shift_lower m d hd (Nat.lt_of_le_of_lt (Nat.zero_le _) hlt))
    obtain ⟨k, hk⟩ : ∃ k, bitLength (m / (d * 2 ^ 53)) = bitLength (n / (d * 2 ^ 53)) + 1 + k :=
      ⟨bitLength (m / (d * 2 ^ 53)) - (bitLength (n / (d * 2 ^ 53)) + 1), by omega⟩
    calc roundHalfEven n (d * 2 ^ bitLength (n / (d * 2 ^ 53))) *
          2 ^ bitLength (n / (d * 2 ^ 53))
        ≤ 2 ^ 53 * 2 ^ bitLength (n / (d * 2 ^ 53)) := Nat.mul_le_mul_right _ hup
      _ ≤ 2 ^ 52 * 2 ^ bitLength (m / (d * 2 ^ 53)) := by
          rw [hk, pow_add, pow_add]
          have h1 : 1 ≤ 2 ^ k := Nat.one_le_two_pow
          calc 2 ^ 53 * 2 ^ bitLength (n / (d * 2 ^ 53))
              = 2 ^ 52 * (2 ^ bitLength (n / (d * 2 ^ 53)) * 2 ^ 1 * 1) := by ring
            _ ≤ 2 ^ 52 * (2 ^ bitLength (n / (d * 2 ^ 53)) * 2 ^ 1 * 2 ^ k) :=
                Nat.mul_le_mul_left _ (Nat.mul_le_mul_left _ h1)
      _ ≤ roundHalfEven m (d * 2 ^ bitLength (m / (d * 2 ^ 53))) *
          2 ^ bitLength (m / (d * 2 ^ 53)) := Nat.mul_le_mul_right _ hlow
  · rw [heq]
    exact Nat.mul_le_mul_right _ (roundHalfEven_mono _ h)

/-- The rounded value has at most 53 significant binary digits. -/
theorem roundUnits_representable (n d : Nat) (hd : 0 < d) :
    2 ^ bitLength (roundUnits n d / 2 ^ 53) ∣ roundUnits n d := by
  have hup := roundHalfEven_le_of_lt n (d * 2 ^ bitLength (n / (d * 2 ^ 53))) (2 ^ 53)
    (Nat.mul_pos hd (Nat.two_pow_pos _)) (shift_upper n d hd)
  unfold roundUnits
  simp only []
  generalize bitLength (n / (d * 2 ^ 53)) = s at hup
  generalize roundHalfEven n (d * 2 ^ s) = M at hup
  rcases Nat.lt_or_eq_of_le hup with hlt | heq
  · have hb : bitLength (M * 2 ^ s / 2 ^ 53) ≤ s := by
      rw [bitLength_le_iff]
      apply (Nat.div_lt_iff_lt_mul (Nat.two_pow_pos _)).mpr
      calc M * 2 ^ s < 2 ^ 53 * 2 ^ s := Nat.mul_lt_mul_of_pos_right hlt (Nat.two_pow_pos _)
        _ = 2 ^ s * 2 ^ 53 := Nat.mul_comm _ _
    exact Dvd.dvd.mul_left (pow_dvd_pow 2 hb) M
  · subst heq
    have hb : bitLength (2 ^ 53 * 2 ^ s / 2 ^ 53) ≤ s + 1 := by
      rw [bitLength_le_iff, Nat.mul_div_cancel_left _ (Nat.two_pow_pos _)]
      exact Nat.pow_lt_pow_right (by decide) (Nat.lt_succ_self s)
    have h53 : s + 1 ≤ 53 + s := by omega
    have hd2 := pow_dvd_pow 2 (Nat.le_trans hb h53)
    rw [pow_add] at hd2
    exact hd2

theorem roundHalfEven_two_le (n : Nat) : roundHalfEven n 2 ≤ n := by
  unfold roundHalfEven
  simp only []
  split <;> omega

/-- Halving a double is exact, except on an odd number of units, where the half is
rounded to the even neighbour. -/
theorem roundUnits_half (n : Nat) (hrep : 2 ^ bitLength (n / 2 ^ 53) ∣ n) :
    roundUnits (n * 2 ^ 1073) (2 ^ 1074) = roundHalfEven n 2 := by
  have hs : n * 2 ^ 1073 / (2 ^ 1074 * 2 ^ 53) = n / 2 ^ 54 := by
    have e : (2 : Nat) ^ 1074 * 2 ^ 53 = 2 ^ 54 * 2 ^ 1073 := by
      rw [← pow_add, ← pow_add]
    rw [e]
    exact Nat.mul_div_mul_right n (2 ^ 54) (pow_pos (by decide) 1073)
  unfold roundUnits
  simp only []
  rw [hs]
  have hD : ∀ s : Nat, (2 : Nat) ^ 1074 * 2 ^ s = (2 * 2 ^ s) * 2 ^ 1073 := by
    intro s
    have e : (2 : Nat) ^ 1074 = 2 * 2 ^ 1073 := by
      rw [← pow_succ']
    rw [e]
    ring
  rw [hD, roundHalfEven_scale n _ _ (Nat.two_pow_pos _)]
  by_cases h0 : bitLength (n / 2 ^ 54) = 0
  · rw [h0]
    simp
  · have hpos : 0 < bitLength (n / 2 ^ 54) := Nat.pos_of_ne_zero h0
    obtain ⟨k, hk⟩ : ∃ k, bitLength (n / 2 ^ 54) = k + 1 :=
      ⟨bitLength (n / 2 ^ 54) - 1, by omega⟩
    have h1 : k < bitLength (n / 2 ^ 54) := by omega
    have h2 := (lt_bitLength_iff _ _).mp h1
    have h3 := (Nat.le_div_iff_mul_le (Nat.two_pow_pos 54)).mp h2
    have h4 : 2 ^ (k + 1) ≤ n / 2 ^ 53 := by
      apply (Nat.le_div_iff_mul_le (Nat.two_pow_pos 53)).mpr
      calc 2 ^ (k + 1) * 2 ^ 53 = 2 ^ k * 2 ^ 54 := by ring
        _ ≤ n := h3
    have h5 : k + 1 < bitLength (n / 2 ^ 53) := (lt_bitLength_iff _ _).mpr h4
    have hdvd : 2 * 2 ^ (k + 1) ∣ n := by
      have e : 2 * 2 ^ (k + 1) = 2 ^ (k + 2) := by ring
      rw [e]
      exact Nat.dvd_trans (pow_dvd_pow 2 (by omega)) hrep
    rw [hk, roundHalfEven_of_dvd n _ (Nat.mul_pos (by decide) (Nat.two_pow_pos _)) hdvd]
    obtain ⟨c, hc⟩ := hdvd
    have h2dvd : 2 ∣ n := ⟨2 ^ (k + 1) * c, by rw [hc]; ring⟩
    rw [roundHalfEven_of_dvd n 2 (by decide) h2dvd, hc,
      Nat.mul_div_cancel_left c (Nat.mul_pos (by decide) (Nat.two_pow_pos _))]
    have e2 : 2 * 2 ^ (k + 1) * c = 2 * (c * 2 ^ (k + 1)) := by ring
    rw [e2, Nat.mul_div_cancel_left _ (by decide : 0 < 2)]

/-- The double operation `x + y` on finite operands, as a function of the exact sum. -/
theorem add_fin (x y : Int) :
    (JSDouble.fin x).add (.fin y) = JSDouble.round (decide (x + y < 0)) (x + y).natAbs 1 := by
  simp only [JSDouble.add]

theorem round_cases (neg : Bool) (n d : Nat) :
    (maxFiniteUnits < roundUnits n d ∧ JSDouble.round neg n d = .inf neg) ∨
    (roundUnits n d ≤ maxFiniteUnits ∧
      JSDouble.round neg n d = .fin (if neg then -(roundUnits n d : Int) else roundUnits n d)) := by
  unfold JSDouble.round
  by_cases h : maxFiniteUnits < roundUnits n d
  · exact Or.inl ⟨h, by rw [if_pos h]⟩
  · exact Or.inr ⟨Nat.le_of_not_lt h, by rw [if_neg h]⟩

/-- Rounding the exact sum is monotone. -/
theorem round_int_mono (x y : Int) (h : x ≤ y) :
    (JSDouble.round (decide (x < 0)) x.natAbs 1).le
      (JSDouble.round (decide (y < 0)) y.natAbs 1) = true := by
  by_cases hx : x < 0
  · by_cases hy : y < 0
    · have hab : y.natAbs ≤ x.natAbs := by omega
      have hr := roundUnits_mono 1 (by decide) hab
      simp only [hx, hy, decide_True]
      rcases round_cases true x.natAbs 1 with ⟨h1, e1⟩ | ⟨h1, e1⟩ <;>
        rcases round_cases true y.natAbs 1 with ⟨h2, e2⟩ | ⟨h2, e2⟩ <;>
        rw [e1, e2] <;> simp [JSDouble.le]
      · omega
      · exact hr
    · simp only [hx, hy, decide_True, decide_False]
      rcases round_cases true x.natAbs 1 with ⟨h1, e1⟩ | ⟨h1, e1⟩ <;>
        rcases round_cases false y.natAbs 1 with ⟨h2, e2⟩ | ⟨h2, e2⟩ <;>
        rw [e1, e2] <;> simp [JSDouble.le]
      omega
  · have hy : ¬ y < 0 := by omega
    have hab : x.natAbs ≤ y.natAbs := by omega
    have hr := roundUnits_mono 1 (by decide) hab
    simp only [hx, hy, decide_False]
    rcases round_cases false x.natAbs 1 with ⟨h1, e1⟩ | ⟨h1, e1⟩ <;>
      rcases round_cases false y.natAbs 1 with ⟨h2, e2⟩ | ⟨h2, e2⟩ <;>
      rw [e1, e2] <;> simp [JSDouble.le]
    · omega
    · exact_mod_cast hr

theorem half_units : JSDouble.ofFrac 1 2 = .fin (2 ^ 1073) := by
  decide!

theorem bridgeFee_units : JSDouble.ofFrac 3 2 = .fin (3 * 2 ^ 1073) := by
  decide!

/-- A finite result of rounding is a double: at most 53 significant binary digits,
and at most the largest finite double. -/
theorem round_valid (neg : Bool) (n d : Nat) (x : Int) (hd : 0 < d)
    (h : JSDouble.round neg n d = .fin x) :
    2 ^ bitLength (x.natAbs / 2 ^ 53) ∣ x.natAbs ∧ x.natAbs ≤ maxFiniteUnits := by
  rcases round_cases neg n d with ⟨-, e⟩ | ⟨hle, e⟩
  · rw [e] at h
    cases h
  · rw [e] at h
    have hx : x.natAbs = roundUnits n d := by
      simp only [JSDouble.fin.injEq] at h
      rw [← h]
      cases neg <;> simp
    rw [hx]
    exact ⟨roundUnits_representable n d hd, hle⟩

theorem ofRat_valid (q : ℚ) (x : Int) (h : JSDouble.ofRat q = .fin x) :
    2 ^ bitLength (x.natAbs / 2 ^ 53) ∣ x.natAbs ∧ x.natAbs ≤ maxFiniteUnits := by
  unfold JSDouble.ofRat JSDouble.ofFrac at h
  exact round_valid _ _ _ x q.den_pos h

theorem natAbs_mul_two_pow (x : Int) (k : Nat) : (x * 2 ^ k).natAbs = x.natAbs * 2 ^ k := by
  rw [Int.natAbs_mul, Int.natAbs_pow]
  rfl

/-- The half of a finite double, in units. -/
theorem mul_half (x : Int) (hrep : 2 ^ bitLength (x.natAbs / 2 ^ 53) ∣ x.natAbs)
    (hmax : x.natAbs ≤ maxFiniteUnits) :
    (JSDouble.fin x).mul (.fin (2 ^ 1073)) =
      .fin (if x < 0 then -(roundHalfEven x.natAbs 2 : Int) else roundHalfEven x.natAbs 2) := by
  have hp : (0 : Int) < 2 ^ 1073 := by positivity
  have hsign : (x * 2 ^ 1073 < 0) ↔ x < 0 := by
    constructor
    · intro h
      by_contra hx
      have := mul_nonneg (not_lt.mp hx) hp.le
      linarith
    · intro h
      exact mul_neg_of_neg_of_pos h hp
  have habs : (x * 2 ^ 1073).natAbs = x.natAbs * 2 ^ 1073 := natAbs_mul_two_pow x 1073
  have hmul : (JSDouble.fin x).mul (.fin (2 ^ 1073)) =
      JSDouble.round (decide (x * 2 ^ 1073 < 0)) (x * 2 ^ 1073).natAbs (2 ^ 1074) := by
    simp only [JSDouble.mul]
  rw [hmul, habs]
  rcases round_cases (decide (x * 2 ^ 1073 < 0)) (x.natAbs * 2 ^ 1073) (2 ^ 1074) with
    ⟨hover, -⟩ | ⟨-, e⟩
  · rw [roundUnits_half _ hrep] at hover
    have := roundHalfEven_two_le x.natAbs
    omega
  · rw [e, roundUnits_half _ hrep]
    by_cases hx : x < 0
    · have hd : decide (x * 2 ^ 1073 < 0) = true := decide_eq_true (hsign.mpr hx)
      rw [hd, if_pos rfl, if_pos hx]
    · have hd : decide (x * 2 ^ 1073 < 0) = false :=
        decide_eq_false (fun h => hx (hsign.mp h))
      rw [hd, if_neg Bool.false_ne_true, if_neg hx]

/-- The source weighs full and the target half: with `y <= x`, the exact sum
`y + half of x` is at most `x + half of y`. -/
theorem weighted_sum_le (x y : Int) (h : y ≤ x) :
    y + (if x < 0 then -(roundHalfEven x.natAbs 2 : Int) else roundHalfEven x.natAbs 2) ≤
      x + (if y < 0 then -(roundHalfEven y.natAbs 2 : Int) else roundHalfEven y.natAbs 2) := by
  unfold roundHalfEven
  simp only []
  split_ifs <;> omega

theorem round_ne_nan (neg : Bool) (n d : Nat) : JSDouble.round neg n d ≠ .nan := by
  rcases round_cases neg n d with ⟨-, e⟩ | ⟨-, e⟩ <;> rw [e] <;> exact JSDouble.noConfusion

theorem negInf_le (a : JSDouble) (h : a ≠ .nan) : (JSDouble.inf true).le a = true := by
  cases a with
  | nan => exact absurd rfl h
  | inf b => simp [JSDouble.le]
  | fin x => simp [JSDouble.le]

theorem le_posInf (a : JSDouble) (h : a ≠ .nan) : a.le (.inf false) = true := by
  cases a with
  | nan => exact absurd rfl h
  | inf b => simp [JSDouble.le]
  | fin x => simp [JSDouble.le]

/-- Adding a finite double is monotone. -/
theorem add_mono_left (a b : JSDouble) (c : Int) (h : a.le b = true) :
    (a.add (.fin c)).le (b.add (.fin c)) = true := by
  cases a with
  | nan => simp [JSDouble.le] at h
  | inf s =>
    cases b with
    | nan => simp [JSDouble.le] at h
    | inf s2 => simpa [JSDouble.add] using h
    | fin y =>
      have hs : s = true := by simpa [JSDouble.le] using h
      subst hs
      exact negInf_le _ (round_ne_nan _ _ _)
  | fin x =>
    cases b with
    | nan => simp [JSDouble.le] at h
    | inf s2 =>
      have hs : s2 = false := by simpa [JSDouble.le] using h
      subst hs
      exact le_posInf _ (round_ne_nan _ _ _)
    | fin y =>
      have hxy : x ≤ y := by simpa [JSDouble.le] using h
      rw [add_fin, add_fin]
      exact round_int_mono _ _ (by omega)

/-- With finite fees `y <= x`, the estimate with `x` on the source side is at least
the estimate with `y` on the source side. -/
theorem totalFee_mono (x y : Int) (b : Bool)
    (hx : 2 ^ bitLength (x.natAbs / 2 ^ 53) ∣ x.natAbs ∧ x.natAbs ≤ maxFiniteUnits)
    (hy : 2 ^ bitLength (y.natAbs / 2 ^ 53) ∣ y.natAbs ∧ y.natAbs ≤ maxFiniteUnits)
    (h : y ≤ x) :
    (totalFee (.fin y) (.fin x) b).le (totalFee (.fin x) (.fin y) b) = true := by
  unfold totalFee
  simp only []
  rw [half_units, bridgeFee_units, mul_half x hx.1 hx.2, mul_half y hy.1 hy.2]
  have hbase := round_int_mono _ _ (weighted_sum_le x y h)
  rw [← add_fin, ← add_fin] at hbase
  cases b
  · exact add_mono_left _ _ 0 hbase
  · exact add_mono_left _ _ (3 * 2 ^ 1073) hbase

/-! ### The estimate and the fee -/

theorem estimatedFee64_eq (reg : A2APlatforms) (s t : String)
    (rs rt : PlatformData) (hs : reg.own s = some rs) (ht : reg.own t = some rt)
    (hss : rs.fields.supported = some true) (hts : rt.fields.supported = some true) :
    reg.estimatedFee64 s t =
      some (totalFee (JSVal.object rs).transferFee64 (JSVal.object rt).transferFee64
        (requiresBridge s t)) := by
  simp only [A2APlatforms.estimatedFee64,
    checkTransferCompatibility_eq reg s t rs rt hs ht hss hts, get_of_own hs, get_of_own ht]

theorem transferFee64_of_fee (r : PlatformData) (q : ℚ) (h : r.fields.transferFee = some q) :
    (JSVal.object r).transferFee64 = JSDouble.ofRat q := by
  simp [JSVal.transferFee64, JSVal.transferFee, h]

/-- C1 (evaluation at the failing input). On the constructor's registry `polygon` is
registered and supported with `transferFee: 0.8`, stored as the double
`3602879701896397 / 2^52`, and `checkTransferCompatibility('polygon', 'polygon')`
needs no bridge; its `estimatedFee` is the double `1351079888211149 / 2^50`
(`1.2000000000000002`).  That is not `0.8 + 0.5 * 0.8 + 0 = 1.2`, nor the double
nearest to `1.2`, nor the exact sum over the stored double.  Likewise `flow -> flow`,
with `transferFee: 1.2`, is estimated at `2026619832316723 / 2^50`
(`1.7999999999999998`), not at the double nearest to `1.8`. -/
theorem estimatedFee_rounding :
    A2APlatforms.new.registered "polygon" ∧
    (A2APlatforms.new.get "polygon").supported = some true ∧
    (A2APlatforms.new.get "polygon").transferFee = some (4/5) ∧
    (A2APlatforms.new.get "polygon").transferFee64 = .fin (3602879701896397 * 2 ^ 1022) ∧
    (A2APlatforms.new.checkTransferCompatibility "polygon" "polygon").requiresBridge =
      some false ∧
    A2APlatforms.new.estimatedFee64 "polygon" "polygon" =
      some (.fin (1351079888211149 * 2 ^ 1024)) ∧
    (JSDouble.fin (1351079888211149 * 2 ^ 1024)).toRat = some (1351079888211149 / 2 ^ 50) ∧
    (JSDouble.fin (1351079888211149 * 2 ^ 1024)).toRat ≠ some (4/5 + (1/2) * (4/5) + 0) ∧
    JSDouble.fin (1351079888211149 * 2 ^ 1024) ≠ JSDouble.ofRat (4/5 + (1/2) * (4/5) + 0) ∧
    (JSDouble.fin (1351079888211149 * 2 ^ 1024)).toRat ≠
      some (3602879701896397 / 2 ^ 52 + (1/2) * (3602879701896397 / 2 ^ 52) + 0) ∧
    (A2APlatforms.new.get "flow").transferFee = some (6/5) ∧
    A2APlatforms.new.estimatedFee64 "flow" "flow" =
      some (.fin (2026619832316723 * 2 ^ 1024)) ∧
    JSDouble.fin (2026619832316723 * 2 ^ 1024) ≠ JSDouble.ofRat (6/5 + (1/2) * (6/5) + 0) := by
  refine ⟨by decide, by decide, by decide!, by decide!, by decide, by decide!, ?_, ?_,
    by decide!, ?_, by decide!, by decide!, by decide!⟩
  · norm_num [JSDouble.toRat]
  · norm_num [JSDouble.toRat]
  · norm_num [JSDouble.toRat]

/-- C1 (amended). For every registry and every pair of registered platforms that are
both supported, `checkTransferCompatibility` answers `compatible = true`, with
`requiresBridge` given by the bridge rule and, the two stored fees being `fs` and
`ft`, `estimatedFee = (fs + ft * 0.5) + (1.5 if requiresBridge else 0)` where each of
the three operations is the double operation: its exact result rounded to the nearest
double, ties to even. -/
theorem checkTransferCompatibility_supported (reg : A2APlatforms) (s t : String)
    (rs rt : PlatformData) (hs : reg.own s = some rs) (ht : reg.own t = some rt)
    (hss : rs.fields.supported = some true) (hts : rt.fields.supported = some true) :
    (reg.checkTransferCompatibility s t).isCompatible = true ∧
    (reg.checkTransferCompatibility s t).requiresBridge = some (requiresBridge s t) ∧
    ∀ fs ft : ℚ, rs.fields.transferFee = some fs → rt.fields.transferFee = some ft →
      reg.estimatedFee64 s t =
        some (((JSDouble.ofRat fs).add ((JSDouble.ofRat ft).mul (JSDouble.ofFrac 1 2))).add
          (if requiresBridge s t then JSDouble.ofFrac 3 2 else JSDouble.fin 0)) := by
  have h := checkTransferCompatibility_eq reg s t rs rt hs ht hss hts
  refine ⟨by rw [h]; rfl, by rw [h]; rfl, ?_⟩
  intro fs ft hfs hft
  rw [estimatedFee64_eq reg s t rs rt hs ht hss hts, transferFee64_of_fee rs fs hfs,
    transferFee64_of_fee rt ft hft]
  rfl

/-- Witness for C1 (amended): the constructor's registry at `solana -> ethereum`,
where the answer is compatible, without bridge, and no operation rounds:
`0.5 + 2 * 0.5 + 0 = 1.5`. -/
theorem checkTransferCompatibility_supported_witness :
    (A2APlatforms.new.checkTransferCompatibility "solana" "ethereum").isCompatible = true ∧
    (A2APlatforms.new.checkTransferCompatibility "solana" "ethereum").requiresBridge =
      some false ∧
    A2APlatforms.new.estimatedFee64 "solana" "ethereum" = some (.fin (3 * 2 ^ 1073)) ∧
    (JSDouble.fin (3 * 2 ^ 1073)).toRat = some (3/2) := by
  have h := checkTransferCompatibility_supported A2APlatforms.new "solana" "ethereum" _ _
    rfl rfl rfl rfl
  have hb : requiresBridge "solana" "ethereum" = false := by decide
  refine ⟨h.1, by rw [h.2.1, hb], ?_, ?_⟩
  · rw [h.2.2 (1/2) 2 rfl rfl]
    decide!
  · norm_num [JSDouble.toRat]

theorem calculateFee64_eq (e : A2ATransfer) (config : TransferConfig)
    (assets : List Asset) (h : e.config = some config) :
    e._calculateFee64 assets =
      .ok ((((assets.map Asset.value64).foldl JSDouble.add (.fin 0)).mul
        ((JSDouble.ofRat config.feePercentage).divNat 100)).max (JSDouble.ofFrac 1 100)) := by
  simp only [A2ATransfer._calculateFee64, h, List.foldl_map]

theorem max_floor (x : JSDouble) (k : Int) (h : x.max (.fin k) ≠ .nan) :
    (JSDouble.fin k).le (x.max (.fin k)) = true := by
  cases x with
  | nan => exact absurd rfl h
  | inf b =>
    cases b <;> simp [JSDouble.max, JSDouble.le]
  | fin y =>
    by_cases hy : y ≤ k
    · simp [JSDouble.max, JSDouble.le, hy]
    · simp [JSDouble.max, JSDouble.le, hy]
      omega

theorem floor_units : JSDouble.ofFrac 1 100 = .fin (5764607523034235 * 2 ^ 1015) := by
  decide!

/-- C6 (evaluation at the failing inputs). On the example engine
(`feePercentage = 1.5`) the assets `[{ value: 100.1 }, { value: 200.2 }]` cost the
double `5071616130372599 / 2^50` (`4.504499999999999`), which is not
`max((100.1 + 200.2) * (1.5 / 100), 0.01) = 4.5045` nor the double nearest to it; at
`feePercentage = 100` the assets `[{ value: 2^53 }, { value: 1 }]` cost `2^53`, the
sum `2^53 + 1` being no double; and after `init({ feePercentage: 0 })` the assets
`[{ value: 1e308 }, { value: 1e308 }]` cost `NaN` (the sum overflows to `Infinity`,
and `Infinity * 0` is `NaN`), which is not at or above the floor. -/
theorem calculateFee_rounding :
    (exampleEngine._calculateFee64
      [{ value := some (1001/10) }, { value := some (1001/5) }]).toOption =
        some (.fin (5071616130372599 * 2 ^ 1024)) ∧
    (JSDouble.fin (5071616130372599 * 2 ^ 1024)).toRat = some (5071616130372599 / 2 ^ 50) ∧
    (JSDouble.fin (5071616130372599 * 2 ^ 1024)).toRat ≠
      some (max ((1001/10 + 1001/5) * ((3/2) / 100)) (1/100)) ∧
    JSDouble.fin (5071616130372599 * 2 ^ 1024) ≠
      JSDouble.ofRat (max ((1001/10 + 1001/5) * ((3/2) / 100)) (1/100)) ∧
    ((A2ATransfer.new.init { feePercentage := some 100 }).2._calculateFee64
      [{ value := some (2 ^ 53) }, { value := some 1 }]).toOption =
        some (.fin (2 ^ 53 * 2 ^ 1074)) ∧
    ((A2ATransfer.new.init { feePercentage := some 0 }).2._calculateFee64
      [{ value := some (10 ^ 308) }, { value := some (10 ^ 308) }]).toOption = some .nan ∧
    (JSDouble.ofFrac 1 100).le .nan = false := by
  refine ⟨by decide!, ?_, ?_, by decide!, by decide!, by decide!, by decide!⟩
  · norm_num [JSDouble.toRat]
  · norm_num [JSDouble.toRat]

/-- C6 (amended). On an initialised engine, for every asset list,
`_calculateFee(assets) = Math.max(total * (feePercentage / 100), 0.01)` where `total`
adds `asset.value || 0` over the assets from left to right, starting at `0`, and every
operation is the double operation (exact result rounded to the nearest double, ties to
even); whenever the fee is a number (not `NaN`) it is at or above `0.01`; and one
asset of value `100` at `feePercentage = 1.5` costs `1.5`. -/
theorem calculateFee_formula (e : A2ATransfer) (config : TransferConfig)
    (assets : List Asset) (h : e.config = some config) :
    e._calculateFee64 assets =
      .ok ((((assets.map Asset.value64).foldl JSDouble.add (.fin 0)).mul
        ((JSDouble.ofRat config.feePercentage).divNat 100)).max (JSDouble.ofFrac 1 100)) ∧
    (∀ fee, e._calculateFee64 assets = .ok fee → fee ≠ .nan →
      (JSDouble.ofFrac 1 100).le fee = true) ∧
    (config.feePercentage = 3/2 →
      e._calculateFee64 [{ value := some 100 }] = .ok (.fin (3 * 2 ^ 1073))) := by
  refine ⟨calculateFee64_eq e config assets h, ?_, ?_⟩
  · intro fee hfee hnan
    rw [calculateFee64_eq e config assets h] at hfee
    cases hfee
    rw [floor_units] at hnan ⊢
    exact max_floor _ _ hnan
  · intro hpct
    rw [calculateFee64_eq e config _ h, hpct]
    exact congrArg Except.ok (by decide!)

/-- Witness for C6 (amended): the example scenario, `max(100 * (1.5 / 100), 0.01)`,
which is `1.5` in doubles as well. -/
theorem calculateFee_formula_witness :
    exampleEngine._calculateFee64 [{ value := some 100 }] = .ok (.fin (3 * 2 ^ 1073)) ∧
    (JSDouble.fin (3 * 2 ^ 1073)).toRat = some (3/2) :=
  ⟨(calculateFee_formula exampleEngine
    { feePercentage := 3/2, maxTransferSize := 10, minTransferValue := 5,
      supportedPlatforms := none }
    [{ value := some 100 }] exampleEngine_config).2.2 rfl, by norm_num [JSDouble.toRat]⟩

/-- C17 (evaluation at the failing input). On the example engine, whose queue is
empty, `createTransfer` accepts two assets worth `0.7` and `0.1`, and
`getPendingTransfers` then returns exactly the new request, with status `pending`.
Its fee, `_calculateFee` of these assets, is the double `6917529027641081 / 2^59`
(`0.011999999999999999`): not `max(0.8 * 1.5 / 100, 0.01) = 0.012`, nor the double
nearest to it, which is also what `(total * feePercentage) / 100` gives in doubles. -/
theorem pendingFee_rounding :
    exampleEngine.transferQueue = [] ∧
    (∃ r, (exampleEngine.createTransfer smallAssetsParams 5 7 5).1 = .ok r ∧
      (exampleEngine.createTransfer smallAssetsParams 5 7 5).2.getPendingTransfers
        "wallet-1" = [r] ∧
      r.status = .pending ∧
      r.assets = [{ value := some (7/10) }, { value := some (1/10) }]) ∧
    (exampleEngine._calculateFee64
      [{ value := some (7/10) }, { value := some (1/10) }]).toOption =
        some (.fin (6917529027641081 * 2 ^ 1015)) ∧
    (JSDouble.fin (6917529027641081 * 2 ^ 1015)).toRat ≠
      some (max ((7/10 + 1/10) * (3/2) / 100) (1/100)) ∧
    JSDouble.fin (6917529027641081 * 2 ^ 1015) ≠
      JSDouble.ofRat (max ((7/10 + 1/10) * (3/2) / 100) (1/100)) ∧
    JSDouble.fin (6917529027641081 * 2 ^ 1015) ≠
      (((((JSDouble.ofRat (7/10)).add (JSDouble.ofRat (1/10))).mul
        (JSDouble.ofRat (3/2))).divNat 100).max (JSDouble.ofFrac 1 100)) := by
  refine ⟨rfl, ?_, by decide!, ?_, by decide!, by decide!⟩
  · obtain ⟨r, hr⟩ := createTransfer_of_valid exampleEngine _ smallAssetsParams "solana"
      "ethereum" [{ value := some (7/10) }, { value := some (1/10) }]
      { address := some "wallet-1" } "wallet-1" 5 7 5 exampleEngine_config rfl rfl
      (by decide) (by decide) (by decide) (by decide) rfl (List.cons_ne_nil _ _) rfl rfl
      (by decide)
    obtain ⟨-, -, -, -, -, -, ha, -, ⟨w, hw, hadr⟩, -, -, hrec, hst⟩ :=
      createTransfer_ok_inv exampleEngine smallAssetsParams 5 7 5 r hr
    have hwallet : r.wallet = "wallet-1" := by
      simp only [smallAssetsParams, Option.some.injEq] at hw
      rw [← hw] at hadr
      simpa using hadr.symm
    have hassets : r.assets = [{ value := some (7/10) }, { value := some (1/10) }] := by
      simp only [smallAssetsParams, Option.some.injEq] at ha
      exact ha.symm
    refine ⟨r, hr, ?_, by rw [hrec], hassets⟩
    rw [hst]
    have hq : exampleEngine.transferQueue = [] := rfl
    simp [A2ATransfer.getPendingTransfers, hq, hwallet]
  · norm_num [JSDouble.toRat]

/-- C27 (evaluation at the failing inputs). On the constructor's registry the
estimates `ethereum -> polygon` and `polygon -> ethereum` are the doubles
`5404319552844595 / 2^51` (`2.4`) and `8106479329266893 / 2^52` (`1.8`), whose
difference is neither `0.5 * (2 - 0.8)` nor half the difference of the two stored
doubles.  And with `solana` at fee `3` and `ethereum` at the next double above `3`,
both estimates are `4.5`, so `estimatedFee(solana, ethereum) >= estimatedFee(ethereum,
solana)` holds although the fee of `solana` is below the fee of `ethereum`. -/
theorem estimatedFee_asymmetry_rounding :
    A2APlatforms.new.estimatedFee64 "ethereum" "polygon" =
      some (.fin (5404319552844595 * 2 ^ 1023)) ∧
    A2APlatforms.new.estimatedFee64 "polygon" "ethereum" =
      some (.fin (8106479329266893 * 2 ^ 1022)) ∧
    (A2APlatforms.new.get "ethereum").transferFee = some 2 ∧
    (A2APlatforms.new.get "polygon").transferFee = some (4/5) ∧
    (A2APlatforms.new.get "polygon").transferFee64 = .fin (3602879701896397 * 2 ^ 1022) ∧
    (∀ a b : ℚ, (JSDouble.fin (5404319552844595 * 2 ^ 1023)).toRat = some a →
      (JSDouble.fin (8106479329266893 * 2 ^ 1022)).toRat = some b →
      a - b ≠ (1/2) * (2 - 4/5) ∧ a - b ≠ (1/2) * (2 - 3602879701896397 / 2 ^ 52)) ∧
    closeFeesRegistry.registered "solana" ∧ closeFeesRegistry.registered "ethereum" ∧
    (closeFeesRegistry.get "solana").supported = some true ∧
    (closeFeesRegistry.get "ethereum").supported = some true ∧
    (closeFeesRegistry.get "solana").transferFee64 = .fin (3 * 2 ^ 1074) ∧
    (closeFeesRegistry.get "ethereum").transferFee64 = .fin (6755399441055745 * 2 ^ 1023) ∧
    closeFeesRegistry.estimatedFee64 "solana" "ethereum" = some (.fin (9 * 2 ^ 1073)) ∧
    closeFeesRegistry.estimatedFee64 "ethereum" "solana" = some (.fin (9 * 2 ^ 1073)) ∧
    closeFeesRegistry.estimateGe "solana" "ethereum" = true ∧
    closeFeesRegistry.feeGe "solana" "ethereum" = false := by
  refine ⟨by decide!, by decide!, by decide!, by decide!, by decide!, ?_, by decide!,
    by decide!, by decide!, by decide!, by decide!, by decide!, by decide!, by decide!,
    by decide!, by decide!⟩
  intro a b ha hb
  simp only [JSDouble.toRat, Option.some.injEq] at ha hb
  rw [← ha, ← hb]
  constructor <;> norm_num

theorem estimateGe_of_feeGe (reg : A2APlatforms) (s t : String)
    (rs rt : PlatformData) (x y : Int)
    (hs : reg.own s = some rs) (ht : reg.own t = some rt)
    (hss : rs.fields.supported = some true) (hts : rt.fields.supported = some true)
    (hvx : 2 ^ bitLength (x.natAbs / 2 ^ 53) ∣ x.natAbs ∧ x.natAbs ≤ maxFiniteUnits)
    (hvy : 2 ^ bitLength (y.natAbs / 2 ^ 53) ∣ y.natAbs ∧ y.natAbs ≤ maxFiniteUnits)
    (hx : (JSVal.object rs).transferFee64 = .fin x)
    (hy : (JSVal.object rt).transferFee64 = .fin y)
    (hge : reg.feeGe s t = true) : reg.estimateGe s t = true := by
  have hyx : y ≤ x := by
    simpa [A2APlatforms.feeGe, get_of_own hs, get_of_own ht, hx, hy, JSDouble.le] using hge
  unfold A2APlatforms.estimateGe
  rw [estimatedFee64_eq reg s t rs rt hs ht hss hts,
    estimatedFee64_eq reg t s rt rs ht hs hts hss, requiresBridge_comm t s, hx, hy]
  exact totalFee_mono x y (requiresBridge s t) hvx hvy hyx

/-- C27 (amended). The fee estimate weighs the source side double: for every pair of
registered, supported platforms with stored fees `fs` and `ft`, `estimatedFee(s, t)`
is the double sum `(fs + ft * 0.5) + b` and `estimatedFee(t, s)` is
`(ft + fs * 0.5) + b`, with the same bridge surcharge `b` in both directions.  Hence
the two estimates are equal when the two fees are, and when both fees are finite
doubles, `s.transferFee >= t.transferFee` implies
`estimatedFee(s, t) >= estimatedFee(t, s)`; the converse holds for the five platforms
of the constructor's registry. -/
theorem estimatedFee_asymmetry (reg : A2APlatforms) (s t : String)
    (rs rt : PlatformData) (fs ft : ℚ)
    (hs : reg.own s = some rs) (ht : reg.own t = some rt)
    (hss : rs.fields.supported = some true) (hts : rt.fields.supported = some true)
    (hfs : rs.fields.transferFee = some fs) (hft : rt.fields.transferFee = some ft) :
    reg.estimatedFee64 s t =
      some (((JSDouble.ofRat fs).add ((JSDouble.ofRat ft).mul (JSDouble.ofFrac 1 2))).add
        (if requiresBridge s t then JSDouble.ofFrac 3 2 else JSDouble.fin 0)) ∧
    reg.estimatedFee64 t s =
      some (((JSDouble.ofRat ft).add ((JSDouble.ofRat fs).mul (JSDouble.ofFrac 1 2))).add
        (if requiresBridge s t then JSDouble.ofFrac 3 2 else JSDouble.fin 0)) ∧
    (fs = ft → reg.estimatedFee64 s t = reg.estimatedFee64 t s) ∧
    (∀ x y : Int, JSDouble.ofRat fs = .fin x → JSDouble.ofRat ft = .fin y →
      reg.feeGe s t = true → reg.estimateGe s t = true) ∧
    (∀ a ∈ ["solana", "ethereum", "polygon", "immutablex", "flow"],
      ∀ b ∈ ["solana", "ethereum", "polygon", "immutablex", "flow"],
        A2APlatforms.new.estimateGe a b = A2APlatforms.new.feeGe a b) := by
  have h1 : reg.estimatedFee64 s t =
      some (((JSDouble.ofRat fs).add ((JSDouble.ofRat ft).mul (JSDouble.ofFrac 1 2))).add
        (if requiresBridge s t then JSDouble.ofFrac 3 2 else JSDouble.fin 0)) := by
    rw [estimatedFee64_eq reg s t rs rt hs ht hss hts, transferFee64_of_fee rs fs hfs,
      transferFee64_of_fee rt ft hft]
    rfl
  have h2 : reg.estimatedFee64 t s =
      some (((JSDouble.ofRat ft).add ((JSDouble.ofRat fs).mul (JSDouble.ofFrac 1 2))).add
        (if requiresBridge s t then JSDouble.ofFrac 3 2 else JSDouble.fin 0)) := by
    rw [estimatedFee64_eq reg t s rt rs ht hs hts hss, transferFee64_of_fee rs fs hfs,
      transferFee64_of_fee rt ft hft, requiresBridge_comm t s]
    rfl
  refine ⟨h1, h2, ?_, ?_, by decide!⟩
  · intro hfe
    rw [h1, h2, hfe]
  · intro x y hx hy hge
    exact estimateGe_of_feeGe reg s t rs rt x y hs ht hss hts (ofRat_valid fs x hx)
      (ofRat_valid ft y hy) (by rw [transferFee64_of_fee rs fs hfs, hx])
      (by rw [transferFee64_of_fee rt ft hft, hy]) hge

/-- Witness for C27 (amended): the constructor's registry at `ethereum` (fee `2`) and
`solana` (fee `0.5`), where the two estimates are `2.25` and `1.5`. -/
theorem estimatedFee_asymmetry_witness :
    A2APlatforms.new.estimatedFee64 "ethereum" "solana" = some (.fin (9 * 2 ^ 1072)) ∧
    A2APlatforms.new.estimatedFee64 "solana" "ethereum" = some (.fin (3 * 2 ^ 1073)) ∧
    A2APlatforms.new.feeGe "ethereum" "solana" = true ∧
    A2APlatforms.new.estimateGe "ethereum" "solana" = true := by
  have h := estimatedFee_asymmetry A2APlatforms.new "ethereum" "solana" _ _ 2 (1/2)
    rfl rfl rfl rfl rfl rfl
  have hge : A2APlatforms.new.feeGe "ethereum" "solana" = true := by decide!
  refine ⟨?_, ?_, hge, ?_⟩
  · rw [h.1]
    decide!
  · rw [h.2.1]
    decide!
  · exact h.2.2.2.1 (2 * 2 ^ 1074) (2 ^ 1073) (by decide!) (by decide!) hge

end EqicGames
